import Mathlib


/-!
Verification of the `TileFile` container codec (`src/old/main.py`).

Byte strings are modelled as `List Nat`; every byte-producing operation
emits values `< 256` and every byte-consuming operation reduces its input
mod 256, matching Python `bytes` (whose elements are always in `[0, 255]`).
LZ4 block compression/decompression (`lz4.block`) is an external library
and is modelled as an abstract pair of functions passed as parameters, as
are the category read/write codecs from the `readwrite` package (the spec
treats both as pluggable external collaborators).
-/

set_option maxHeartbeats 1000000
set_option maxRecDepth 100000

namespace Tile

/-- Little-endian serialization of `v` into `w` bytes, as done by
`struct.pack` for the unsigned integer codes (low byte first). -/
def toLE : Nat → Nat → List Nat
  | 0, _ => []
  | w + 1, v => v % 256 :: toLE w (v / 256)

/-- Little-endian deserialization as done by `struct.unpack`; each byte is
reduced mod 256 (Python bytes always satisfy this). -/
def fromLE : List Nat → Nat
  | [] => 0
  | b :: bs => b % 256 + 256 * fromLE bs

/-- `data[off : off+len]` (Python slice semantics: truncated at the end). -/
def sliceN (data : List Nat) (off len : Nat) : List Nat :=
  (data.drop off).take len

/-- `TileFile.MAGIC_KEY` — the four bytes "TILE" read as a little-endian
32-bit integer. -/
def MAGIC_KEY : Nat := 0x454C4954

/-- `TileFile.CELL_HEADER_SIZE` — the number of 32-bit fields of one cell
header record. -/
def CELL_HEADER_SIZE : Nat := 97

/-- `TileFile.CELL_DATA_SIZE` — the byte size of one cell header record. -/
def CELL_DATA_SIZE : Nat := 388

/-- The dictionary built by `TileFile.parse_header`.  The Python code keeps
`uuid` as the hex string of the 16 raw bytes; since `bytes.hex` and
`bytes.fromhex` are mutually inverse, it is modelled as the byte list. -/
structure FileHeader where
  version : Nat
  uuid : List Nat
  creator_id : Nat
  width : Nat
  height : Nat
  cell_header_offset : Nat
  cell_header_size : Nat
  some_val1 : Nat
  some_val2 : Nat
  vtype : Nat
deriving DecidableEq, Repr

/-- `TileFile.parse_header`: `struct.unpack_from("<I I 16s Q I I I I I I I",
data, 0)` (60 bytes; raises `struct.error` on a shorter buffer), then the
magic-key check, then the header dictionary. -/
def parse_header (data : List Nat) : Except String FileHeader :=
  if data.length < 60 then
    .error "struct.error: unpack_from requires a buffer of at least 60 bytes"
  else
    if fromLE (sliceN data 0 4) ≠ MAGIC_KEY then
      .error "Invalid .tile file: Missing MAGIC_KEY"
    else
      .ok {
        version := fromLE (sliceN data 4 4)
        uuid := (sliceN data 8 16).map (· % 256)
        creator_id := fromLE (sliceN data 24 8)
        width := fromLE (sliceN data 32 4)
        height := fromLE (sliceN data 36 4)
        cell_header_offset := fromLE (sliceN data 40 4)
        cell_header_size := fromLE (sliceN data 44 4)
        some_val1 := fromLE (sliceN data 48 4)
        some_val2 := fromLE (sliceN data 52 4)
        vtype := fromLE (sliceN data 56 4) }

/-- `struct.pack "<I"`: raises `struct.error` when the argument does not fit
in an unsigned 32-bit integer. -/
def packU32 (v : Nat) : Except String (List Nat) :=
  if v < 2 ^ 32 then .ok (toLE 4 v)
  else .error "struct.error: argument out of range"

/-- `struct.pack "<Q"`. -/
def packU64 (v : Nat) : Except String (List Nat) :=
  if v < 2 ^ 64 then .ok (toLE 8 v)
  else .error "struct.error: argument out of range"

/-- `struct.pack "<16s"`: truncates to 16 bytes or pads with zero bytes. -/
def pack16s (s : List Nat) : List Nat :=
  ((s.map (· % 256)).take 16) ++ List.replicate (16 - s.length) 0

/-- `TileFile.write_header`: serializes the header fields in order onto
`new_data` (modelled with `new_data = []`, as in `write_file`). -/
def write_header (h : FileHeader) : Except String (List Nat) := do
  let b0 ← packU32 MAGIC_KEY
  let b1 ← packU32 h.version
  let b2 := pack16s h.uuid
  let b3 ← packU64 h.creator_id
  let b4 ← packU32 h.width
  let b5 ← packU32 h.height
  let b6 ← packU32 h.cell_header_offset
  let b7 ← packU32 h.cell_header_size
  let b8 ← packU32 h.some_val1
  let b9 ← packU32 h.some_val2
  let b10 ← packU32 h.vtype
  pure (b0 ++ (b1 ++ (b2 ++ (b3 ++ (b4 ++ (b5 ++ (b6 ++ (b7 ++ (b8 ++ (b9 ++ b10))))))))))

/-- A header whose `uuid` field really is 16 raw bytes (every header built
by `parse_header` satisfies this). -/
def WFHeader (h : FileHeader) : Prop :=
  h.uuid.length = 16 ∧ ∀ b ∈ h.uuid, b < 256

/-- The per-category descriptor data of one cell header, as parsed by
`TileFile.parse_cell_header`: scalar categories store single integers, the
others fixed-length integer tuples; `count` is absent for `mip`/`clutter`. -/
inductive CatData where
  | scalar (count : Option Int) (index compressed size : Int)
  | multi (count : Option (List Int)) (index compressed size : List Int)
deriving DecidableEq, Repr

/-- The dictionary built by `TileFile.parse_cell_header`, in insertion
order. -/
abbrev CellHeader := List (String × CatData)

/-- `struct.unpack "<...97i...>"` field reader: 4-byte little-endian signed. -/
def readI32 (bs : List Nat) : Int :=
  if fromLE bs < 2 ^ 31 then (fromLE bs : Int) else (fromLE bs : Int) - 2 ^ 32

/-- `struct.pack "<i"`: out-of-range values raise `struct.error`. -/
def packI32 (v : Int) : Except String (List Nat) :=
  if -(2 ^ 31) ≤ v ∧ v < 2 ^ 31 then .ok (toLE 4 (v % 2 ^ 32).toNat)
  else .error "struct.error: argument out of range"

def packI32s : List Int → Except String (List Nat)
  | [] => .ok []
  | v :: vs => do
      let b ← packI32 v
      let bs ← packI32s vs
      pure (b ++ bs)

/-- The tuple `unpacked` produced by `struct.unpack` on a cell record. -/
def unpackInts (data : List Nat) (n : Nat) : List Int :=
  (List.range n).map (fun k => readI32 (sliceN data (4 * k) 4))

/-- The dictionary literal returned by `TileFile.parse_cell_header`,
assembled from the 97 unpacked integers (`u.getD k 0` is `unpacked[k]`). -/
def buildCellHeader (u : List Int) : CellHeader :=
  [("mip", .multi none [u.getD 0 0, u.getD 1 0, u.getD 2 0, u.getD 3 0, u.getD 4 0, u.getD 5 0] [u.getD 6 0, u.getD 7 0, u.getD 8 0, u.getD 9 0, u.getD 10 0, u.getD 11 0] [u.getD 12 0, u.getD 13 0, u.getD 14 0, u.getD 15 0, u.getD 16 0, u.getD 17 0]),
   ("clutter", .scalar none (u.getD 18 0) (u.getD 19 0) (u.getD 20 0)),
   ("assets", .multi (some [u.getD 21 0, u.getD 22 0, u.getD 23 0, u.getD 24 0]) [u.getD 25 0, u.getD 26 0, u.getD 27 0, u.getD 28 0] [u.getD 29 0, u.getD 30 0, u.getD 31 0, u.getD 32 0] [u.getD 33 0, u.getD 34 0, u.getD 35 0, u.getD 36 0]),
   ("blueprint", .scalar (some (u.getD 37 0)) (u.getD 38 0) (u.getD 39 0) (u.getD 40 0)),
   ("node", .scalar (some (u.getD 41 0)) (u.getD 42 0) (u.getD 43 0) (u.getD 44 0)),
   ("script", .scalar (some (u.getD 45 0)) (u.getD 46 0) (u.getD 47 0) (u.getD 48 0)),
   ("prefab", .scalar (some (u.getD 49 0)) (u.getD 50 0) (u.getD 51 0) (u.getD 52 0)),
   ("decal", .scalar (some (u.getD 53 0)) (u.getD 54 0) (u.getD 55 0) (u.getD 56 0)),
   ("harvestable", .multi (some [u.getD 57 0, u.getD 58 0, u.getD 59 0, u.getD 60 0]) [u.getD 61 0, u.getD 62 0, u.getD 63 0, u.getD 64 0] [u.getD 65 0, u.getD 66 0, u.getD 67 0, u.getD 68 0] [u.getD 69 0, u.getD 70 0, u.getD 71 0, u.getD 72 0]),
   ("kinematics", .multi (some [u.getD 73 0, u.getD 74 0, u.getD 75 0, u.getD 76 0]) [u.getD 77 0, u.getD 78 0, u.getD 79 0, u.getD 80 0] [u.getD 81 0, u.getD 82 0, u.getD 83 0, u.getD 84 0] [u.getD 85 0, u.getD 86 0, u.getD 87 0, u.getD 88 0]),
   ("unknown", .scalar (some (u.getD 89 0)) (u.getD 90 0) (u.getD 91 0) (u.getD 92 0)),
   ("voxel_terrain", .scalar (some (u.getD 93 0)) (u.getD 94 0) (u.getD 95 0) (u.getD 96 0))]

/-- `TileFile.parse_cell_header`: `struct.unpack` on the 388-byte record
(raising `struct.error` on any other length), the defensive 97-field check,
then the category dictionary. -/
def parse_cell_header (cell_data : List Nat) : Except String CellHeader :=
  if cell_data.length ≠ 388 then
    .error "struct.error: unpack requires a buffer of 388 bytes"
  else
    if (unpackInts cell_data 97).length ≠ CELL_HEADER_SIZE then
      .error "Invalid .tile file: Cell Header size mismatch"
    else
      .ok (buildCellHeader (unpackInts cell_data 97))

/-- `lst[0], ..., lst[n-1]` — an `IndexError` when the list is shorter. -/
def takeExact (l : List Int) (n : Nat) : Except String (List Int) :=
  if n ≤ l.length then .ok (l.take n) else .error "IndexError: list index out of range"

/-- The contribution of one tuple-shaped category to the `cell_data` list of
`TileFile.create_cell_header` (count, then index, compressed, size). -/
def flatMulti (n : Nat) (withCount : Bool) (c : CatData) : Except String (List Int) :=
  match c with
  | .scalar _ _ _ _ => .error "TypeError: int is not subscriptable"
  | .multi cnt idx comp sz => do
      let cl ← if withCount then
                 match cnt with
                 | some l => takeExact l n
                 | none => .error "KeyError: count"
               else Except.ok []
      let il ← takeExact idx n
      let pl ← takeExact comp n
      let sl ← takeExact sz n
      pure (cl ++ (il ++ (pl ++ sl)))

/-- The contribution of one scalar-shaped category. -/
def flatScalar (withCount : Bool) (c : CatData) : Except String (List Int) :=
  match c with
  | .multi _ _ _ _ => .error "struct.error: required argument is not an integer"
  | .scalar cnt idx comp sz => do
      let cl ← if withCount then
                 match cnt with
                 | some v => Except.ok [v]
                 | none => .error "KeyError: count"
               else Except.ok ([] : List Int)
      pure (cl ++ [idx, comp, sz])

/-- `header[name]` — a `KeyError` when the key is missing. -/
def lookupCat (ch : CellHeader) (name : String) : Except String CatData :=
  match List.lookup name ch with
  | some c => .ok c
  | none => .error ("KeyError: " ++ name)

/-- The `cell_data` list of `TileFile.create_cell_header`, in the exact
field order of the source. -/
def flattenCellHeader (ch : CellHeader) : Except String (List Int) := do
  let mip ← lookupCat ch "mip"
  let f0 ← flatMulti 6 false mip
  let clutter ← lookupCat ch "clutter"
  let f1 ← flatScalar false clutter
  let assets ← lookupCat ch "assets"
  let f2 ← flatMulti 4 true assets
  let blueprint ← lookupCat ch "blueprint"
  let f3 ← flatScalar true blueprint
  let node ← lookupCat ch "node"
  let f4 ← flatScalar true node
  let script ← lookupCat ch "script"
  let f5 ← flatScalar true script
  let prefab ← lookupCat ch "prefab"
  let f6 ← flatScalar true prefab
  let decal ← lookupCat ch "decal"
  let f7 ← flatScalar true decal
  let harvestable ← lookupCat ch "harvestable"
  let f8 ← flatMulti 4 true harvestable
  let kinematics ← lookupCat ch "kinematics"
  let f9 ← flatMulti 4 true kinematics
  let unknown ← lookupCat ch "unknown"
  let f10 ← flatScalar true unknown
  let voxel ← lookupCat ch "voxel_terrain"
  let f11 ← flatScalar true voxel
  pure (f0 ++ (f1 ++ (f2 ++ (f3 ++ (f4 ++ (f5 ++ (f6 ++ (f7 ++ (f8 ++ (f9 ++ (f10 ++ f11)))))))))))

/-- `TileFile.create_cell_header`: flatten the dictionary to the 97
integers, then `struct.pack "<...97i...>"`. -/
def create_cell_header (ch : CellHeader) : Except String (List Nat) := do
  let cell_data ← flattenCellHeader ch
  packI32s cell_data

/-- `cell_header[data_type]["index"][sub_cell_index]` et al. — the writer
updates descriptor slots in place; for the scalar shape the assignment
targets the three scalar fields regardless of the slot index, exactly as in
`write_file`. -/
def CatData.setSlot : CatData → Nat → Int → Int → Int → CatData
  | .scalar cnt _ _ _, _, newIdx, newComp, newSize => .scalar cnt newIdx newComp newSize
  | .multi cnt il pl sl, j, newIdx, newComp, newSize =>
      .multi cnt (il.set j newIdx) (pl.set j newComp) (sl.set j newSize)

/-- `cell_header[data_type] = c` — dictionary value replacement. -/
def updateCat (ch : CellHeader) (name : String) (c : CatData) : CellHeader :=
  ch.map (fun p => if p.1 = name then (p.1, c) else p)

/-- The `(index, compressed, size)` triple of one descriptor slot. -/
def CatData.slotAt : CatData → Nat → Option (Int × Int × Int)
  | .scalar _ i p s, j => if j = 0 then some (i, p, s) else none
  | .multi _ il pl sl, j =>
      match il[j]?, pl[j]?, sl[j]? with
      | some i, some p, some s => some (i, p, s)
      | _, _, _ => none

/-- The structural shape of a category entry: constructor, count presence,
and the four tuple lengths. -/
def catShape : CatData → Bool × Bool × Nat × Nat × Nat × Nat
  | .scalar cnt _ _ _ => (false, cnt.isSome, 0, 0, 0, 0)
  | .multi cnt il pl sl =>
      (true, cnt.isSome, (cnt.getD []).length, il.length, pl.length, sl.length)

def shapeMap (ch : CellHeader) : List (String × (Bool × Bool × Nat × Nat × Nat × Nat)) :=
  ch.map (fun p => (p.1, catShape p.2))

def canonShapes : List (String × (Bool × Bool × Nat × Nat × Nat × Nat)) :=
  [("mip", (true, false, 0, 6, 6, 6)),
   ("clutter", (false, false, 0, 0, 0, 0)),
   ("assets", (true, true, 4, 4, 4, 4)),
   ("blueprint", (false, true, 0, 0, 0, 0)),
   ("node", (false, true, 0, 0, 0, 0)),
   ("script", (false, true, 0, 0, 0, 0)),
   ("prefab", (false, true, 0, 0, 0, 0)),
   ("decal", (false, true, 0, 0, 0, 0)),
   ("harvestable", (true, true, 4, 4, 4, 4)),
   ("kinematics", (true, true, 4, 4, 4, 4)),
   ("unknown", (false, true, 0, 0, 0, 0)),
   ("voxel_terrain", (false, true, 0, 0, 0, 0))]

/-- A cell header has the canonical 12-category dictionary shape. -/
def Inv (ch : CellHeader) : Prop := shapeMap ch = canonShapes

/-- The `meta_data` dictionary attached to a decoded chunk. -/
structure Meta where
  index : Int
  compressed : Int
  size : Int
  count : Option Int
deriving DecidableEq, Repr

/-- A category-specific read (decode) function from the external
`readwrite` package; the domain value is kept opaque as a byte list. -/
abbrev DecodeFn := List Nat → Meta → List Nat

/-- A category-specific write (encode) function; it receives whatever is
stored in `SubCellData.data` (possibly `None`). -/
abbrev EncodeFn := Option (List Nat) → Meta → List Nat

/-- `TileFile.read_write_functions` — the caller-supplied codec table. -/
abbrev RWTable := String → Option (DecodeFn × EncodeFn)

/-- `lz4.block.compress(·, mode="high_compression", store_size=False)`. -/
abbrev Compress := List Nat → List Nat

/-- `lz4.block.decompress(bytes, uncompressed_size=size)`; `none` models a
raised `LZ4BlockError`. -/
abbrev Decompress := List Nat → Int → Option (List Nat)

/-- One slot of `world_data`: either the `(index, size, compressed)` tuple
returned by `_decode_cell_chunk` for an absent descriptor, or a
`SubCellData` object (type tag, decompressed bytes, optional decoded value,
meta data). -/
inductive SubCell where
  | absent (index size compressed : Int)
  | present (dtype : String) (original_data : List Nat) (data : Option (List Nat))
      (meta : Meta)
deriving DecidableEq, Repr

/-- `TileFile._decode_cell_chunk` on a single descriptor slot. -/
def decode_cell_chunk_slot (D : Decompress) (data : List Nat)
    (index size compressed : Int) (count : Option Int) (header_name : String)
    (parse_function : Option DecodeFn) : Except String SubCell :=
  if index ≤ 0 ∨ compressed ≤ 0 then .ok (.absent index size compressed)
  else
    match D (sliceN data index.toNat compressed.toNat) size with
    | none => .error "lz4.block.LZ4BlockError: decompression failed"
    | some decompressed_data =>
        .ok (.present header_name decompressed_data
          (match parse_function with
           | some f => some (f decompressed_data ⟨index, compressed, size, count⟩)
           | none => none) ⟨index, compressed, size, count⟩)

/-- The tuple branch of `TileFile.decode_cell_chunk`: iterate `level` over
`range(len(index))`, reading `size[level]`, `compressed[level]` and
`count[level]` (an `IndexError` when a tuple is shorter). -/
def decode_levels (D : Decompress) (data : List Nat) (header_name : String)
    (pf : Option DecodeFn) (cnt : Option (List Int)) (il pl sl : List Int) :
    Nat → Nat → Except String (List SubCell)
  | _, 0 => .ok []
  | level, n + 1 =>
      match il[level]?, sl[level]?, pl[level]? with
      | some index, some size, some compressed => do
          let c ← (match cnt with
                   | none => Except.ok (none : Option Int)
                   | some cl =>
                       match cl[level]? with
                       | some c => Except.ok (some c)
                       | none => Except.error "IndexError: tuple index out of range")
          let sub ← decode_cell_chunk_slot D data index size compressed c header_name pf
          let rest ← decode_levels D data header_name pf cnt il pl sl (level + 1) n
          pure (sub :: rest)
      | _, _, _ => .error "IndexError: tuple index out of range"

/-- `TileFile.decode_cell_chunk` on one category of one cell header. -/
def decode_cell_chunk (D : Decompress) (data : List Nat) (cat : CatData)
    (header_name : String) (pf : Option DecodeFn) : Except String (List SubCell) :=
  match cat with
  | .multi cnt il pl sl => decode_levels D data header_name pf cnt il pl sl 0 il.length
  | .scalar cnt i p s => do
      let sub ← decode_cell_chunk_slot D data i s p cnt header_name pf
      pure [sub]

/-- The registered read function for a category, if any. -/
def pfOf (rw : RWTable) (name : String) : Option DecodeFn :=
  match rw name with
  | some fns => some fns.1
  | none => none

/-- One iteration of the `read_file` per-cell loop: decode every category of
the cell header, in dictionary order. -/
def decode_cell (rw : RWTable) (D : Decompress) (data : List Nat) :
    CellHeader → Except String (List (String × List SubCell))
  | [] => .ok []
  | p :: rest => do
      let subs ← decode_cell_chunk D data p.2 p.1 (pfOf rw p.1)
      let tail ← decode_cell rw D data rest
      pure ((p.1, subs) :: tail)

/-- The loop of `TileFile.parse_cell_headers`: slice `cell_size` bytes per
cell starting at `off`, `n` cells in total. -/
def parse_cells (data : List Nat) (cell_size : Nat) :
    Nat → Nat → Except String (List CellHeader)
  | _, 0 => .ok []
  | off, n + 1 => do
      let ch ← parse_cell_header (sliceN data off cell_size)
      let rest ← parse_cells data cell_size (off + cell_size) n
      pure (ch :: rest)

/-- `TileFile.parse_cell_headers`. -/
def parse_cell_headers (h : FileHeader) (data : List Nat) :
    Except String (List CellHeader) :=
  parse_cells data h.cell_header_size h.cell_header_offset (h.width * h.height)

abbrev WorldCell := List (String × List SubCell)

/-- The in-memory state of a fully loaded `TileFile` object. -/
structure TileModel where
  header : FileHeader
  cell_headers : List CellHeader
  world_data : List WorldCell
deriving DecidableEq, Repr

/-- The world-building loop of `read_file`. -/
def read_cells (rw : RWTable) (D : Decompress) (data : List Nat) :
    List CellHeader → Except String (List WorldCell)
  | [] => .ok []
  | ch :: rest => do
      let c ← decode_cell rw D data ch
      let cs ← read_cells rw D data rest
      pure (c :: cs)

/-- `TileFile.read_file` on raw input bytes: parse the header, parse all
cell headers, then decode every chunk of every cell. -/
def read_file (rw : RWTable) (D : Decompress) (raw_input_bytes : List Nat) :
    Except String TileModel := do
  let header ← parse_header raw_input_bytes
  let cell_headers ← parse_cell_headers header raw_input_bytes
  let world ← read_cells rw D raw_input_bytes cell_headers
  pure ⟨header, cell_headers, world⟩

/-- `sub_cell.encode(encode_func)`: the registered write function applied to
the decoded value, or the stored decompressed bytes when no function is
registered for the category. -/
def encodeSub (rw : RWTable) (dtype : String) (original_data : List Nat)
    (dat : Option (List Nat)) (meta : Meta) : List Nat :=
  match rw dtype with
  | none => original_data
  | some fns => fns.2 dat meta

/-- The innermost `write_file` loop over the sub cells of one category:
absent tuples are skipped, present chunks are encoded, compressed, appended
to the data blob, and their descriptor slot is updated in place. -/
def write_slots (C : Compress) (rw : RWTable) (off : Nat) (dtype : String) :
    List SubCell → Nat → List Nat → CatData → List Nat × CatData
  | [], _, blob, cat => (blob, cat)
  | .absent _ _ _ :: rest, j, blob, cat => write_slots C rw off dtype rest (j + 1) blob cat
  | .present _ orig dat meta :: rest, j, blob, cat =>
      write_slots C rw off dtype rest (j + 1)
        (blob ++ C (encodeSub rw dtype orig dat meta))
        (cat.setSlot j (Int.ofNat (blob.length + off))
          (Int.ofNat (C (encodeSub rw dtype orig dat meta)).length)
          (Int.ofNat (encodeSub rw dtype orig dat meta).length))

/-- The `write_file` loop over the categories of one cell. -/
def write_cats (C : Compress) (rw : RWTable) (off : Nat) :
    WorldCell → List Nat → CellHeader → Except String (List Nat × CellHeader)
  | [], blob, ch => .ok (blob, ch)
  | (dtype, subs) :: rest, blob, ch =>
      match List.lookup dtype ch with
      | none => .error ("KeyError: " ++ dtype)
      | some cat =>
          write_cats C rw off rest (write_slots C rw off dtype subs 0 blob cat).1
            (updateCat ch dtype (write_slots C rw off dtype subs 0 blob cat).2)

/-- The `write_file` loop over cells: process the cell chunks, serialize
the updated cell header and splice it into the reserved region.  Returns
the spliced buffer, the data blob, and the updated cell headers. -/
def write_cells (C : Compress) (rw : RWTable) (chOff off : Nat)
    (world : List WorldCell) :
    List CellHeader → Nat → List Nat → List Nat →
    Except String (List Nat × List Nat × List CellHeader)
  | [], _, new_data, blob => .ok (new_data, blob, [])
  | ch :: restCh, i, new_data, blob => do
      let wcell ← (match world[i]? with
                   | some w => Except.ok w
                   | none => Except.error "IndexError: list index out of range")
      let bc ← write_cats C rw off wcell blob ch
      let header_data ← create_cell_header bc.2
      let _ ← (if header_data.length ≠ CELL_DATA_SIZE then
                Except.error "Header data is invalid size!" else Except.ok ())
      let _ ← (if header_data.length ≠ (chOff + CELL_DATA_SIZE * i + CELL_DATA_SIZE) -
                  (chOff + CELL_DATA_SIZE * i) then
                Except.error "Header Data Does not match the cell size" else Except.ok ())
      let _ ← (if chOff + CELL_DATA_SIZE * i + CELL_DATA_SIZE > new_data.length then
                Except.error "Invalid Header Index (Out of bounds)" else Except.ok ())
      let res ← write_cells C rw chOff off world restCh (i + 1)
                 (new_data.take (chOff + CELL_DATA_SIZE * i) ++ header_data ++
                   new_data.drop (chOff + CELL_DATA_SIZE * i + CELL_DATA_SIZE)) bc.1
      pure (res.1, res.2.1, bc.2 :: res.2.2)

/-- `TileFile.write_file` (without the optional validation or disk output):
write the header, assert its length equals `cell_header_offset`, reserve the
cell-header region with "X" bytes (88), process all cells, then append the
data blob.  Returns the output bytes together with the updated cell headers
(the source mutates `self.cell_headers` in place). -/
def write_file (C : Compress) (rw : RWTable) (fh : FileHeader)
    (chs : List CellHeader) (world : List WorldCell) :
    Except String (List Nat × List CellHeader) := do
  let headerBytes ← write_header fh
  let _ ← (if headerBytes.length ≠ fh.cell_header_offset then
            Except.error "Header offset is incorrect, I have no setup for this :)"
           else Except.ok ())
  let res ← write_cells C rw fh.cell_header_offset
              (headerBytes ++ List.replicate (CELL_DATA_SIZE * chs.length) 88).length
              world chs 0
              (headerBytes ++ List.replicate (CELL_DATA_SIZE * chs.length) 88) []
  pure (res.1 ++ res.2.1, res.2.2)

/-- The `(index_pointers, size_pointers)` pairs examined by the validator
overflow scan: a one-element list for scalar categories, the zipped tuples
otherwise. -/
def slotsPairs : CatData → List (Int × Int)
  | .scalar _ i p _ => [(i, p)]
  | .multi _ il pl _ => il.zip pl

/-- The overflow warnings of `TileFile.__validate_write`: one entry
`(cell_index, category, last)` for every examined slot whose
`last = index + compressed - 1` is `≥` the written buffer length. -/
def overflowFlags (chs : List CellHeader) (total : Nat) : List (Nat × String × Int) :=
  chs.enum.flatMap (fun ci_ch =>
    ci_ch.2.flatMap (fun kc =>
      (slotsPairs kc.2).filterMap (fun ip_sp =>
        if (total : Int) ≤ ip_sp.1 + ip_sp.2 - 1 then
          some (ci_ch.1, kc.1, ip_sp.1 + ip_sp.2 - 1)
        else none)))

/-- The header mismatch warnings of the validator debug pass. -/
def headerWarnings (self other : FileHeader) : List String :=
  (if self.version ≠ other.version then ["Header Mismatch: version"] else []) ++
  (if self.uuid ≠ other.uuid then ["Header Mismatch: uuid"] else []) ++
  (if self.creator_id ≠ other.creator_id then ["Header Mismatch: creator_id"] else []) ++
  (if self.width ≠ other.width then ["Header Mismatch: width"] else []) ++
  (if self.height ≠ other.height then ["Header Mismatch: height"] else []) ++
  (if self.cell_header_offset ≠ other.cell_header_offset then
    ["Header Mismatch: cell_header_offset"] else []) ++
  (if self.cell_header_size ≠ other.cell_header_size then
    ["Header Mismatch: cell_header_size"] else []) ++
  (if self.some_val1 ≠ other.some_val1 then ["Header Mismatch: some_val1"] else []) ++
  (if self.some_val2 ≠ other.some_val2 then ["Header Mismatch: some_val2"] else []) ++
  (if self.vtype ≠ other.vtype then ["Header Mismatch: type"] else [])

/-- The per-category mismatch check of the validator debug pass.  Scalar
fields are skipped by the `int`/`int` guard in the source, so two scalar
entries never mismatch; tuple fields are compared componentwise. -/
def catMismatch (loaded true_cat : CatData) : Bool :=
  match loaded, true_cat with
  | .scalar _ _ _ _, .scalar _ _ _ _ => false
  | .multi c1 i1 p1 s1, .multi c2 i2 p2 s2 =>
      decide (c1.getD [] ≠ c2.getD [] ∨ i1 ≠ i2 ∨ p1 ≠ p2 ∨ s1 ≠ s2)
  | _, _ => true

/-- The cell-header mismatch warnings of the validator debug pass. -/
def descWarnings (selfChs loadedChs : List CellHeader) : List (Nat × String) :=
  loadedChs.enum.flatMap (fun ci_ch =>
    ci_ch.2.filterMap (fun kc =>
      match (selfChs[ci_ch.1]?).bind (fun tch => List.lookup kc.1 tch) with
      | some tcat => if catMismatch kc.2 tcat then some (ci_ch.1, kc.1) else none
      | none => some (ci_ch.1, kc.1)))

/-- The cell headers accumulated by a partial `read_file` run before its
first failure (the validator debug pass inspects this partial state). -/
def parse_cells_partial (data : List Nat) (cell_size : Nat) :
    Nat → Nat → List CellHeader
  | _, 0 => []
  | off, n + 1 =>
      match parse_cell_header (sliceN data off cell_size) with
      | .error _ => []
      | .ok ch => ch :: parse_cells_partial data cell_size (off + cell_size) n

def partialCellHeaders (data : List Nat) : List CellHeader :=
  match parse_header data with
  | .error _ => []
  | .ok h => parse_cells_partial data h.cell_header_size h.cell_header_offset
      (h.width * h.height)

/-- `TileFile.__validate_write`: re-parse the freshly written bytes through
`read_file`; the boolean is `not validate_failed` — warnings are diagnostic
prints emitted only in the exception branch and never affect it. -/
def validate_write (rw : RWTable) (D : Decompress) (self : TileModel)
    (new_data : List Nat) :
    Bool × List String × List (Nat × String) × List (Nat × String × Int) :=
  match read_file rw D new_data with
  | .ok _ => (true, [], [], [])
  | .error _ =>
      (false,
       (match parse_header new_data with
        | .ok h2 => headerWarnings self.header h2
        | .error _ => []),
       descWarnings self.cell_headers (partialCellHeaders new_data),
       overflowFlags (partialCellHeaders new_data) new_data.length)

/-- The `(compressed, raw)` payload of one sub cell, when present. -/
def chunkOf (C : Compress) (rw : RWTable) (dtype : String) : SubCell → Option (List Nat × List Nat)
  | .absent _ _ _ => none
  | .present _ orig dat meta =>
      some (C (encodeSub rw dtype orig dat meta), encodeSub rw dtype orig dat meta)

/-- The payloads of the present sub cells of one category, in slot order. -/
def slotChunks (C : Compress) (rw : RWTable) (dtype : String) (subs : List SubCell) :
    List (List Nat × List Nat) :=
  subs.filterMap (chunkOf C rw dtype)

/-- The payloads of one cell, in category order. -/
def cellChunks (C : Compress) (rw : RWTable) (wc : WorldCell) : List (List Nat × List Nat) :=
  wc.flatMap (fun p => slotChunks C rw p.1 p.2)

/-- The payloads of the whole world, in iteration order. -/
def worldChunks (C : Compress) (rw : RWTable) (world : List WorldCell) :
    List (List Nat × List Nat) :=
  world.flatMap (cellChunks C rw)

/-- The data blob contributed by a payload list. -/
def joinComps (ls : List (List Nat × List Nat)) : List Nat := (ls.map Prod.fst).flatten

/-- Arity agreement between one category of a cell header and its decoded
sub cells. -/
def SlotsOK : CatData → List SubCell → Prop
  | .scalar _ _ _ _, subs => subs.length = 1
  | .multi _ il pl sl, subs =>
      subs.length = il.length ∧ subs.length = pl.length ∧ subs.length = sl.length

/-- A cell header together with its world data, in the shape produced by
`read_file`: canonical header, duplicate-free category keys that match, and
one decoded sub cell per descriptor slot. -/
def CellOK (ch : CellHeader) (wc : WorldCell) : Prop :=
  Inv ch ∧ (wc.map Prod.fst).Nodup ∧ wc.map Prod.fst = ch.map Prod.fst ∧
  ∀ (q : Nat) (dtype : String) (subs : List SubCell), wc[q]? = some (dtype, subs) →
    ∃ cat, List.lookup dtype ch = some cat ∧ ch[q]? = some (dtype, cat) ∧ SlotsOK cat subs

def ModelOK (chs : List CellHeader) (world : List WorldCell) : Prop :=
  ∀ (k : Nat) (ch : CellHeader), chs[k]? = some ch →
    Inv ch ∧ ∃ wc, world[k]? = some wc ∧ CellOK ch wc

/-- The contiguous descriptor layout determined by a payload list starting
at byte offset `off`: each entry is `(index, compressed_size, size)` and
consecutive entries leave no gap. -/
def descSpec (off : Nat) : List (List Nat × List Nat) → List (Int × Int × Int)
  | [] => []
  | q :: rest =>
      (Int.ofNat off, Int.ofNat q.1.length, Int.ofNat q.2.length) ::
        descSpec (off + q.1.length) rest

instance exceptDecEq {α β : Type} [DecidableEq α] [DecidableEq β] :
    DecidableEq (Except α β) := fun x y =>
  match x, y with
  | .ok a, .ok b =>
      match decEq a b with
      | isTrue h => isTrue (by rw [h])
      | isFalse h => isFalse (by intro hh; cases hh; exact h rfl)
  | .error a, .error b =>
      match decEq a b with
      | isTrue h => isTrue (by rw [h])
      | isFalse h => isFalse (by intro hh; cases hh; exact h rfl)
  | .ok _, .error _ => isFalse (by intro hh; cases hh)
  | .error _, .ok _ => isFalse (by intro hh; cases hh)

/-- Identity compression, used to instantiate the abstract LZ4 parameter on
concrete test data. -/
def compIdent : Compress := fun b => b

/-- The matching decompressor: succeeds exactly when the stated uncompressed
size is the byte count. -/
def decompIdent : Decompress := fun b n => if (b.length : Int) = n then some b else none

/-- An empty read/write function table (no category codecs registered). -/
def rwNone : RWTable := fun _ => none

/-- A concrete 60-byte header record: 1×1 world, `cell_header_offset = 60`,
`cell_header_size = 388`. -/
def testHeaderBytes : List Nat :=
  toLE 4 MAGIC_KEY ++ toLE 4 1 ++ List.replicate 16 0 ++ toLE 8 0 ++
  toLE 4 1 ++ toLE 4 1 ++ toLE 4 60 ++ toLE 4 388 ++ toLE 4 0 ++ toLE 4 0 ++ toLE 4 0

/-- A concrete 388-byte cell record: all descriptors zero except
`voxel_terrain`, whose single chunk is at `index 449`, `compressed 2`,
`size 2` (count 1). -/
def testCellBytes : List Nat :=
  List.replicate 372 0 ++ (toLE 4 1 ++ toLE 4 449 ++ toLE 4 2 ++ toLE 4 2)

/-- A complete 451-byte tile file: header, one cell record, one unused gap
byte at offset 448, and the 2-byte chunk at offset 449. -/
def testBytes : List Nat := testHeaderBytes ++ testCellBytes ++ [0] ++ [7, 9]

def testFH : FileHeader := ⟨1, List.replicate 16 0, 0, 1, 1, 60, 388, 0, 0, 0⟩

/-- The cell header parsed from `testBytes` (verified below by
`testRead_ok`). -/
def testCH : CellHeader :=
  [("mip", .multi none [0, 0, 0, 0, 0, 0] [0, 0, 0, 0, 0, 0] [0, 0, 0, 0, 0, 0]),
   ("clutter", .scalar none 0 0 0),
   ("assets", .multi (some [0, 0, 0, 0]) [0, 0, 0, 0] [0, 0, 0, 0] [0, 0, 0, 0]),
   ("blueprint", .scalar (some 0) 0 0 0),
   ("node", .scalar (some 0) 0 0 0),
   ("script", .scalar (some 0) 0 0 0),
   ("prefab", .scalar (some 0) 0 0 0),
   ("decal", .scalar (some 0) 0 0 0),
   ("harvestable", .multi (some [0, 0, 0, 0]) [0, 0, 0, 0] [0, 0, 0, 0] [0, 0, 0, 0]),
   ("kinematics", .multi (some [0, 0, 0, 0]) [0, 0, 0, 0] [0, 0, 0, 0] [0, 0, 0, 0]),
   ("unknown", .scalar (some 0) 0 0 0),
   ("voxel_terrain", .scalar (some 1) 449 2 2)]

/-- `testCH` after writing: the present chunk moved from index 449 to 448. -/
def testCH2 : CellHeader :=
  [("mip", .multi none [0, 0, 0, 0, 0, 0] [0, 0, 0, 0, 0, 0] [0, 0, 0, 0, 0, 0]),
   ("clutter", .scalar none 0 0 0),
   ("assets", .multi (some [0, 0, 0, 0]) [0, 0, 0, 0] [0, 0, 0, 0] [0, 0, 0, 0]),
   ("blueprint", .scalar (some 0) 0 0 0),
   ("node", .scalar (some 0) 0 0 0),
   ("script", .scalar (some 0) 0 0 0),
   ("prefab", .scalar (some 0) 0 0 0),
   ("decal", .scalar (some 0) 0 0 0),
   ("harvestable", .multi (some [0, 0, 0, 0]) [0, 0, 0, 0] [0, 0, 0, 0] [0, 0, 0, 0]),
   ("kinematics", .multi (some [0, 0, 0, 0]) [0, 0, 0, 0] [0, 0, 0, 0] [0, 0, 0, 0]),
   ("unknown", .scalar (some 0) 0 0 0),
   ("voxel_terrain", .scalar (some 1) 448 2 2)]

def testSubs : List SubCell :=
  [.present "voxel_terrain" [7, 9] none ⟨449, 2, 2, some 1⟩]

def testWC : WorldCell :=
  [("mip", List.replicate 6 (.absent 0 0 0)),
   ("clutter", [.absent 0 0 0]),
   ("assets", List.replicate 4 (.absent 0 0 0)),
   ("blueprint", [.absent 0 0 0]),
   ("node", [.absent 0 0 0]),
   ("script", [.absent 0 0 0]),
   ("prefab", [.absent 0 0 0]),
   ("decal", [.absent 0 0 0]),
   ("harvestable", List.replicate 4 (.absent 0 0 0)),
   ("kinematics", List.replicate 4 (.absent 0 0 0)),
   ("unknown", [.absent 0 0 0]),
   ("voxel_terrain", testSubs)]

def testWC2 : WorldCell :=
  [("mip", List.replicate 6 (.absent 0 0 0)),
   ("clutter", [.absent 0 0 0]),
   ("assets", List.replicate 4 (.absent 0 0 0)),
   ("blueprint", [.absent 0 0 0]),
   ("node", [.absent 0 0 0]),
   ("script", [.absent 0 0 0]),
   ("prefab", [.absent 0 0 0]),
   ("decal", [.absent 0 0 0]),
   ("harvestable", List.replicate 4 (.absent 0 0 0)),
   ("kinematics", List.replicate 4 (.absent 0 0 0)),
   ("unknown", [.absent 0 0 0]),
   ("voxel_terrain", [.present "voxel_terrain" [7, 9] none ⟨448, 2, 2, some 1⟩])]

def testModel : TileModel := ⟨testFH, [testCH], [testWC]⟩

def testChs2 : List CellHeader := [testCH2]

def testModel2 : TileModel := ⟨testFH, [testCH2], [testWC2]⟩

/-- The cell record of the rewritten file (`index` recomputed to 448). -/
def testCellBytes2 : List Nat :=
  List.replicate 372 0 ++ (toLE 4 1 ++ toLE 4 448 ++ toLE 4 2 ++ toLE 4 2)

/-- The bytes produced by `write_file` on `testModel`: the gap byte before
the chunk is squeezed out and the chunk lands at offset 448. -/
def testOut : List Nat := testHeaderBytes ++ testCellBytes2 ++ [7, 9]

theorem toLE_length (w v : Nat) : (toLE w v).length = w := by
  induction w generalizing v with
  | zero => rfl
  | succ w ih => simp [toLE, ih]

theorem toLE_lt (w v : Nat) : ∀ b ∈ toLE w v, b < 256 := by
  induction w generalizing v with
  | zero => simp [toLE]
  | succ w ih =>
    intro b hb
    simp only [toLE, List.mem_cons] at hb
    rcases hb with h | h
    · omega
    · exact ih _ _ h

theorem fromLE_toLE (w v : Nat) : fromLE (toLE w v) = v % 256 ^ w := by
  induction w generalizing v with
  | zero => simp [toLE, fromLE, Nat.mod_one]
  | succ w ih =>
    simp only [toLE, fromLE, ih]
    rw [pow_succ']
    rw [Nat.mod_mul]
    omega

theorem fromLE_lt (w v : Nat) : fromLE (toLE w v) < 256 ^ w := by
  rw [fromLE_toLE]; exact Nat.mod_lt _ (by positivity)

/-- Reading back a 4-byte little-endian value below `2^32`. -/
theorem fromLE_toLE_4 (v : Nat) (h : v < 2 ^ 32) : fromLE (toLE 4 v) = v := by
  rw [fromLE_toLE]
  have : (256 : Nat) ^ 4 = 2 ^ 32 := by norm_num
  rw [this]
  exact Nat.mod_eq_of_lt h

theorem fromLE_toLE_8 (v : Nat) (h : v < 2 ^ 64) : fromLE (toLE 8 v) = v := by
  rw [fromLE_toLE]
  have : (256 : Nat) ^ 8 = 2 ^ 64 := by norm_num
  rw [this]
  exact Nat.mod_eq_of_lt h

theorem sliceN_take_of_le (a b : List Nat) (len : Nat) (h : len ≤ a.length) :
    sliceN (a ++ b) 0 len = sliceN a 0 len := by
  simp only [sliceN, List.drop_zero]
  rw [List.take_append_of_le_length h]

theorem sliceN_here (a b : List Nat) (h : a.length = len) :
    sliceN (a ++ b) 0 len = a := by
  simp only [sliceN, List.drop_zero]
  rw [List.take_append_of_le_length (le_of_eq h.symm)]
  exact List.take_of_length_le (le_of_eq h)

theorem sliceN_skip (a b : List Nat) (off len n : Nat) (ha : a.length = n)
    (h : n ≤ off) : sliceN (a ++ b) off len = sliceN b (off - n) len := by
  subst ha
  simp only [sliceN]
  rw [show off = a.length + (off - a.length) by omega, List.drop_append]
  congr 2
  omega

theorem pack16s_length (s : List Nat) : (pack16s s).length = 16 ∨
    ((pack16s s).length = s.length ∧ s.length < 16) := by
  simp only [pack16s, List.length_append, List.length_take, List.length_map,
    List.length_replicate]
  omega

theorem bind_ok {α β : Type} {x : Except String α} {f : α → Except String β}
    {b : β} : (x >>= f = Except.ok b) ↔ ∃ a, x = Except.ok a ∧ f a = Except.ok b := by
  cases x <;> simp [Bind.bind, Except.bind]

theorem pure_ok {α : Type} {x b : α} :
    (pure x : Except String α) = Except.ok b ↔ x = b := by
  simp [pure, Except.pure]

theorem packU32_ok {v : Nat} {out : List Nat} :
    packU32 v = .ok out ↔ v < 2 ^ 32 ∧ out = toLE 4 v := by
  unfold packU32
  split <;> simp_all [eq_comm]

theorem packU64_ok {v : Nat} {out : List Nat} :
    packU64 v = .ok out ↔ v < 2 ^ 64 ∧ out = toLE 8 v := by
  unfold packU64
  split <;> simp_all [eq_comm]

/-- Successful `write_header` runs are exactly the in-range headers, and the
output is the concatenation of the eleven packed fields. -/
theorem write_header_eq {h : FileHeader} {out : List Nat}
    (hw : write_header h = .ok out) :
    h.version < 2 ^ 32 ∧ h.creator_id < 2 ^ 64 ∧ h.width < 2 ^ 32 ∧
    h.height < 2 ^ 32 ∧ h.cell_header_offset < 2 ^ 32 ∧
    h.cell_header_size < 2 ^ 32 ∧ h.some_val1 < 2 ^ 32 ∧
    h.some_val2 < 2 ^ 32 ∧ h.vtype < 2 ^ 32 ∧
    out = toLE 4 MAGIC_KEY ++ (toLE 4 h.version ++ (pack16s h.uuid ++
      (toLE 8 h.creator_id ++ (toLE 4 h.width ++ (toLE 4 h.height ++
      (toLE 4 h.cell_header_offset ++ (toLE 4 h.cell_header_size ++
      (toLE 4 h.some_val1 ++ (toLE 4 h.some_val2 ++ toLE 4 h.vtype))))))))) := by
  unfold write_header at hw
  simp only [bind_ok, pure_ok, packU32_ok, packU64_ok] at hw
  obtain ⟨a0, ⟨_, rfl⟩, a1, ⟨h1, rfl⟩, a3, ⟨h3, rfl⟩, a4, ⟨h4, rfl⟩, a5, ⟨h5, rfl⟩,
    a6, ⟨h6, rfl⟩, a7, ⟨h7, rfl⟩, a8, ⟨h8, rfl⟩, a9, ⟨h9, rfl⟩, a10, ⟨h10, rfl⟩, hout⟩ := hw
  exact ⟨h1, h3, h4, h5, h6, h7, h8, h9, h10, hout.symm⟩

theorem parse_header_WF (data : List Nat) (h : FileHeader)
    (hp : parse_header data = .ok h) : WFHeader h := by
  unfold parse_header at hp
  split at hp
  · exact absurd hp (by simp)
  · split at hp
    · exact absurd hp (by simp)
    · rename_i hlen _
      simp only [Except.ok.injEq] at hp
      subst hp
      constructor
      · simp only [sliceN, List.length_map, List.length_take, List.length_drop]
        omega
      · intro b hb
        simp only [List.mem_map] at hb
        obtain ⟨a, _, rfl⟩ := hb
        exact Nat.mod_lt _ (by norm_num)

theorem write_header_length (h : FileHeader) (out : List Nat)
    (hw : write_header h = .ok out) (hwf : h.uuid.length = 16) :
    out.length = 60 := by
  obtain ⟨-, -, -, -, -, -, -, -, -, rfl⟩ := write_header_eq hw
  simp [toLE_length, pack16s, List.length_append, List.length_take,
    List.length_map, List.length_replicate, hwf]

theorem map_mod_self (l : List Nat) (h : ∀ b ∈ l, b < 256) :
    l.map (· % 256) = l := by
  induction l with
  | nil => rfl
  | cons a l ih => simp_all [Nat.mod_eq_of_lt]

theorem sliceN_skip' (a T : List Nat) (off off2 len n : Nat) (ha : a.length = n)
    (h : off = n + off2) : sliceN (a ++ T) off len = sliceN T off2 len := by
  subst h
  rw [sliceN_skip a T _ len n ha (by omega)]
  congr 1
  omega

/-- Parsing back the exact byte layout written by `write_header` (followed
by arbitrary trailing bytes) recovers the header dictionary. -/
theorem parse_header_concat (h : FileHeader) (rest : List Nat)
    (hlen16 : h.uuid.length = 16) (hlt : ∀ b ∈ h.uuid, b < 256)
    (h1 : h.version < 2 ^ 32) (h3 : h.creator_id < 2 ^ 64) (h4 : h.width < 2 ^ 32)
    (h5 : h.height < 2 ^ 32) (h6 : h.cell_header_offset < 2 ^ 32)
    (h7 : h.cell_header_size < 2 ^ 32) (h8 : h.some_val1 < 2 ^ 32)
    (h9 : h.some_val2 < 2 ^ 32) (h10 : h.vtype < 2 ^ 32) :
    parse_header (toLE 4 MAGIC_KEY ++ (toLE 4 h.version ++ (h.uuid ++ (toLE 8 h.creator_id ++ (toLE 4 h.width ++ (toLE 4 h.height ++ (toLE 4 h.cell_header_offset ++ (toLE 4 h.cell_header_size ++ (toLE 4 h.some_val1 ++ (toLE 4 h.some_val2 ++ (toLE 4 h.vtype ++ rest))))))))))) = .ok h := by
  have s0 : sliceN (toLE 4 MAGIC_KEY ++ (toLE 4 h.version ++ (h.uuid ++ (toLE 8 h.creator_id ++ (toLE 4 h.width ++ (toLE 4 h.height ++ (toLE 4 h.cell_header_offset ++ (toLE 4 h.cell_header_size ++ (toLE 4 h.some_val1 ++ (toLE 4 h.some_val2 ++ (toLE 4 h.vtype ++ rest))))))))))) 0 4 = toLE 4 MAGIC_KEY := by
    exact sliceN_here _ _ (toLE_length _ _)
  have s1 : sliceN (toLE 4 MAGIC_KEY ++ (toLE 4 h.version ++ (h.uuid ++ (toLE 8 h.creator_id ++ (toLE 4 h.width ++ (toLE 4 h.height ++ (toLE 4 h.cell_header_offset ++ (toLE 4 h.cell_header_size ++ (toLE 4 h.some_val1 ++ (toLE 4 h.some_val2 ++ (toLE 4 h.vtype ++ rest))))))))))) 4 4 = toLE 4 h.version := by
    rw [sliceN_skip' (toLE 4 MAGIC_KEY) _ 4 0 4 4 (toLE_length _ _) (by norm_num)]
    exact sliceN_here _ _ (toLE_length _ _)
  have s2 : sliceN (toLE 4 MAGIC_KEY ++ (toLE 4 h.version ++ (h.uuid ++ (toLE 8 h.creator_id ++ (toLE 4 h.width ++ (toLE 4 h.height ++ (toLE 4 h.cell_header_offset ++ (toLE 4 h.cell_header_size ++ (toLE 4 h.some_val1 ++ (toLE 4 h.some_val2 ++ (toLE 4 h.vtype ++ rest))))))))))) 8 16 = h.uuid := by
    rw [sliceN_skip' (toLE 4 MAGIC_KEY) _ 8 4 16 4 (toLE_length _ _) (by norm_num)]
    rw [sliceN_skip' (toLE 4 h.version) _ 4 0 16 4 (toLE_length _ _) (by norm_num)]
    exact sliceN_here _ _ (hlen16)
  have s3 : sliceN (toLE 4 MAGIC_KEY ++ (toLE 4 h.version ++ (h.uuid ++ (toLE 8 h.creator_id ++ (toLE 4 h.width ++ (toLE 4 h.height ++ (toLE 4 h.cell_header_offset ++ (toLE 4 h.cell_header_size ++ (toLE 4 h.some_val1 ++ (toLE 4 h.some_val2 ++ (toLE 4 h.vtype ++ rest))))))))))) 24 8 = toLE 8 h.creator_id := by
    rw [sliceN_skip' (toLE 4 MAGIC_KEY) _ 24 20 8 4 (toLE_length _ _) (by norm_num)]
    rw [sliceN_skip' (toLE 4 h.version) _ 20 16 8 4 (toLE_length _ _) (by norm_num)]
    rw [sliceN_skip' (h.uuid) _ 16 0 8 16 (hlen16) (by norm_num)]
    exact sliceN_here _ _ (toLE_length _ _)
  have s4 : sliceN (toLE 4 MAGIC_KEY ++ (toLE 4 h.version ++ (h.uuid ++ (toLE 8 h.creator_id ++ (toLE 4 h.width ++ (toLE 4 h.height ++ (toLE 4 h.cell_header_offset ++ (toLE 4 h.cell_header_size ++ (toLE 4 h.some_val1 ++ (toLE 4 h.some_val2 ++ (toLE 4 h.vtype ++ rest))))))))))) 32 4 = toLE 4 h.width := by
    rw [sliceN_skip' (toLE 4 MAGIC_KEY) _ 32 28 4 4 (toLE_length _ _) (by norm_num)]
    rw [sliceN_skip' (toLE 4 h.version) _ 28 24 4 4 (toLE_length _ _) (by norm_num)]
    rw [sliceN_skip' (h.uuid) _ 24 8 4 16 (hlen16) (by norm_num)]
    rw [sliceN_skip' (toLE 8 h.creator_id) _ 8 0 4 8 (toLE_length _ _) (by norm_num)]
    exact sliceN_here _ _ (toLE_length _ _)
  have s5 : sliceN (toLE 4 MAGIC_KEY ++ (toLE 4 h.version ++ (h.uuid ++ (toLE 8 h.creator_id ++ (toLE 4 h.width ++ (toLE 4 h.height ++ (toLE 4 h.cell_header_offset ++ (toLE 4 h.cell_header_size ++ (toLE 4 h.some_val1 ++ (toLE 4 h.some_val2 ++ (toLE 4 h.vtype ++ rest))))))))))) 36 4 = toLE 4 h.height := by
    rw [sliceN_skip' (toLE 4 MAGIC_KEY) _ 36 32 4 4 (toLE_length _ _) (by norm_num)]
    rw [sliceN_skip' (toLE 4 h.version) _ 32 28 4 4 (toLE_length _ _) (by norm_num)]
    rw [sliceN_skip' (h.uuid) _ 28 12 4 16 (hlen16) (by norm_num)]
    rw [sliceN_skip' (toLE 8 h.creator_id) _ 12 4 4 8 (toLE_length _ _) (by norm_num)]
    rw [sliceN_skip' (toLE 4 h.width) _ 4 0 4 4 (toLE_length _ _) (by norm_num)]
    exact sliceN_here _ _ (toLE_length _ _)
  have s6 : sliceN (toLE 4 MAGIC_KEY ++ (toLE 4 h.version ++ (h.uuid ++ (toLE 8 h.creator_id ++ (toLE 4 h.width ++ (toLE 4 h.height ++ (toLE 4 h.cell_header_offset ++ (toLE 4 h.cell_header_size ++ (toLE 4 h.some_val1 ++ (toLE 4 h.some_val2 ++ (toLE 4 h.vtype ++ rest))))))))))) 40 4 = toLE 4 h.cell_header_offset := by
    rw [sliceN_skip' (toLE 4 MAGIC_KEY) _ 40 36 4 4 (toLE_length _ _) (by norm_num)]
    rw [sliceN_skip' (toLE 4 h.version) _ 36 32 4 4 (toLE_length _ _) (by norm_num)]
    rw [sliceN_skip' (h.uuid) _ 32 16 4 16 (hlen16) (by norm_num)]
    rw [sliceN_skip' (toLE 8 h.creator_id) _ 16 8 4 8 (toLE_length _ _) (by norm_num)]
    rw [sliceN_skip' (toLE 4 h.width) _ 8 4 4 4 (toLE_length _ _) (by norm_num)]
    rw [sliceN_skip' (toLE 4 h.height) _ 4 0 4 4 (toLE_length _ _) (by norm_num)]
    exact sliceN_here _ _ (toLE_length _ _)
  have s7 : sliceN (toLE 4 MAGIC_KEY ++ (toLE 4 h.version ++ (h.uuid ++ (toLE 8 h.creator_id ++ (toLE 4 h.width ++ (toLE 4 h.height ++ (toLE 4 h.cell_header_offset ++ (toLE 4 h.cell_header_size ++ (toLE 4 h.some_val1 ++ (toLE 4 h.some_val2 ++ (toLE 4 h.vtype ++ rest))))))))))) 44 4 = toLE 4 h.cell_header_size := by
    rw [sliceN_skip' (toLE 4 MAGIC_KEY) _ 44 40 4 4 (toLE_length _ _) (by norm_num)]
    rw [sliceN_skip' (toLE 4 h.version) _ 40 36 4 4 (toLE_length _ _) (by norm_num)]
    rw [sliceN_skip' (h.uuid) _ 36 20 4 16 (hlen16) (by norm_num)]
    rw [sliceN_skip' (toLE 8 h.creator_id) _ 20 12 4 8 (toLE_length _ _) (by norm_num)]
    rw [sliceN_skip' (toLE 4 h.width) _ 12 8 4 4 (toLE_length _ _) (by norm_num)]
    rw [sliceN_skip' (toLE 4 h.height) _ 8 4 4 4 (toLE_length _ _) (by norm_num)]
    rw [sliceN_skip' (toLE 4 h.cell_header_offset) _ 4 0 4 4 (toLE_length _ _) (by norm_num)]
    exact sliceN_here _ _ (toLE_length _ _)
  have s8 : sliceN (toLE 4 MAGIC_KEY ++ (toLE 4 h.version ++ (h.uuid ++ (toLE 8 h.creator_id ++ (toLE 4 h.width ++ (toLE 4 h.height ++ (toLE 4 h.cell_header_offset ++ (toLE 4 h.cell_header_size ++ (toLE 4 h.some_val1 ++ (toLE 4 h.some_val2 ++ (toLE 4 h.vtype ++ rest))))))))))) 48 4 = toLE 4 h.some_val1 := by
    rw [sliceN_skip' (toLE 4 MAGIC_KEY) _ 48 44 4 4 (toLE_length _ _) (by norm_num)]
    rw [sliceN_skip' (toLE 4 h.version) _ 44 40 4 4 (toLE_length _ _) (by norm_num)]
    rw [sliceN_skip' (h.uuid) _ 40 24 4 16 (hlen16) (by norm_num)]
    rw [sliceN_skip' (toLE 8 h.creator_id) _ 24 16 4 8 (toLE_length _ _) (by norm_num)]
    rw [sliceN_skip' (toLE 4 h.width) _ 16 12 4 4 (toLE_length _ _) (by norm_num)]
    rw [sliceN_skip' (toLE 4 h.height) _ 12 8 4 4 (toLE_length _ _) (by norm_num)]
    rw [sliceN_skip' (toLE 4 h.cell_header_offset) _ 8 4 4 4 (toLE_length _ _) (by norm_num)]
    rw [sliceN_skip' (toLE 4 h.cell_header_size) _ 4 0 4 4 (toLE_length _ _) (by norm_num)]
    exact sliceN_here _ _ (toLE_length _ _)
  have s9 : sliceN (toLE 4 MAGIC_KEY ++ (toLE 4 h.version ++ (h.uuid ++ (toLE 8 h.creator_id ++ (toLE 4 h.width ++ (toLE 4 h.height ++ (toLE 4 h.cell_header_offset ++ (toLE 4 h.cell_header_size ++ (toLE 4 h.some_val1 ++ (toLE 4 h.some_val2 ++ (toLE 4 h.vtype ++ rest))))))))))) 52 4 = toLE 4 h.some_val2 := by
    rw [sliceN_skip' (toLE 4 MAGIC_KEY) _ 52 48 4 4 (toLE_length _ _) (by norm_num)]
    rw [sliceN_skip' (toLE 4 h.version) _ 48 44 4 4 (toLE_length _ _) (by norm_num)]
    rw [sliceN_skip' (h.uuid) _ 44 28 4 16 (hlen16) (by norm_num)]
    rw [sliceN_skip' (toLE 8 h.creator_id) _ 28 20 4 8 (toLE_length _ _) (by norm_num)]
    rw [sliceN_skip' (toLE 4 h.width) _ 20 16 4 4 (toLE_length _ _) (by norm_num)]
    rw [sliceN_skip' (toLE 4 h.height) _ 16 12 4 4 (toLE_length _ _) (by norm_num)]
    rw [sliceN_skip' (toLE 4 h.cell_header_offset) _ 12 8 4 4 (toLE_length _ _) (by norm_num)]
    rw [sliceN_skip' (toLE 4 h.cell_header_size) _ 8 4 4 4 (toLE_length _ _) (by norm_num)]
    rw [sliceN_skip' (toLE 4 h.some_val1) _ 4 0 4 4 (toLE_length _ _) (by norm_num)]
    exact sliceN_here _ _ (toLE_length _ _)
  have s10 : sliceN (toLE 4 MAGIC_KEY ++ (toLE 4 h.version ++ (h.uuid ++ (toLE 8 h.creator_id ++ (toLE 4 h.width ++ (toLE 4 h.height ++ (toLE 4 h.cell_header_offset ++ (toLE 4 h.cell_header_size ++ (toLE 4 h.some_val1 ++ (toLE 4 h.some_val2 ++ (toLE 4 h.vtype ++ rest))))))))))) 56 4 = toLE 4 h.vtype := by
    rw [sliceN_skip' (toLE 4 MAGIC_KEY) _ 56 52 4 4 (toLE_length _ _) (by norm_num)]
    rw [sliceN_skip' (toLE 4 h.version) _ 52 48 4 4 (toLE_length _ _) (by norm_num)]
    rw [sliceN_skip' (h.uuid) _ 48 32 4 16 (hlen16) (by norm_num)]
    rw [sliceN_skip' (toLE 8 h.creator_id) _ 32 24 4 8 (toLE_length _ _) (by norm_num)]
    rw [sliceN_skip' (toLE 4 h.width) _ 24 20 4 4 (toLE_length _ _) (by norm_num)]
    rw [sliceN_skip' (toLE 4 h.height) _ 20 16 4 4 (toLE_length _ _) (by norm_num)]
    rw [sliceN_skip' (toLE 4 h.cell_header_offset) _ 16 12 4 4 (toLE_length _ _) (by norm_num)]
    rw [sliceN_skip' (toLE 4 h.cell_header_size) _ 12 8 4 4 (toLE_length _ _) (by norm_num)]
    rw [sliceN_skip' (toLE 4 h.some_val1) _ 8 4 4 4 (toLE_length _ _) (by norm_num)]
    rw [sliceN_skip' (toLE 4 h.some_val2) _ 4 0 4 4 (toLE_length _ _) (by norm_num)]
    exact sliceN_here _ _ (toLE_length _ _)
  have hMag : MAGIC_KEY < 2 ^ 32 := by norm_num [MAGIC_KEY]
  have hlen : (toLE 4 MAGIC_KEY ++ (toLE 4 h.version ++ (h.uuid ++ (toLE 8 h.creator_id ++ (toLE 4 h.width ++ (toLE 4 h.height ++ (toLE 4 h.cell_header_offset ++ (toLE 4 h.cell_header_size ++ (toLE 4 h.some_val1 ++ (toLE 4 h.some_val2 ++ (toLE 4 h.vtype ++ rest))))))))))).length = 60 + rest.length := by
    simp only [List.length_append, toLE_length, hlen16]
    omega
  unfold parse_header
  rw [if_neg (by rw [hlen]; omega)]
  rw [s0, fromLE_toLE_4 _ hMag]
  rw [if_neg (by simp)]
  rw [s1, s2, s3, s4, s5, s6, s7, s8, s9, s10]
  rw [fromLE_toLE_4 _ h1, fromLE_toLE_8 _ h3, fromLE_toLE_4 _ h4,
    fromLE_toLE_4 _ h5, fromLE_toLE_4 _ h6, fromLE_toLE_4 _ h7,
    fromLE_toLE_4 _ h8, fromLE_toLE_4 _ h9, fromLE_toLE_4 _ h10]
  rw [map_mod_self h.uuid hlt]

/-- Round trip: `parse_header` inverts `write_header` (with any byte tail). -/
theorem parse_write_header (h : FileHeader) (out rest : List Nat)
    (hw : write_header h = .ok out) (hwf : WFHeader h) :
    parse_header (out ++ rest) = .ok h := by
  obtain ⟨hlen16, hlt⟩ := hwf
  obtain ⟨h1, h3, h4, h5, h6, h7, h8, h9, h10, rfl⟩ := write_header_eq hw
  have hU : pack16s h.uuid = h.uuid := by
    unfold pack16s
    rw [map_mod_self h.uuid hlt, hlen16, List.take_of_length_le (le_of_eq hlen16)]
    simp
  rw [hU]
  simp only [List.append_assoc]
  exact parse_header_concat h rest hlen16 hlt h1 h3 h4 h5 h6 h7 h8 h9 h10

/-- Flattening the dictionary assembled from 97 integers returns exactly
those integers. -/
theorem flatten_build (ys : List Int) (h : ys.length = 97) :
    flattenCellHeader (buildCellHeader ys) = .ok ys := by
  rcases ys with _ | ⟨y0, ys⟩
  · simp at h
  rcases ys with _ | ⟨y1, ys⟩
  · simp at h
  rcases ys with _ | ⟨y2, ys⟩
  · simp at h
  rcases ys with _ | ⟨y3, ys⟩
  · simp at h
  rcases ys with _ | ⟨y4, ys⟩
  · simp at h
  rcases ys with _ | ⟨y5, ys⟩
  · simp at h
  rcases ys with _ | ⟨y6, ys⟩
  · simp at h
  rcases ys with _ | ⟨y7, ys⟩
  · simp at h
  rcases ys with _ | ⟨y8, ys⟩
  · simp at h
  rcases ys with _ | ⟨y9, ys⟩
  · simp at h
  rcases ys with _ | ⟨y10, ys⟩
  · simp at h
  rcases ys with _ | ⟨y11, ys⟩
  · simp at h
  rcases ys with _ | ⟨y12, ys⟩
  · simp at h
  rcases ys with _ | ⟨y13, ys⟩
  · simp at h
  rcases ys with _ | ⟨y14, ys⟩
  · simp at h
  rcases ys with _ | ⟨y15, ys⟩
  · simp at h
  rcases ys with _ | ⟨y16, ys⟩
  · simp at h
  rcases ys with _ | ⟨y17, ys⟩
  · simp at h
  rcases ys with _ | ⟨y18, ys⟩
  · simp at h
  rcases ys with _ | ⟨y19, ys⟩
  · simp at h
  rcases ys with _ | ⟨y20, ys⟩
  · simp at h
  rcases ys with _ | ⟨y21, ys⟩
  · simp at h
  rcases ys with _ | ⟨y22, ys⟩
  · simp at h
  rcases ys with _ | ⟨y23, ys⟩
  · simp at h
  rcases ys with _ | ⟨y24, ys⟩
  · simp at h
  rcases ys with _ | ⟨y25, ys⟩
  · simp at h
  rcases ys with _ | ⟨y26, ys⟩
  · simp at h
  rcases ys with _ | ⟨y27, ys⟩
  · simp at h
  rcases ys with _ | ⟨y28, ys⟩
  · simp at h
  rcases ys with _ | ⟨y29, ys⟩
  · simp at h
  rcases ys with _ | ⟨y30, ys⟩
  · simp at h
  rcases ys with _ | ⟨y31, ys⟩
  · simp at h
  rcases ys with _ | ⟨y32, ys⟩
  · simp at h
  rcases ys with _ | ⟨y33, ys⟩
  · simp at h
  rcases ys with _ | ⟨y34, ys⟩
  · simp at h
  rcases ys with _ | ⟨y35, ys⟩
  · simp at h
  rcases ys with _ | ⟨y36, ys⟩
  · simp at h
  rcases ys with _ | ⟨y37, ys⟩
  · simp at h
  rcases ys with _ | ⟨y38, ys⟩
  · simp at h
  rcases ys with _ | ⟨y39, ys⟩
  · simp at h
  rcases ys with _ | ⟨y40, ys⟩
  · simp at h
  rcases ys with _ | ⟨y41, ys⟩
  · simp at h
  rcases ys with _ | ⟨y42, ys⟩
  · simp at h
  rcases ys with _ | ⟨y43, ys⟩
  · simp at h
  rcases ys with _ | ⟨y44, ys⟩
  · simp at h
  rcases ys with _ | ⟨y45, ys⟩
  · simp at h
  rcases ys with _ | ⟨y46, ys⟩
  · simp at h
  rcases ys with _ | ⟨y47, ys⟩
  · simp at h
  rcases ys with _ | ⟨y48, ys⟩
  · simp at h
  rcases ys with _ | ⟨y49, ys⟩
  · simp at h
  rcases ys with _ | ⟨y50, ys⟩
  · simp at h
  rcases ys with _ | ⟨y51, ys⟩
  · simp at h
  rcases ys with _ | ⟨y52, ys⟩
  · simp at h
  rcases ys with _ | ⟨y53, ys⟩
  · simp at h
  rcases ys with _ | ⟨y54, ys⟩
  · simp at h
  rcases ys with _ | ⟨y55, ys⟩
  · simp at h
  rcases ys with _ | ⟨y56, ys⟩
  · simp at h
  rcases ys with _ | ⟨y57, ys⟩
  · simp at h
  rcases ys with _ | ⟨y58, ys⟩
  · simp at h
  rcases ys with _ | ⟨y59, ys⟩
  · simp at h
  rcases ys with _ | ⟨y60, ys⟩
  · simp at h
  rcases ys with _ | ⟨y61, ys⟩
  · simp at h
  rcases ys with _ | ⟨y62, ys⟩
  · simp at h
  rcases ys with _ | ⟨y63, ys⟩
  · simp at h
  rcases ys with _ | ⟨y64, ys⟩
  · simp at h
  rcases ys with _ | ⟨y65, ys⟩
  · simp at h
  rcases ys with _ | ⟨y66, ys⟩
  · simp at h
  rcases ys with _ | ⟨y67, ys⟩
  · simp at h
  rcases ys with _ | ⟨y68, ys⟩
  · simp at h
  rcases ys with _ | ⟨y69, ys⟩
  · simp at h
  rcases ys with _ | ⟨y70, ys⟩
  · simp at h
  rcases ys with _ | ⟨y71, ys⟩
  · simp at h
  rcases ys with _ | ⟨y72, ys⟩
  · simp at h
  rcases ys with _ | ⟨y73, ys⟩
  · simp at h
  rcases ys with _ | ⟨y74, ys⟩
  · simp at h
  rcases ys with _ | ⟨y75, ys⟩
  · simp at h
  rcases ys with _ | ⟨y76, ys⟩
  · simp at h
  rcases ys with _ | ⟨y77, ys⟩
  · simp at h
  rcases ys with _ | ⟨y78, ys⟩
  · simp at h
  rcases ys with _ | ⟨y79, ys⟩
  · simp at h
  rcases ys with _ | ⟨y80, ys⟩
  · simp at h
  rcases ys with _ | ⟨y81, ys⟩
  · simp at h
  rcases ys with _ | ⟨y82, ys⟩
  · simp at h
  rcases ys with _ | ⟨y83, ys⟩
  · simp at h
  rcases ys with _ | ⟨y84, ys⟩
  · simp at h
  rcases ys with _ | ⟨y85, ys⟩
  · simp at h
  rcases ys with _ | ⟨y86, ys⟩
  · simp at h
  rcases ys with _ | ⟨y87, ys⟩
  · simp at h
  rcases ys with _ | ⟨y88, ys⟩
  · simp at h
  rcases ys with _ | ⟨y89, ys⟩
  · simp at h
  rcases ys with _ | ⟨y90, ys⟩
  · simp at h
  rcases ys with _ | ⟨y91, ys⟩
  · simp at h
  rcases ys with _ | ⟨y92, ys⟩
  · simp at h
  rcases ys with _ | ⟨y93, ys⟩
  · simp at h
  rcases ys with _ | ⟨y94, ys⟩
  · simp at h
  rcases ys with _ | ⟨y95, ys⟩
  · simp at h
  rcases ys with _ | ⟨y96, ys⟩
  · simp at h
  rcases ys with _ | ⟨z, ys⟩
  · rfl
  · simp at h

theorem packI32_ok {v : Int} {out : List Nat} :
    packI32 v = .ok out ↔
      (-(2 ^ 31) ≤ v ∧ v < 2 ^ 31) ∧ out = toLE 4 (v % 2 ^ 32).toNat := by
  unfold packI32
  split <;> simp_all [eq_comm]

theorem readI32_packI32 (v : Int) (h1 : -(2 ^ 31) ≤ v) (h2 : v < 2 ^ 31) :
    readI32 (toLE 4 (v % 2 ^ 32).toNat) = v := by
  have he1 : (0 : Int) ≤ v % 2 ^ 32 := Int.emod_nonneg _ (by norm_num)
  have he2 : v % 2 ^ 32 < 2 ^ 32 := Int.emod_lt_of_pos _ (by norm_num)
  have he3 : v % 2 ^ 32 = v ∨ v % 2 ^ 32 = v + 2 ^ 32 := by
    have := Int.emod_add_ediv v (2 ^ 32)
    have hd : v / 2 ^ 32 = 0 ∨ v / 2 ^ 32 = -1 := by
      rcases le_or_lt 0 v with hv | hv
      · left
        exact Int.ediv_eq_zero_of_lt hv (by omega)
      · right
        omega
    omega
  have hn : ((v % 2 ^ 32).toNat : Int) = v % 2 ^ 32 := Int.toNat_of_nonneg he1
  have hlt : (v % 2 ^ 32).toNat < 2 ^ 32 := by omega
  unfold readI32
  rw [fromLE_toLE_4 _ hlt]
  split <;> rename_i hc <;> omega

theorem packI32s_read (vs : List Int) (out : List Nat)
    (h : packI32s vs = .ok out) :
    out.length = 4 * vs.length ∧
      ∀ k, k < vs.length → readI32 (sliceN out (4 * k) 4) = vs.getD k 0 := by
  induction vs generalizing out with
  | nil =>
    simp only [packI32s, Except.ok.injEq] at h
    subst h
    refine ⟨rfl, ?_⟩
    intro k hk
    simp at hk
  | cons v vs ih =>
    simp only [packI32s, bind_ok, pure_ok, packI32_ok] at h
    obtain ⟨b, ⟨⟨hr1, hr2⟩, rfl⟩, bs, hbs, rfl⟩ := h
    obtain ⟨ihl, ihr⟩ := ih bs hbs
    constructor
    · simp only [List.length_append, toLE_length, ihl, List.length_cons]
      ring
    · intro k hk
      match k with
      | 0 =>
        rw [Nat.mul_zero, sliceN_here _ _ (toLE_length _ _)]
        simpa using readI32_packI32 v hr1 hr2
      | k + 1 =>
        rw [sliceN_skip' _ _ (4 * (k + 1)) (4 * k) 4 4 (toLE_length _ _) (by ring)]
        simp only [List.getD_cons_succ]
        exact ihr k (by simpa using hk)

theorem range_map_getD (vs : List Int) :
    (List.range vs.length).map (fun k => vs.getD k 0) = vs := by
  induction vs with
  | nil => rfl
  | cons v vs ih =>
    rw [List.length_cons, List.range_succ_eq_map]
    simp only [List.map_cons, List.getD_cons_zero, List.map_map]
    have hcomp : ((fun k => (v :: vs).getD k 0) ∘ Nat.succ) = fun k => vs.getD k 0 := by
      funext k
      simp
    rw [hcomp, ih]

/-- `parse_cell_header` inverts `create_cell_header` on every dictionary of
the canonical 12-category shape. -/
theorem parse_create_cell_header (ys : List Int) (out : List Nat)
    (hlen : ys.length = 97)
    (hc : create_cell_header (buildCellHeader ys) = .ok out) :
    parse_cell_header out = .ok (buildCellHeader ys) := by
  unfold create_cell_header at hc
  rw [flatten_build ys hlen] at hc
  simp only [bind_ok, Except.ok.injEq] at hc
  obtain ⟨zs, rfl, hpk⟩ := hc
  obtain ⟨hlo, hread⟩ := packI32s_read ys out hpk
  have hu : unpackInts out 97 = ys := by
    unfold unpackInts
    rw [← hlen]
    calc (List.range ys.length).map (fun k => readI32 (sliceN out (4 * k) 4))
        = (List.range ys.length).map (fun k => ys.getD k 0) := by
          apply List.map_congr_left
          intro k hk
          exact hread k (List.mem_range.mp hk)
      _ = ys := range_map_getD ys
  unfold parse_cell_header
  rw [if_neg (by simp [hlo, hlen])]
  rw [hu]
  rw [if_neg (by simp [hlen, CELL_HEADER_SIZE])]

theorem inv_build (ys : List Int) : Inv (buildCellHeader ys) := rfl

theorem catShape_setSlot (c : CatData) (j : Nat) (a b d : Int) :
    catShape (c.setSlot j a b d) = catShape c := by
  cases c <;> simp [CatData.setSlot, catShape, List.length_set]

theorem updateCat_of_not_mem (ch : CellHeader) (name : String) (c : CatData)
    (h : ∀ p ∈ ch, p.1 ≠ name) : updateCat ch name c = ch := by
  unfold updateCat
  conv_rhs => rw [← List.map_id ch]
  apply List.map_congr_left
  intro p hp
  simp [h p hp]

theorem shapeMap_updateCat (ch : CellHeader) (name : String) (cat c' : CatData)
    (hlk : List.lookup name ch = some cat) (hsh : catShape c' = catShape cat)
    (hnd : (ch.map Prod.fst).Nodup) :
    shapeMap (updateCat ch name c') = shapeMap ch := by
  induction ch with
  | nil => simp [List.lookup] at hlk
  | cons p ch ih =>
    rcases p with ⟨k, c⟩
    rw [List.map_cons, List.nodup_cons] at hnd
    obtain ⟨hk_nin, hnd2⟩ := hnd
    by_cases hk : k = name
    · subst hk
      have hc : c = cat := by
        simp [List.lookup] at hlk
        exact hlk
      subst hc
      have ht : updateCat ch k c' = ch := by
        refine updateCat_of_not_mem ch k c' ?_
        intro p hp hpk
        have hm : p.1 ∈ ch.map Prod.fst := List.mem_map_of_mem Prod.fst hp
        rw [hpk] at hm
        exact hk_nin hm
      simp only [updateCat] at ht
      simp only [updateCat, shapeMap, List.map_cons, ht]
      simp [hsh]
    · have hne : (name == k) = false := by
        exact beq_eq_false_iff_ne.mpr (fun hh => hk hh.symm)
      simp only [List.lookup, hne] at hlk
      have ihh := ih hlk hnd2
      simp only [updateCat, shapeMap, List.map_cons] at ihh ⊢
      simp [hk, ihh]

theorem inv_keys (ch : CellHeader) (h : Inv ch) :
    ch.map Prod.fst = canonShapes.map Prod.fst := by
  have h2 := congrArg (List.map Prod.fst) h
  rw [shapeMap, List.map_map] at h2
  exact h2

theorem inv_updateCat (ch : CellHeader) (name : String) (cat c' : CatData)
    (hInv : Inv ch) (hlk : List.lookup name ch = some cat)
    (hsh : catShape c' = catShape cat) : Inv (updateCat ch name c') := by
  unfold Inv
  rw [shapeMap_updateCat ch name cat c' hlk hsh ?_]
  · exact hInv
  · rw [inv_keys ch hInv]
    decide

theorem list_len4 (l : List Int) (h : l.length = 4) :
    ∃ a b c d, l = [a, b, c, d] := by
  rcases l with _ | ⟨a, l⟩
  · simp at h
  rcases l with _ | ⟨b, l⟩
  · simp at h
  rcases l with _ | ⟨c, l⟩
  · simp at h
  rcases l with _ | ⟨d, l⟩
  · simp at h
  rcases l with _ | ⟨e, l⟩
  · exact ⟨a, b, c, d, rfl⟩
  · simp at h

theorem list_len6 (l : List Int) (h : l.length = 6) :
    ∃ a b c d e f, l = [a, b, c, d, e, f] := by
  rcases l with _ | ⟨a, l⟩
  · simp at h
  rcases l with _ | ⟨b, l⟩
  · simp at h
  rcases l with _ | ⟨c, l⟩
  · simp at h
  rcases l with _ | ⟨d, l⟩
  · simp at h
  rcases l with _ | ⟨e, l⟩
  · simp at h
  rcases l with _ | ⟨f, l⟩
  · simp at h
  rcases l with _ | ⟨g, l⟩
  · exact ⟨a, b, c, d, e, f, rfl⟩
  · simp at h

theorem shape_m6 (c : CatData) (h : catShape c = (true, false, 0, 6, 6, 6)) :
    ∃ i0 i1 i2 i3 i4 i5 p0 p1 p2 p3 p4 p5 s0 s1 s2 s3 s4 s5,
      c = .multi none [i0, i1, i2, i3, i4, i5] [p0, p1, p2, p3, p4, p5]
        [s0, s1, s2, s3, s4, s5] := by
  cases c with
  | scalar cnt i p s => simp [catShape] at h
  | multi cnt il pl sl =>
    cases cnt with
    | some l => simp [catShape] at h
    | none =>
      simp only [catShape, Option.isSome_none, Option.getD_none, List.length_nil,
        Prod.mk.injEq, true_and] at h
      obtain ⟨hil, hpl, hsl⟩ := h
      obtain ⟨i0, i1, i2, i3, i4, i5, rfl⟩ := list_len6 il hil
      obtain ⟨p0, p1, p2, p3, p4, p5, rfl⟩ := list_len6 pl hpl
      obtain ⟨s0, s1, s2, s3, s4, s5, rfl⟩ := list_len6 sl hsl
      exact ⟨i0, i1, i2, i3, i4, i5, p0, p1, p2, p3, p4, p5, s0, s1, s2, s3, s4, s5, rfl⟩

theorem shape_s0 (c : CatData) (h : catShape c = (false, false, 0, 0, 0, 0)) :
    ∃ i p s, c = .scalar none i p s := by
  cases c with
  | multi cnt il pl sl => simp [catShape] at h
  | scalar cnt i p s =>
    cases cnt with
    | some v => simp [catShape] at h
    | none => exact ⟨i, p, s, rfl⟩

theorem shape_m4 (c : CatData) (h : catShape c = (true, true, 4, 4, 4, 4)) :
    ∃ c0 c1 c2 c3 i0 i1 i2 i3 p0 p1 p2 p3 s0 s1 s2 s3,
      c = .multi (some [c0, c1, c2, c3]) [i0, i1, i2, i3] [p0, p1, p2, p3]
        [s0, s1, s2, s3] := by
  cases c with
  | scalar cnt i p s => simp [catShape] at h
  | multi cnt il pl sl =>
    cases cnt with
    | none => simp [catShape] at h
    | some l =>
      simp only [catShape, Option.isSome_some, Option.getD_some, Prod.mk.injEq,
        true_and] at h
      obtain ⟨hl, hil, hpl, hsl⟩ := h
      obtain ⟨c0, c1, c2, c3, rfl⟩ := list_len4 l hl
      obtain ⟨i0, i1, i2, i3, rfl⟩ := list_len4 il hil
      obtain ⟨p0, p1, p2, p3, rfl⟩ := list_len4 pl hpl
      obtain ⟨s0, s1, s2, s3, rfl⟩ := list_len4 sl hsl
      exact ⟨c0, c1, c2, c3, i0, i1, i2, i3, p0, p1, p2, p3, s0, s1, s2, s3, rfl⟩

theorem shape_s1 (c : CatData) (h : catShape c = (false, true, 0, 0, 0, 0)) :
    ∃ cn i p s, c = .scalar (some cn) i p s := by
  cases c with
  | multi cnt il pl sl => simp [catShape] at h
  | scalar cnt i p s =>
    cases cnt with
    | none => simp [catShape] at h
    | some v => exact ⟨v, i, p, s, rfl⟩

/-- Every cell header of the canonical shape is `buildCellHeader` of some
97-integer list (the converse of `inv_build`). -/
theorem inv_canon (ch : CellHeader) (h : Inv ch) :
    ∃ ys : List Int, ys.length = 97 ∧ ch = buildCellHeader ys := by
  unfold Inv shapeMap canonShapes at h
  rcases ch with _ | ⟨⟨n0, c0⟩, ch⟩
  · simp at h
  rcases ch with _ | ⟨⟨n1, c1⟩, ch⟩
  · simp at h
  rcases ch with _ | ⟨⟨n2, c2⟩, ch⟩
  · simp at h
  rcases ch with _ | ⟨⟨n3, c3⟩, ch⟩
  · simp at h
  rcases ch with _ | ⟨⟨n4, c4⟩, ch⟩
  · simp at h
  rcases ch with _ | ⟨⟨n5, c5⟩, ch⟩
  · simp at h
  rcases ch with _ | ⟨⟨n6, c6⟩, ch⟩
  · simp at h
  rcases ch with _ | ⟨⟨n7, c7⟩, ch⟩
  · simp at h
  rcases ch with _ | ⟨⟨n8, c8⟩, ch⟩
  · simp at h
  rcases ch with _ | ⟨⟨n9, c9⟩, ch⟩
  · simp at h
  rcases ch with _ | ⟨⟨n10, c10⟩, ch⟩
  · simp at h
  rcases ch with _ | ⟨⟨n11, c11⟩, ch⟩
  · simp at h
  simp only [List.map_cons, List.cons.injEq, Prod.mk.injEq, List.map_eq_nil_iff] at h
  obtain ⟨⟨hn0, hc0⟩, ⟨hn1, hc1⟩, ⟨hn2, hc2⟩, ⟨hn3, hc3⟩, ⟨hn4, hc4⟩, ⟨hn5, hc5⟩, ⟨hn6, hc6⟩, ⟨hn7, hc7⟩, ⟨hn8, hc8⟩, ⟨hn9, hc9⟩, ⟨hn10, hc10⟩, ⟨hn11, hc11⟩, hnil⟩ := h
  subst hn0
  subst hn1
  subst hn2
  subst hn3
  subst hn4
  subst hn5
  subst hn6
  subst hn7
  subst hn8
  subst hn9
  subst hn10
  subst hn11
  subst hnil
  obtain ⟨mix0, mix1, mix2, mix3, mix4, mix5, mcp0, mcp1, mcp2, mcp3, mcp4, mcp5, msz0, msz1, msz2, msz3, msz4, msz5, rfl⟩ := shape_m6 c0 hc0
  obtain ⟨cix, ccp, csz, rfl⟩ := shape_s0 c1 hc1
  obtain ⟨acn0, acn1, acn2, acn3, aix0, aix1, aix2, aix3, acp0, acp1, acp2, acp3, asz0, asz1, asz2, asz3, rfl⟩ := shape_m4 c2 hc2
  obtain ⟨bcn, bix, bcp, bsz, rfl⟩ := shape_s1 c3 hc3
  obtain ⟨ncn, nix, ncp, nsz, rfl⟩ := shape_s1 c4 hc4
  obtain ⟨scn, six, scp, ssz, rfl⟩ := shape_s1 c5 hc5
  obtain ⟨pcn, pix, pcp, psz, rfl⟩ := shape_s1 c6 hc6
  obtain ⟨dcn, dix, dcp, dsz, rfl⟩ := shape_s1 c7 hc7
  obtain ⟨hcn0, hcn1, hcn2, hcn3, hix0, hix1, hix2, hix3, hcp0, hcp1, hcp2, hcp3, hsz0, hsz1, hsz2, hsz3, rfl⟩ := shape_m4 c8 hc8
  obtain ⟨kcn0, kcn1, kcn2, kcn3, kix0, kix1, kix2, kix3, kcp0, kcp1, kcp2, kcp3, ksz0, ksz1, ksz2, ksz3, rfl⟩ := shape_m4 c9 hc9
  obtain ⟨ucn, uix, ucp, usz, rfl⟩ := shape_s1 c10 hc10
  obtain ⟨vcn, vix, vcp, vsz, rfl⟩ := shape_s1 c11 hc11
  exact ⟨[mix0, mix1, mix2, mix3, mix4, mix5, mcp0, mcp1, mcp2, mcp3, mcp4, mcp5, msz0, msz1, msz2, msz3, msz4, msz5, cix, ccp, csz, acn0, acn1, acn2, acn3, aix0, aix1, aix2, aix3, acp0, acp1, acp2, acp3, asz0, asz1, asz2, asz3, bcn, bix, bcp, bsz, ncn, nix, ncp, nsz, scn, six, scp, ssz, pcn, pix, pcp, psz, dcn, dix, dcp, dsz, hcn0, hcn1, hcn2, hcn3, hix0, hix1, hix2, hix3, hcp0, hcp1, hcp2, hcp3, hsz0, hsz1, hsz2, hsz3, kcn0, kcn1, kcn2, kcn3, kix0, kix1, kix2, kix3, kcp0, kcp1, kcp2, kcp3, ksz0, ksz1, ksz2, ksz3, ucn, uix, ucp, usz, vcn, vix, vcp, vsz], rfl, rfl⟩

theorem joinComps_nil : joinComps [] = [] := rfl

theorem joinComps_cons (q : List Nat × List Nat) (ls : List (List Nat × List Nat)) :
    joinComps (q :: ls) = q.1 ++ joinComps ls := by
  simp [joinComps]

theorem joinComps_append (a b : List (List Nat × List Nat)) :
    joinComps (a ++ b) = joinComps a ++ joinComps b := by
  simp [joinComps]

theorem write_slots_blob (C : Compress) (rw : RWTable) (off : Nat) (dtype : String) :
    ∀ (subs : List SubCell) (j : Nat) (blob : List Nat) (cat : CatData),
    (write_slots C rw off dtype subs j blob cat).1 =
      blob ++ joinComps (slotChunks C rw dtype subs) := by
  intro subs
  induction subs with
  | nil =>
    intro j blob cat
    simp [write_slots, slotChunks, joinComps]
  | cons s rest ih =>
    intro j blob cat
    cases s with
    | absent a b c =>
      simp only [write_slots, ih, slotChunks, List.filterMap_cons, chunkOf]
    | present dt od dd m =>
      simp only [write_slots, ih, slotChunks, List.filterMap_cons, chunkOf, joinComps_cons]
      simp [List.append_assoc]

theorem write_slots_shape (C : Compress) (rw : RWTable) (off : Nat) (dtype : String) :
    ∀ (subs : List SubCell) (j : Nat) (blob : List Nat) (cat : CatData),
    catShape (write_slots C rw off dtype subs j blob cat).2 = catShape cat := by
  intro subs
  induction subs with
  | nil => intro j blob cat; rfl
  | cons s rest ih =>
    intro j blob cat
    cases s with
    | absent a b c => simp only [write_slots, ih]
    | present dt od dd m => simp only [write_slots, ih, catShape_setSlot]

theorem slotAt_set_ne (cnt : Option (List Int)) (il pl sl : List Int)
    (j m : Nat) (a b d : Int) (h : m ≠ j) :
    ((CatData.multi cnt il pl sl).setSlot j a b d).slotAt m =
      (CatData.multi cnt il pl sl).slotAt m := by
  simp only [CatData.setSlot, CatData.slotAt]
  rw [List.getElem?_set_ne (Ne.symm h), List.getElem?_set_ne (Ne.symm h),
    List.getElem?_set_ne (Ne.symm h)]

theorem slotAt_set_self (cnt : Option (List Int)) (il pl sl : List Int)
    (j : Nat) (a b d : Int) (h1 : j < il.length) (h2 : j < pl.length)
    (h3 : j < sl.length) :
    ((CatData.multi cnt il pl sl).setSlot j a b d).slotAt j = some (a, b, d) := by
  simp only [CatData.setSlot, CatData.slotAt]
  rw [List.getElem?_set_eq_of_lt a h1, List.getElem?_set_eq_of_lt b h2,
    List.getElem?_set_eq_of_lt d h3]

theorem write_slots_untouched (C : Compress) (rw : RWTable) (off : Nat) (dtype : String) :
    ∀ (subs : List SubCell) (j : Nat) (blob : List Nat) (cnt : Option (List Int))
      (il pl sl : List Int) (m : Nat), m < j →
    ((write_slots C rw off dtype subs j blob (.multi cnt il pl sl)).2).slotAt m =
      (CatData.multi cnt il pl sl).slotAt m := by
  intro subs
  induction subs with
  | nil => intro j blob cnt il pl sl m hm; rfl
  | cons s rest ih =>
    intro j blob cnt il pl sl m hm
    cases s with
    | absent a b c =>
      simp only [write_slots]
      exact ih (j + 1) blob cnt il pl sl m (by omega)
    | present dt od dd m2 =>
      simp only [write_slots, CatData.setSlot]
      rw [ih (j + 1) _ cnt _ _ _ m (by omega)]
      exact slotAt_set_ne cnt il pl sl j m _ _ _ (by omega)

theorem write_slots_present_multi (C : Compress) (rw : RWTable) (off : Nat)
    (dtype : String) :
    ∀ (subs : List SubCell) (j : Nat) (blob : List Nat) (cnt : Option (List Int))
      (il pl sl : List Int),
    j + subs.length ≤ il.length → j + subs.length ≤ pl.length →
    j + subs.length ≤ sl.length →
    ∀ k dt od dd m, subs[k]? = some (.present dt od dd m) →
    ((write_slots C rw off dtype subs j blob (.multi cnt il pl sl)).2).slotAt (j + k) =
      some (Int.ofNat (blob.length + (joinComps (slotChunks C rw dtype (subs.take k))).length + off),
            Int.ofNat (C (encodeSub rw dtype od dd m)).length,
            Int.ofNat (encodeSub rw dtype od dd m).length) := by
  intro subs
  induction subs with
  | nil =>
    intro j blob cnt il pl sl h1 h2 h3 k dt od dd m hk
    simp at hk
  | cons s rest ih =>
    intro j blob cnt il pl sl h1 h2 h3 k dt od dd m hk
    simp only [List.length_cons] at h1 h2 h3
    cases s with
    | absent a b c =>
      match k, hk with
      | 0, hk => simp at hk
      | k + 1, hk =>
        simp only [List.getElem?_cons_succ] at hk
        simp only [write_slots, List.take_succ_cons, slotChunks, List.filterMap_cons, chunkOf]
        rw [show j + (k + 1) = (j + 1) + k by omega]
        exact ih (j + 1) blob cnt il pl sl (by omega) (by omega) (by omega) k dt od dd m hk
    | present dt2 od2 dd2 m2 =>
      match k, hk with
      | 0, hk =>
        simp only [List.getElem?_cons_zero, Option.some.injEq, SubCell.present.injEq] at hk
        obtain ⟨rfl, rfl, rfl, rfl⟩ := hk
        simp only [write_slots, Nat.add_zero, List.take_zero, CatData.setSlot]
        rw [write_slots_untouched C rw off dtype rest (j + 1) _ cnt _ _ _ j (by omega)]
        rw [← CatData.setSlot]
        rw [slotAt_set_self cnt il pl sl j _ _ _ (by omega) (by omega) (by omega)]
        simp [joinComps, slotChunks]
      | k + 1, hk =>
        simp only [List.getElem?_cons_succ] at hk
        simp only [write_slots, List.take_succ_cons, slotChunks, List.filterMap_cons, chunkOf,
          CatData.setSlot]
        rw [show j + (k + 1) = (j + 1) + k by omega]
        rw [ih (j + 1) _ cnt _ _ _ (by simp only [List.length_set]; omega)
          (by simp only [List.length_set]; omega) (by simp only [List.length_set]; omega)
          k dt od dd m hk]
        rw [← slotChunks]
        rw [joinComps_cons]
        simp only [List.length_append]
        refine congrArg some ?_
        refine congrArg (fun t => ((Int.ofNat t : Int),
          Int.ofNat (C (encodeSub rw dtype od dd m)).length,
          Int.ofNat (encodeSub rw dtype od dd m).length)) ?_
        omega

theorem write_slots_absent_multi (C : Compress) (rw : RWTable) (off : Nat)
    (dtype : String) :
    ∀ (subs : List SubCell) (j : Nat) (blob : List Nat) (cnt : Option (List Int))
      (il pl sl : List Int),
    ∀ k a b c, subs[k]? = some (.absent a b c) →
    ((write_slots C rw off dtype subs j blob (.multi cnt il pl sl)).2).slotAt (j + k) =
      (CatData.multi cnt il pl sl).slotAt (j + k) := by
  intro subs
  induction subs with
  | nil =>
    intro j blob cnt il pl sl k a b c hk
    simp at hk
  | cons s rest ih =>
    intro j blob cnt il pl sl k a b c hk
    cases s with
    | absent a2 b2 c2 =>
      match k, hk with
      | 0, hk =>
        simp only [List.getElem?_cons_zero, Option.some.injEq, SubCell.absent.injEq] at hk
        obtain ⟨rfl, rfl, rfl⟩ := hk
        simp only [write_slots, Nat.add_zero]
        exact write_slots_untouched C rw off dtype rest (j + 1) blob cnt il pl sl j (by omega)
      | k + 1, hk =>
        simp only [List.getElem?_cons_succ] at hk
        simp only [write_slots]
        rw [show j + (k + 1) = (j + 1) + k by omega]
        exact ih (j + 1) blob cnt il pl sl k a b c hk
    | present dt2 od2 dd2 m2 =>
      match k, hk with
      | 0, hk => simp at hk
      | k + 1, hk =>
        simp only [List.getElem?_cons_succ] at hk
        simp only [write_slots, CatData.setSlot]
        rw [show j + (k + 1) = (j + 1) + k by omega]
        rw [ih (j + 1) _ cnt _ _ _ k a b c hk]
        rw [show (j + 1) + k = j + (k + 1) by omega]
        exact slotAt_set_ne cnt il pl sl j (j + (k + 1)) _ _ _ (by omega)

/-- `write_slots` on the single sub cell of a scalar category. -/
theorem write_slots_scalar (C : Compress) (rw : RWTable) (off : Nat) (dtype : String)
    (s : SubCell) (j : Nat) (blob : List Nat) (cnt : Option Int) (i0 p0 s0 : Int) :
    write_slots C rw off dtype [s] j blob (.scalar cnt i0 p0 s0) =
      match s with
      | .absent _ _ _ => (blob, .scalar cnt i0 p0 s0)
      | .present _ od dd m =>
          (blob ++ C (encodeSub rw dtype od dd m),
           .scalar cnt (Int.ofNat (blob.length + off))
             (Int.ofNat (C (encodeSub rw dtype od dd m)).length)
             (Int.ofNat (encodeSub rw dtype od dd m).length)) := by
  cases s with
  | absent a b c => rfl
  | present dt od dd m => rfl

theorem cellChunks_cons (C : Compress) (rw : RWTable) (e : String × List SubCell)
    (rest : WorldCell) :
    cellChunks C rw (e :: rest) = slotChunks C rw e.1 e.2 ++ cellChunks C rw rest := by
  simp [cellChunks]

theorem updateCat_cons (k : String) (c : CatData) (ch : CellHeader)
    (name : String) (c' : CatData) :
    updateCat ((k, c) :: ch) name c' =
      (if k = name then (k, c') else (k, c)) :: updateCat ch name c' := rfl

theorem lookup_updateCat_self (ch : CellHeader) (name : String) (cat c' : CatData)
    (h : List.lookup name ch = some cat) :
    List.lookup name (updateCat ch name c') = some c' := by
  induction ch with
  | nil => simp [List.lookup] at h
  | cons p ch ih =>
    rcases p with ⟨k, c⟩
    rw [updateCat_cons]
    by_cases hk : k = name
    · subst hk
      rw [if_pos rfl]
      simp [List.lookup]
    · have hne : (name == k) = false := by
        exact beq_eq_false_iff_ne.mpr (fun hh => hk hh.symm)
      simp only [List.lookup, hne] at h
      rw [if_neg hk]
      simp only [List.lookup, hne]
      exact ih h

theorem lookup_updateCat_ne (ch : CellHeader) (name name2 : String) (c' : CatData)
    (h : name2 ≠ name) :
    List.lookup name2 (updateCat ch name c') = List.lookup name2 ch := by
  induction ch with
  | nil => rfl
  | cons p ch ih =>
    rcases p with ⟨k, c⟩
    rw [updateCat_cons]
    by_cases hk : k = name
    · subst hk
      rw [if_pos rfl]
      have hne : (name2 == k) = false := beq_eq_false_iff_ne.mpr h
      simp only [List.lookup, hne]
      exact ih
    · rw [if_neg hk]
      simp only [List.lookup]
      cases hc : (name2 == k) with
      | true => rfl
      | false => exact ih

theorem updateCat_keys (ch : CellHeader) (name : String) (c' : CatData) :
    (updateCat ch name c').map Prod.fst = ch.map Prod.fst := by
  induction ch with
  | nil => rfl
  | cons p ch ih =>
    simp only [updateCat, List.map_cons] at ih ⊢
    by_cases hk : p.1 = name
    · simp [if_pos hk, ih, hk]
    · simp [if_neg hk, ih]

theorem write_cats_notmem (C : Compress) (rw : RWTable) (off : Nat) (dtype : String) :
    ∀ (wcell : WorldCell) (blob : List Nat) (ch : CellHeader) (blob2 : List Nat)
      (ch2 : CellHeader),
    write_cats C rw off wcell blob ch = .ok (blob2, ch2) →
    dtype ∉ wcell.map Prod.fst →
    List.lookup dtype ch2 = List.lookup dtype ch := by
  intro wcell
  induction wcell with
  | nil =>
    intro blob ch blob2 ch2 h hm
    simp only [write_cats, Except.ok.injEq, Prod.mk.injEq] at h
    rw [← h.2]
  | cons e rest ih =>
    intro blob ch blob2 ch2 h hm
    rcases e with ⟨d0, subs0⟩
    simp only [List.map_cons, List.mem_cons] at hm
    push_neg at hm
    simp only [write_cats] at h
    cases hlk : List.lookup d0 ch with
    | none => rw [hlk] at h; exact absurd h (by simp)
    | some cat =>
      rw [hlk] at h
      rw [ih _ _ _ _ h hm.2]
      exact lookup_updateCat_ne ch d0 dtype _ hm.1

theorem write_cats_blob (C : Compress) (rw : RWTable) (off : Nat) :
    ∀ (wcell : WorldCell) (blob : List Nat) (ch : CellHeader) (blob2 : List Nat)
      (ch2 : CellHeader),
    write_cats C rw off wcell blob ch = .ok (blob2, ch2) →
    blob2 = blob ++ joinComps (cellChunks C rw wcell) := by
  intro wcell
  induction wcell with
  | nil =>
    intro blob ch blob2 ch2 h
    simp only [write_cats, Except.ok.injEq, Prod.mk.injEq] at h
    simp [← h.1, cellChunks, joinComps]
  | cons e rest ih =>
    intro blob ch blob2 ch2 h
    rcases e with ⟨d0, subs0⟩
    simp only [write_cats] at h
    cases hlk : List.lookup d0 ch with
    | none => rw [hlk] at h; exact absurd h (by simp)
    | some cat =>
      rw [hlk] at h
      rw [ih _ _ _ _ h]
      rw [write_slots_blob]
      rw [cellChunks_cons, joinComps_append, List.append_assoc]

theorem write_cats_shape (C : Compress) (rw : RWTable) (off : Nat) :
    ∀ (wcell : WorldCell) (blob : List Nat) (ch : CellHeader) (blob2 : List Nat)
      (ch2 : CellHeader),
    write_cats C rw off wcell blob ch = .ok (blob2, ch2) →
    Inv ch → Inv ch2 := by
  intro wcell
  induction wcell with
  | nil =>
    intro blob ch blob2 ch2 h hInv
    simp only [write_cats, Except.ok.injEq, Prod.mk.injEq] at h
    rw [← h.2]
    exact hInv
  | cons e rest ih =>
    intro blob ch blob2 ch2 h hInv
    rcases e with ⟨d0, subs0⟩
    simp only [write_cats] at h
    cases hlk : List.lookup d0 ch with
    | none => rw [hlk] at h; exact absurd h (by simp)
    | some cat =>
      rw [hlk] at h
      refine ih _ _ _ _ h ?_
      exact inv_updateCat ch d0 cat _ hInv hlk (write_slots_shape C rw off d0 subs0 0 blob cat)

theorem write_cats_desc (C : Compress) (rw : RWTable) (off : Nat) :
    ∀ (wcell : WorldCell) (blob : List Nat) (ch : CellHeader) (blob2 : List Nat)
      (ch2 : CellHeader) (p : Nat) (dtype : String) (subs : List SubCell),
    write_cats C rw off wcell blob ch = .ok (blob2, ch2) →
    (wcell.map Prod.fst).Nodup →
    wcell[p]? = some (dtype, subs) →
    ∃ cat, List.lookup dtype ch = some cat ∧
      List.lookup dtype ch2 =
        some (write_slots C rw off dtype subs 0
          (blob ++ joinComps (cellChunks C rw (wcell.take p))) cat).2 := by
  intro wcell
  induction wcell with
  | nil =>
    intro blob ch blob2 ch2 p dtype subs h hnd hp
    simp at hp
  | cons e rest ih =>
    intro blob ch blob2 ch2 p dtype subs h hnd hp
    rcases e with ⟨d0, subs0⟩
    simp only [List.map_cons, List.nodup_cons] at hnd
    simp only [write_cats] at h
    cases hlk : List.lookup d0 ch with
    | none => rw [hlk] at h; exact absurd h (by simp)
    | some cat =>
      rw [hlk] at h
      cases p with
      | zero =>
        rw [List.getElem?_cons_zero] at hp
        simp only [Option.some.injEq, Prod.mk.injEq] at hp
        obtain ⟨h1, h2⟩ := hp
        rw [← h1, ← h2]
        refine ⟨cat, hlk, ?_⟩
        rw [write_cats_notmem C rw off d0 rest _ _ _ _ h hnd.1]
        rw [lookup_updateCat_self ch d0 cat _ hlk]
        simp [cellChunks, joinComps]
      | succ p =>
        rw [List.getElem?_cons_succ] at hp
        obtain ⟨cat2, hlk2, hfin⟩ := ih _ _ _ _ p dtype subs h hnd.2 hp
        have hdne : dtype ≠ d0 := by
          intro hh
          refine hnd.1 ?_
          have hmem : (dtype, subs) ∈ rest := by
            obtain ⟨hi, hv⟩ := List.getElem?_eq_some.mp hp
            rw [← hv]
            exact List.getElem_mem hi
          rw [← hh]
          exact List.mem_map_of_mem Prod.fst hmem
        rw [lookup_updateCat_ne ch d0 dtype _ hdne] at hlk2
        refine ⟨cat2, hlk2, ?_⟩
        rw [hfin]
        rw [write_slots_blob]
        rw [List.take_succ_cons, cellChunks_cons, joinComps_append, List.append_assoc]

theorem guard_ok {P : Prop} [Decidable P] {e : String} {u : Unit} :
    ((if P then Except.error e else Except.ok ()) = Except.ok u) ↔ ¬P := by
  split <;> simp_all

theorem worldChunks_cons (C : Compress) (rw : RWTable) (wc : WorldCell)
    (t : List WorldCell) :
    worldChunks C rw (wc :: t) = cellChunks C rw wc ++ worldChunks C rw t := by
  simp [worldChunks]

/-- The master characterization of the `write_file` cell loop: on success
the updated cell headers, the spliced cell-header region and the data blob
are all determined by the original model, cell by cell in iteration
order. -/
theorem write_cells_spec (C : Compress) (rw : RWTable) (chOff off : Nat)
    (world : List WorldCell) :
    ∀ (chs : List CellHeader) (i : Nat) (nd blob : List Nat)
      (nd2 blob2 : List Nat) (chs2 : List CellHeader),
    write_cells C rw chOff off world chs i nd blob = .ok (nd2, blob2, chs2) →
    nd.length = chOff + CELL_DATA_SIZE * i + CELL_DATA_SIZE * chs.length →
    chs2.length = chs.length ∧
    blob2 = blob ++ joinComps (worldChunks C rw ((world.drop i).take chs.length)) ∧
    (∃ hds : List (List Nat),
      hds.length = chs.length ∧ (∀ hd ∈ hds, hd.length = CELL_DATA_SIZE) ∧
      nd2 = nd.take (chOff + CELL_DATA_SIZE * i) ++ hds.flatten ++
            nd.drop (chOff + CELL_DATA_SIZE * i + CELL_DATA_SIZE * chs.length) ∧
      (∀ (k : Nat) (ch2 : CellHeader), chs2[k]? = some ch2 →
        ∃ hd, hds[k]? = some hd ∧ create_cell_header ch2 = .ok hd)) ∧
    (∀ (k : Nat) (ch : CellHeader), chs[k]? = some ch →
      ∃ wc blobk ch2, (world.drop i)[k]? = some wc ∧ chs2[k]? = some ch2 ∧
        write_cats C rw off wc
          (blob ++ joinComps (worldChunks C rw ((world.drop i).take k))) ch =
          .ok (blobk, ch2)) := by
  intro chs
  induction chs with
  | nil =>
    intro i nd blob nd2 blob2 chs2 h hnd
    simp only [write_cells, Except.ok.injEq, Prod.mk.injEq] at h
    obtain ⟨h1, h2, h3⟩ := h
    subst h1
    subst h3
    refine ⟨rfl, ?_, ⟨[], rfl, by simp, ?_, by simp⟩, by simp⟩
    · simp [joinComps, worldChunks, h2]
    · simp only [List.flatten_nil, List.length_nil, Nat.mul_zero, Nat.add_zero,
        List.append_nil]
      rw [List.take_append_drop]
  | cons ch restCh ih =>
    intro i nd blob nd2 blob2 chs2 h hnd
    simp only [List.length_cons] at hnd
    simp only [write_cells] at h
    cases hwi : world[i]? with
    | none =>
      rw [hwi] at h
      exact absurd h (by simp [bind_ok])
    | some wc =>
      rw [hwi] at h
      simp only [bind_ok, pure_ok, guard_ok, Except.ok.injEq] at h
      obtain ⟨wcell, hwcell, bc, hcats, hd0, hcreate, ⟨u1, hlen388, u2, hlen388b, u3,
        hbound, res, hrec, hres⟩⟩ := h
      subst hwcell
      rcases bc with ⟨blob1, ch2a⟩
      rcases res with ⟨ndr, blobr, chsr⟩
      have hiwlt : i < world.length := by
        by_contra hcon
        rw [List.getElem?_eq_none (by omega)] at hwi
        exact absurd hwi (by simp)
      have hdropi : world.drop i = wc :: world.drop (i + 1) := by
        have := List.drop_eq_getElem_cons hiwlt (l := world)
        rw [this]
        congr 1
        have := List.getElem?_eq_getElem hiwlt (l := world)
        rw [hwi] at this
        exact (Option.some.inj this).symm
      have hlen388' : hd0.length = CELL_DATA_SIZE := by omega
      have hndsplice : (nd.take (chOff + CELL_DATA_SIZE * i) ++ hd0 ++
          nd.drop (chOff + CELL_DATA_SIZE * i + CELL_DATA_SIZE)).length =
          chOff + CELL_DATA_SIZE * (i + 1) + CELL_DATA_SIZE * restCh.length := by
        simp only [List.length_append, List.length_take, List.length_drop, hlen388']
        simp only [CELL_DATA_SIZE] at hnd hbound ⊢
        omega
      obtain ⟨ihlen, ihblob, ⟨hds, hhdlen, hhd388, ihnd, ihlink⟩, ihcells⟩ :=
        ih (i + 1) _ blob1 ndr blobr chsr hrec hndsplice
      have hblob1 : blob1 = blob ++ joinComps (cellChunks C rw wc) :=
        write_cats_blob C rw off wc blob ch blob1 ch2a hcats
      have htake1 : (world.drop i).take (restCh.length + 1) =
          wc :: (world.drop (i + 1)).take restCh.length := by
        rw [hdropi, List.take_succ_cons]
      simp only [Prod.mk.injEq] at hres
      obtain ⟨hres1, hres2, hres3⟩ := hres
      subst hres1
      subst hres2
      subst hres3
      refine ⟨by simp [ihlen], ?_, ?_, ?_⟩
      · simp only [List.length_cons, htake1, worldChunks_cons, joinComps_append]
        rw [ihblob, hblob1]
        simp [List.append_assoc]
      · refine ⟨hd0 :: hds, by simp [hhdlen], ?_, ?_, ?_⟩
        · intro hd hmem
          rcases List.mem_cons.mp hmem with h | h
          · rw [h]; exact hlen388'
          · exact hhd388 hd h
        · rw [ihnd]
          have hsle : chOff + CELL_DATA_SIZE * i ≤ nd.length := by
            simp only [CELL_DATA_SIZE] at hnd ⊢
            omega
          have htk : (nd.take (chOff + CELL_DATA_SIZE * i) ++ hd0 ++
              nd.drop (chOff + CELL_DATA_SIZE * i + CELL_DATA_SIZE)).take
                (chOff + CELL_DATA_SIZE * (i + 1)) =
              nd.take (chOff + CELL_DATA_SIZE * i) ++ hd0 := by
            rw [List.append_assoc]
            have e1 : chOff + CELL_DATA_SIZE * (i + 1) =
                (nd.take (chOff + CELL_DATA_SIZE * i)).length + CELL_DATA_SIZE := by
              simp only [List.length_take]
              simp only [CELL_DATA_SIZE] at hnd ⊢
              omega
            rw [e1, List.take_append]
            congr 1
            rw [List.take_append_of_le_length (le_of_eq hlen388'.symm)]
            exact List.take_of_length_le (le_of_eq hlen388')
          have hdr : (nd.take (chOff + CELL_DATA_SIZE * i) ++ hd0 ++
              nd.drop (chOff + CELL_DATA_SIZE * i + CELL_DATA_SIZE)).drop
                (chOff + CELL_DATA_SIZE * (i + 1) + CELL_DATA_SIZE * restCh.length) =
              nd.drop (chOff + CELL_DATA_SIZE * i + CELL_DATA_SIZE * (restCh.length + 1)) := by
            rw [List.append_assoc]
            have e2 : chOff + CELL_DATA_SIZE * (i + 1) + CELL_DATA_SIZE * restCh.length =
                (nd.take (chOff + CELL_DATA_SIZE * i)).length +
                  (CELL_DATA_SIZE + CELL_DATA_SIZE * restCh.length) := by
              simp only [List.length_take]
              simp only [CELL_DATA_SIZE] at hnd ⊢
              omega
            rw [e2, List.drop_append]
            have e3 : CELL_DATA_SIZE + CELL_DATA_SIZE * restCh.length =
                hd0.length + CELL_DATA_SIZE * restCh.length := by
              rw [hlen388']
            rw [e3, List.drop_append]
            rw [List.drop_drop]
            refine congrArg (fun t => List.drop t nd) ?_
            simp only [CELL_DATA_SIZE]
            omega
          rw [htk, hdr]
          simp only [List.flatten_cons, List.append_assoc, List.length_cons]
        · intro k ch2 hk
          match k, hk with
          | 0, hk =>
            refine ⟨hd0, by simp, ?_⟩
            simp only [List.getElem?_cons_zero, Option.some.injEq] at hk
            rw [← hk]
            exact hcreate
          | k + 1, hk =>
            simp only [List.getElem?_cons_succ] at hk
            simp only [List.getElem?_cons_succ]
            exact ihlink k ch2 hk
      · intro k ch0 hk
        match k, hk with
        | 0, hk =>
          simp only [List.getElem?_cons_zero, Option.some.injEq] at hk
          refine ⟨wc, blob1, ch2a, by rw [hdropi]; simp, by simp, ?_⟩
          rw [← hk]
          simp only [List.take_zero, worldChunks, List.flatMap_nil, joinComps_nil,
            List.append_nil]
          exact hcats
        | k + 1, hk =>
          simp only [List.getElem?_cons_succ] at hk
          obtain ⟨wck, blobk, ch2k, hwck, hch2k, hwrite⟩ := ihcells k ch0 hk
          refine ⟨wck, blobk, ch2k, ?_, ?_, ?_⟩
          · rw [hdropi, List.getElem?_cons_succ]
            exact hwck
          · rw [List.getElem?_cons_succ]
            exact hch2k
          · rw [hdropi, List.take_succ_cons, worldChunks_cons, joinComps_append]
            rw [hblob1] at hwrite
            rw [List.append_assoc] at hwrite
            exact hwrite

/-- Characterization of a successful `write_file` run: the output is
`header ++ serialized updated cell headers ++ data blob`, and each updated
cell header is the `write_cats` result for its cell at the data-blob
position determined by the cells before it. -/
theorem write_file_spec (C : Compress) (rw : RWTable) (fh : FileHeader)
    (chs : List CellHeader) (world : List WorldCell) (out : List Nat)
    (chs2 : List CellHeader)
    (h : write_file C rw fh chs world = .ok (out, chs2)) :
    ∃ headerBytes : List Nat,
      write_header fh = .ok headerBytes ∧
      headerBytes.length = fh.cell_header_offset ∧
      chs2.length = chs.length ∧
      (∃ hds : List (List Nat),
        hds.length = chs.length ∧ (∀ hd ∈ hds, hd.length = CELL_DATA_SIZE) ∧
        out = headerBytes ++ hds.flatten ++
          joinComps (worldChunks C rw (world.take chs.length)) ∧
        (∀ (k : Nat) (ch2 : CellHeader), chs2[k]? = some ch2 →
          ∃ hd, hds[k]? = some hd ∧ create_cell_header ch2 = .ok hd)) ∧
      (∀ (k : Nat) (ch : CellHeader), chs[k]? = some ch →
        ∃ wc blobk ch2, world[k]? = some wc ∧ chs2[k]? = some ch2 ∧
          write_cats C rw (fh.cell_header_offset + CELL_DATA_SIZE * chs.length) wc
            (joinComps (worldChunks C rw (world.take k))) ch = .ok (blobk, ch2)) := by
  unfold write_file at h
  simp only [bind_ok, pure_ok, guard_ok, Except.ok.injEq] at h
  obtain ⟨headerBytes, hwh, u1, hoff, res, hrec, hres⟩ := h
  rcases res with ⟨ndr, blobr, chsr⟩
  simp only [Prod.mk.injEq] at hres
  obtain ⟨hres1, hres2⟩ := hres
  subst hres1
  subst hres2
  have hoff' : headerBytes.length = fh.cell_header_offset := by omega
  have hbase : (headerBytes ++ List.replicate (CELL_DATA_SIZE * chs.length) 88).length =
      fh.cell_header_offset + CELL_DATA_SIZE * 0 + CELL_DATA_SIZE * chs.length := by
    simp [List.length_append, List.length_replicate, hoff']
  have hblen : (headerBytes ++ List.replicate (CELL_DATA_SIZE * chs.length) 88).length =
      fh.cell_header_offset + CELL_DATA_SIZE * chs.length := by
    simp [List.length_append, List.length_replicate, hoff']
  rw [hblen] at hrec
  obtain ⟨hlen, hblob, ⟨hds, hhdlen, hhd388, hnd2, hlink⟩, hcells⟩ :=
    write_cells_spec C rw fh.cell_header_offset
      (fh.cell_header_offset + CELL_DATA_SIZE * chs.length) world chs 0
      (headerBytes ++ List.replicate (CELL_DATA_SIZE * chs.length) 88) [] ndr blobr chsr
      hrec hbase
  simp only [List.drop_zero] at hblob hcells
  refine ⟨headerBytes, hwh, hoff', hlen, ⟨hds, hhdlen, hhd388, ?_, hlink⟩, ?_⟩
  · rw [hnd2, hblob]
    have ht : (headerBytes ++ List.replicate (CELL_DATA_SIZE * chs.length) 88).take
        (fh.cell_header_offset + CELL_DATA_SIZE * 0) = headerBytes := by
      simp only [Nat.mul_zero, Nat.add_zero]
      rw [← hoff']
      exact List.take_left headerBytes _
    have hdp : (headerBytes ++ List.replicate (CELL_DATA_SIZE * chs.length) 88).drop
        (fh.cell_header_offset + CELL_DATA_SIZE * 0 + CELL_DATA_SIZE * chs.length) = [] := by
      apply List.drop_eq_nil_of_le
      simp [List.length_append, List.length_replicate, hoff']
    rw [ht, hdp]
    simp [List.append_assoc]
  · intro k ch hk
    obtain ⟨wc, blobk, ch2, hwc, hch2, hwrite⟩ := hcells k ch hk
    refine ⟨wc, blobk, ch2, hwc, hch2, ?_⟩
    simpa using hwrite

theorem read_file_ok (rw : RWTable) (D : Decompress) (bytes : List Nat)
    (t : TileModel) (h : read_file rw D bytes = .ok t) :
    parse_header bytes = .ok t.header ∧
    parse_cell_headers t.header bytes = .ok t.cell_headers ∧
    read_cells rw D bytes t.cell_headers = .ok t.world_data := by
  unfold read_file at h
  simp only [bind_ok, pure_ok] at h
  obtain ⟨h1, hh, h2, hch, h3, hw, heq⟩ := h
  subst heq
  exact ⟨hh, hch, hw⟩

theorem parse_cell_header_ok (data : List Nat) (ch : CellHeader)
    (h : parse_cell_header data = .ok ch) :
    data.length = 388 ∧ ∃ ys : List Int, ys.length = 97 ∧ ch = buildCellHeader ys := by
  unfold parse_cell_header at h
  split at h
  · exact absurd h (by simp)
  · split at h
    · exact absurd h (by simp)
    · simp only [Except.ok.injEq] at h
      rename_i hlen _
      refine ⟨by omega, unpackInts data 97, ?_, h.symm⟩
      simp [unpackInts, List.length_map, List.length_range]

theorem parse_cell_header_inv (data : List Nat) (ch : CellHeader)
    (h : parse_cell_header data = .ok ch) : Inv ch := by
  obtain ⟨-, ys, -, rfl⟩ := parse_cell_header_ok data ch h
  exact inv_build ys

theorem parse_cells_ok (data : List Nat) (s : Nat) :
    ∀ (n off : Nat) (chs : List CellHeader),
    parse_cells data s off n = .ok chs →
    chs.length = n ∧ ∀ ch ∈ chs, Inv ch := by
  intro n
  induction n with
  | zero =>
    intro off chs h
    simp only [parse_cells, Except.ok.injEq] at h
    subst h
    simp
  | succ n ih =>
    intro off chs h
    simp only [parse_cells, bind_ok, pure_ok] at h
    obtain ⟨ch, hch, rest, hrest, heq⟩ := h
    subst heq
    obtain ⟨hlen, hinv⟩ := ih (off + s) rest hrest
    refine ⟨by simp [hlen], ?_⟩
    intro c hc
    rcases List.mem_cons.mp hc with h | h
    · rw [h]
      exact parse_cell_header_inv _ _ hch
    · exact hinv c h

/-- Completeness direction: if every listed cell header parses back from its
slice, the whole cell-header loop succeeds with exactly that list. -/
theorem parse_cells_of (data : List Nat) (s : Nat) :
    ∀ (chsL : List CellHeader) (off : Nat),
    (∀ (k : Nat) (ch : CellHeader), chsL[k]? = some ch →
      parse_cell_header (sliceN data (off + s * k) s) = .ok ch) →
    parse_cells data s off chsL.length = .ok chsL := by
  intro chsL
  induction chsL with
  | nil =>
    intro off h
    rfl
  | cons ch rest ih =>
    intro off h
    have h0 := h 0 ch (by simp)
    rw [Nat.mul_zero, Nat.add_zero] at h0
    simp only [List.length_cons, parse_cells, bind_ok, pure_ok]
    refine ⟨ch, h0, rest, ?_, rfl⟩
    apply ih (off + s)
    intro k c hk
    have := h (k + 1) c (by simpa using hk)
    rw [show off + s * (k + 1) = off + s + s * k by ring] at this
    exact this

theorem read_cells_len (rw : RWTable) (D : Decompress) (data : List Nat) :
    ∀ (chs : List CellHeader) (wd : List WorldCell),
    read_cells rw D data chs = .ok wd →
    wd.length = chs.length ∧
    ∀ (k : Nat) (ch : CellHeader), chs[k]? = some ch →
      ∃ wc, wd[k]? = some wc ∧ decode_cell rw D data ch = .ok wc := by
  intro chs
  induction chs with
  | nil =>
    intro wd h
    simp only [read_cells, Except.ok.injEq] at h
    subst h
    exact ⟨rfl, by intro k ch hk; simp at hk⟩
  | cons ch rest ih =>
    intro wd h
    simp only [read_cells, bind_ok, pure_ok] at h
    obtain ⟨wc, hwc, wrest, hwrest, heq⟩ := h
    subst heq
    obtain ⟨hlen, hall⟩ := ih wrest hwrest
    refine ⟨by simp [hlen], ?_⟩
    intro k c hk
    match k, hk with
    | 0, hk =>
      simp only [List.getElem?_cons_zero, Option.some.injEq] at hk
      subst hk
      exact ⟨wc, by simp, hwc⟩
    | k + 1, hk =>
      simp only [List.getElem?_cons_succ] at hk
      obtain ⟨w2, hw2, hdec⟩ := hall k c hk
      exact ⟨w2, by simpa using hw2, hdec⟩

theorem decode_cell_entries (rw : RWTable) (D : Decompress) (data : List Nat) :
    ∀ (ch : CellHeader) (wc : WorldCell),
    decode_cell rw D data ch = .ok wc →
    wc.map Prod.fst = ch.map Prod.fst ∧
    ∀ (q : Nat) (name : String) (subs : List SubCell), wc[q]? = some (name, subs) →
      ∃ cat, ch[q]? = some (name, cat) ∧
        decode_cell_chunk D data cat name (pfOf rw name) = .ok subs := by
  intro ch
  induction ch with
  | nil =>
    intro wc h
    simp only [decode_cell, Except.ok.injEq] at h
    subst h
    exact ⟨rfl, by intro q name subs hq; simp at hq⟩
  | cons p rest ih =>
    intro wc h
    simp only [decode_cell, bind_ok, pure_ok] at h
    obtain ⟨subs, hsubs, wrest, hwrest, heq⟩ := h
    subst heq
    obtain ⟨hkeys, hall⟩ := ih wrest hwrest
    refine ⟨by simp [hkeys], ?_⟩
    intro q name s2 hq
    match q, hq with
    | 0, hq =>
      simp only [List.getElem?_cons_zero, Option.some.injEq, Prod.mk.injEq] at hq
      obtain ⟨h1, h2⟩ := hq
      refine ⟨p.2, ?_, ?_⟩
      · simp only [List.getElem?_cons_zero, Option.some.injEq]
        rw [← h1]
      · rw [← h1, ← h2]
        exact hsubs
    | q + 1, hq =>
      simp only [List.getElem?_cons_succ] at hq
      obtain ⟨cat, hcat, hdec⟩ := hall q name s2 hq
      exact ⟨cat, by simpa using hcat, hdec⟩

theorem decode_levels_length (D : Decompress) (data : List Nat) (nm : String)
    (pf : Option DecodeFn) (cnt : Option (List Int)) (il pl sl : List Int) :
    ∀ (n level : Nat) (subs : List SubCell),
    decode_levels D data nm pf cnt il pl sl level n = .ok subs →
    subs.length = n := by
  intro n
  induction n with
  | zero =>
    intro level subs h
    simp only [decode_levels, Except.ok.injEq] at h
    subst h
    rfl
  | succ n ih =>
    intro level subs h
    simp only [decode_levels] at h
    split at h
    · simp only [bind_ok, pure_ok] at h
      obtain ⟨c, hc, s, hs, rest, hrest, heq⟩ := h
      subst heq
      simp [ih (level + 1) rest hrest]
    · exact absurd h (by simp)

theorem decode_slot_cases (D : Decompress) (data : List Nat) (i sz p : Int)
    (c : Option Int) (nm : String) (pf : Option DecodeFn) (s : SubCell)
    (h : decode_cell_chunk_slot D data i sz p c nm pf = .ok s) :
    (s = .absent i sz p ∧ (i ≤ 0 ∨ p ≤ 0)) ∨
    (0 < i ∧ 0 < p ∧ ∃ od, D (sliceN data i.toNat p.toNat) sz = some od ∧
      s = .present nm od
        (match pf with
         | some f => some (f od ⟨i, p, sz, c⟩)
         | none => none) ⟨i, p, sz, c⟩) := by
  unfold decode_cell_chunk_slot at h
  split at h
  · left
    simp only [Except.ok.injEq] at h
    exact ⟨h.symm, by omega⟩
  · rename_i hcond
    push_neg at hcond
    cases hD : D (sliceN data i.toNat p.toNat) sz with
    | none =>
      rw [hD] at h
      exact absurd h (by simp)
    | some od =>
      rw [hD] at h
      simp only [Except.ok.injEq] at h
      right
      refine ⟨by omega, by omega, od, rfl, ?_⟩
      cases pf <;> simp_all

theorem decode_levels_slots (D : Decompress) (data : List Nat) (nm : String)
    (pf : Option DecodeFn) (cnt : Option (List Int)) (il pl sl : List Int) :
    ∀ (n level : Nat) (subs : List SubCell),
    decode_levels D data nm pf cnt il pl sl level n = .ok subs →
    ∀ (k : Nat) (s : SubCell), subs[k]? = some s →
      ∃ i sz p, il[level + k]? = some i ∧ sl[level + k]? = some sz ∧
        pl[level + k]? = some p ∧
        ∃ c, decode_cell_chunk_slot D data i sz p c nm pf = .ok s := by
  intro n
  induction n with
  | zero =>
    intro level subs h k s hk
    simp only [decode_levels, Except.ok.injEq] at h
    subst h
    simp at hk
  | succ n ih =>
    intro level subs h k s hk
    simp only [decode_levels] at h
    split at h
    · rename_i i sz p hil hsl hpl
      simp only [bind_ok, pure_ok] at h
      obtain ⟨c, hc, s0, hs0, rest, hrest, heq⟩ := h
      subst heq
      match k, hk with
      | 0, hk =>
        simp only [List.getElem?_cons_zero, Option.some.injEq] at hk
        subst hk
        exact ⟨i, sz, p, by simpa using hil, by simpa using hsl, by simpa using hpl,
          c, hs0⟩
      | k + 1, hk =>
        simp only [List.getElem?_cons_succ] at hk
        obtain ⟨i2, sz2, p2, h1, h2, h3, c2, h4⟩ := ih (level + 1) rest hrest k s hk
        rw [show level + (k + 1) = level + 1 + k by omega]
        exact ⟨i2, sz2, p2, h1, h2, h3, c2, h4⟩
    · exact absurd h (by simp)

/-- Every sub cell produced by `decode_cell_chunk` corresponds to the
descriptor triple of its slot. -/
theorem decode_cell_chunk_slots (D : Decompress) (data : List Nat) (cat : CatData)
    (nm : String) (pf : Option DecodeFn) (subs : List SubCell)
    (h : decode_cell_chunk D data cat nm pf = .ok subs) :
    ∀ (k : Nat) (s : SubCell), subs[k]? = some s →
      ∃ i p sz, cat.slotAt k = some (i, p, sz) ∧
        ∃ c, decode_cell_chunk_slot D data i sz p c nm pf = .ok s := by
  intro k s hk
  match cat, h with
  | .multi cnt il pl sl, h =>
    simp only [decode_cell_chunk] at h
    obtain ⟨i, sz, p, h1, h2, h3, c, h4⟩ :=
      decode_levels_slots D data nm pf cnt il pl sl il.length 0 subs h k s hk
    simp only [Nat.zero_add] at h1 h2 h3
    refine ⟨i, p, sz, ?_, c, h4⟩
    simp only [CatData.slotAt, h1, h2, h3]
  | .scalar cnt i p sz, h =>
    simp only [decode_cell_chunk, bind_ok, pure_ok] at h
    obtain ⟨s0, hs0, heq⟩ := h
    subst heq
    match k, hk with
    | 0, hk =>
      simp only [List.getElem?_cons_zero, Option.some.injEq] at hk
      subst hk
      exact ⟨i, p, sz, rfl, cnt, hs0⟩

theorem lookup_of_getElem (ch : CellHeader) :
    ∀ (q : Nat) (name : String) (cat : CatData),
    ch[q]? = some (name, cat) → (ch.map Prod.fst).Nodup →
    List.lookup name ch = some cat := by
  induction ch with
  | nil =>
    intro q name cat hq hnd
    simp at hq
  | cons p rest ih =>
    intro q name cat hq hnd
    rcases p with ⟨k, c⟩
    rw [List.map_cons, List.nodup_cons] at hnd
    match q, hq with
    | 0, hq =>
      simp only [List.getElem?_cons_zero, Option.some.injEq, Prod.mk.injEq] at hq
      obtain ⟨h1, h2⟩ := hq
      rw [h1, h2]
      simp [List.lookup]
    | q + 1, hq =>
      simp only [List.getElem?_cons_succ] at hq
      have hmem : name ∈ rest.map Prod.fst := by
        have hm2 : (name, cat) ∈ rest := by
          obtain ⟨hi, hv⟩ := List.getElem?_eq_some.mp hq
          rw [← hv]
          exact List.getElem_mem hi
        exact List.mem_map_of_mem Prod.fst hm2
      have hne : k ≠ name := fun hh => hnd.1 (hh ▸ hmem)
      have hbe : (name == k) = false :=
        beq_eq_false_iff_ne.mpr (fun hh => hne hh.symm)
      simp only [List.lookup, hbe]
      exact ih q name cat hq hnd.2

theorem inv_mem_shape (ch : CellHeader) (h : Inv ch) :
    ∀ p ∈ ch, (p.1, catShape p.2) ∈ canonShapes := by
  intro p hp
  have hm : (p.1, catShape p.2) ∈ shapeMap ch :=
    List.mem_map_of_mem (fun p => (p.1, catShape p.2)) hp
  rw [h] at hm
  exact hm

theorem canonShapes_balanced :
    ∀ q ∈ canonShapes, q.2.2.2.2.2.1 = q.2.2.2.2.1 ∧ q.2.2.2.2.2.2 = q.2.2.2.2.1 := by
  decide

theorem inv_balanced (ch : CellHeader) (h : Inv ch) (name : String) (cat : CatData)
    (hm : (name, cat) ∈ ch) (cnt : Option (List Int)) (il pl sl : List Int)
    (hc : cat = .multi cnt il pl sl) :
    il.length = pl.length ∧ il.length = sl.length := by
  have := canonShapes_balanced _ (inv_mem_shape ch h (name, cat) hm)
  rw [hc] at this
  simp only [catShape] at this
  exact ⟨this.1.symm, this.2.symm⟩

theorem decode_cell_chunk_SlotsOK (D : Decompress) (data : List Nat) (cat : CatData)
    (nm : String) (pf : Option DecodeFn) (subs : List SubCell)
    (h : decode_cell_chunk D data cat nm pf = .ok subs)
    (hbal : ∀ cnt il pl sl, cat = .multi cnt il pl sl →
      il.length = pl.length ∧ il.length = sl.length) :
    SlotsOK cat subs := by
  match cat, h with
  | .multi cnt il pl sl, h =>
    simp only [decode_cell_chunk] at h
    have hlen := decode_levels_length D data nm pf cnt il pl sl il.length 0 subs h
    obtain ⟨h1, h2⟩ := hbal cnt il pl sl rfl
    exact ⟨hlen, by omega, by omega⟩
  | .scalar cnt i p sz, h =>
    simp only [decode_cell_chunk, bind_ok, pure_ok] at h
    obtain ⟨s0, hs0, heq⟩ := h
    subst heq
    rfl

/-- Every successfully loaded tile is a well-shaped model. -/
theorem read_file_ModelOK (rw : RWTable) (D : Decompress) (bytes : List Nat)
    (t : TileModel) (h : read_file rw D bytes = .ok t) :
    ModelOK t.cell_headers t.world_data := by
  obtain ⟨hh, hch, hw⟩ := read_file_ok rw D bytes t h
  intro k ch hk
  have hInv : Inv ch := by
    unfold parse_cell_headers at hch
    refine (parse_cells_ok bytes t.header.cell_header_size _ _ _ hch).2 ch ?_
    obtain ⟨hi, hv⟩ := List.getElem?_eq_some.mp hk
    rw [← hv]
    exact List.getElem_mem hi
  obtain ⟨wc, hwc, hdec⟩ := (read_cells_len rw D bytes t.cell_headers t.world_data hw).2 k ch hk
  obtain ⟨hkeys, hentries⟩ := decode_cell_entries rw D bytes ch wc hdec
  have hchkeys : ch.map Prod.fst = canonShapes.map Prod.fst := inv_keys ch hInv
  have hnodupch : (ch.map Prod.fst).Nodup := by
    rw [hchkeys]
    decide
  refine ⟨hInv, wc, hwc, hInv, by rw [hkeys, hchkeys]; decide, hkeys, ?_⟩
  intro q dtype subs hq
  obtain ⟨cat, hcat, hdecchunk⟩ := hentries q dtype subs hq
  have hlk := lookup_of_getElem ch q dtype cat hcat hnodupch
  refine ⟨cat, hlk, hcat, ?_⟩
  refine decode_cell_chunk_SlotsOK D bytes cat dtype _ subs hdecchunk ?_
  intro cnt il pl sl hc
  refine inv_balanced ch hInv dtype cat ?_ cnt il pl sl hc
  obtain ⟨hi, hv⟩ := List.getElem?_eq_some.mp hcat
  rw [← hv]
  exact List.getElem_mem hi

theorem list_len1 {α : Type} (l : List α) (h : l.length = 1) : ∃ a, l = [a] := by
  rcases l with _ | ⟨a, l⟩
  · simp at h
  rcases l with _ | ⟨b, l⟩
  · exact ⟨a, rfl⟩
  · simp at h

/-- Drill-down to a single descriptor slot of a successful `write_file` run:
present slots receive the recomputed `(index, compressed, size)` triple at
their data-blob position, absent slots keep the original descriptor. -/
theorem write_file_slot (C : Compress) (rw : RWTable) (fh : FileHeader)
    (chs : List CellHeader) (world : List WorldCell) (out : List Nat)
    (chs2 : List CellHeader)
    (h : write_file C rw fh chs world = .ok (out, chs2))
    (hmo : ModelOK chs world) :
    ∀ (k : Nat) (ch : CellHeader), chs[k]? = some ch →
    ∀ (q : Nat) (dtype : String) (subs : List SubCell) (wc : WorldCell),
      world[k]? = some wc → wc[q]? = some (dtype, subs) →
      ∃ ch2, chs2[k]? = some ch2 ∧ ∃ cat cat2,
        List.lookup dtype ch = some cat ∧ List.lookup dtype ch2 = some cat2 ∧
        (∀ (j : Nat) (dt : String) (od : List Nat) (dd : Option (List Nat)) (m : Meta),
          subs[j]? = some (.present dt od dd m) →
          cat2.slotAt j = some
            (Int.ofNat (fh.cell_header_offset + CELL_DATA_SIZE * chs.length +
              ((joinComps (worldChunks C rw (world.take k))).length +
               (joinComps (cellChunks C rw (wc.take q))).length +
               (joinComps (slotChunks C rw dtype (subs.take j))).length)),
             Int.ofNat (C (encodeSub rw dtype od dd m)).length,
             Int.ofNat (encodeSub rw dtype od dd m).length)) ∧
        (∀ (j : Nat) (a b c : Int), subs[j]? = some (.absent a b c) →
          cat2.slotAt j = cat.slotAt j) := by
  intro k ch hk q dtype subs wc hwk hwq
  obtain ⟨hInv, wc2, hwc2, hcellok⟩ := hmo k ch hk
  rw [hwk] at hwc2
  obtain rfl : wc = wc2 := Option.some.inj hwc2
  obtain ⟨hb, -, -, -, -, hcells⟩ := write_file_spec C rw fh chs world out chs2 h
  obtain ⟨wcS, blobk, ch2, hwcS, hch2, hwrite⟩ := hcells k ch hk
  rw [hwk] at hwcS
  obtain rfl : wc = wcS := Option.some.inj hwcS
  obtain ⟨-, hndwc, -, hentry⟩ := hcellok
  obtain ⟨cat, hlkch, hlkch2⟩ :=
    write_cats_desc C rw (fh.cell_header_offset + CELL_DATA_SIZE * chs.length)
      wc _ ch blobk ch2 q dtype subs hwrite hndwc hwq
  obtain ⟨cat3, hlkch3, -, hslotsok⟩ := hentry q dtype subs hwq
  rw [hlkch] at hlkch3
  obtain rfl : cat = cat3 := Option.some.inj hlkch3
  refine ⟨ch2, hch2, cat, _, hlkch, hlkch2, ?_, ?_⟩
  · intro j dt od dd m hj
    match cat, hslotsok with
    | CatData.multi cnt il pl sl, hslotsok =>
      obtain ⟨hs1, hs2, hs3⟩ := hslotsok
      have := write_slots_present_multi C rw
        (fh.cell_header_offset + CELL_DATA_SIZE * chs.length) dtype subs 0
        (joinComps (worldChunks C rw (world.take k)) ++
          joinComps (cellChunks C rw (wc.take q)))
        cnt il pl sl (by omega) (by omega) (by omega) j dt od dd m hj
      simp only [Nat.zero_add] at this
      rw [this]
      refine congrArg some ?_
      refine congrArg (fun t => ((Int.ofNat t : Int),
        Int.ofNat (C (encodeSub rw dtype od dd m)).length,
        Int.ofNat (encodeSub rw dtype od dd m).length)) ?_
      simp only [List.length_append]
      omega
    | CatData.scalar cnt i0 p0 s0, hslotsok =>
      have hlen1 : subs.length = 1 := hslotsok
      obtain ⟨s, rfl⟩ := list_len1 subs hlen1
      match j, hj with
      | 0, hj =>
        simp only [List.getElem?_cons_zero, Option.some.injEq] at hj
        subst hj
        rw [write_slots_scalar]
        simp only [CatData.slotAt, if_pos rfl, List.take_zero]
        refine congrArg some ?_
        refine congrArg (fun t => ((Int.ofNat t : Int),
          Int.ofNat (C (encodeSub rw dtype od dd m)).length,
          Int.ofNat (encodeSub rw dtype od dd m).length)) ?_
        simp only [List.length_append, slotChunks, List.filterMap_nil, joinComps_nil,
          List.length_nil]
        omega
  · intro j a b c hj
    match cat, hslotsok with
    | CatData.multi cnt il pl sl, hslotsok =>
      have := write_slots_absent_multi C rw
        (fh.cell_header_offset + CELL_DATA_SIZE * chs.length) dtype subs 0
        (joinComps (worldChunks C rw (world.take k)) ++
          joinComps (cellChunks C rw (wc.take q)))
        cnt il pl sl j a b c hj
      simpa using this
    | CatData.scalar cnt i0 p0 s0, hslotsok =>
      have hlen1 : subs.length = 1 := hslotsok
      obtain ⟨s, rfl⟩ := list_len1 subs hlen1
      match j, hj with
      | 0, hj =>
        simp only [List.getElem?_cons_zero, Option.some.injEq] at hj
        subst hj
        rw [write_slots_scalar]

theorem take_decomp {α : Type} (l : List α) (k n : Nat) (a : α)
    (h : l[k]? = some a) (hkn : k < n) :
    ∃ t, l.take n = l.take k ++ a :: t := by
  obtain ⟨hk, hv⟩ := List.getElem?_eq_some.mp h
  refine ⟨(l.drop (k + 1)).take (n - k - 1), ?_⟩
  rw [show n = k + (n - k) by omega, List.take_add]
  congr 1
  rw [List.drop_eq_getElem_cons hk, show n - k = (n - k - 1) + 1 by omega,
    List.take_succ_cons, hv]
  congr 2
  omega

theorem full_decomp {α : Type} (l : List α) (q : Nat) (a : α)
    (h : l[q]? = some a) : ∃ t, l = l.take q ++ a :: t := by
  obtain ⟨hq, hv⟩ := List.getElem?_eq_some.mp h
  obtain ⟨t, ht⟩ := take_decomp l q l.length a h hq
  rw [List.take_length] at ht
  exact ⟨t, ht⟩

theorem worldChunks_append (C : Compress) (rw : RWTable) (a b : List WorldCell) :
    worldChunks C rw (a ++ b) = worldChunks C rw a ++ worldChunks C rw b := by
  simp [worldChunks]

theorem cellChunks_append (C : Compress) (rw : RWTable) (a b : WorldCell) :
    cellChunks C rw (a ++ b) = cellChunks C rw a ++ cellChunks C rw b := by
  simp [cellChunks]

theorem slotChunks_append (C : Compress) (rw : RWTable) (dtype : String)
    (a b : List SubCell) :
    slotChunks C rw dtype (a ++ b) = slotChunks C rw dtype a ++ slotChunks C rw dtype b := by
  simp [slotChunks]

theorem slotChunks_cons_present (C : Compress) (rw : RWTable) (dtype dt : String)
    (od : List Nat) (dd : Option (List Nat)) (m : Meta) (t : List SubCell) :
    slotChunks C rw dtype (.present dt od dd m :: t) =
      (C (encodeSub rw dtype od dd m), encodeSub rw dtype od dd m) ::
        slotChunks C rw dtype t := by
  simp [slotChunks, chunkOf]

/-- The compressed payload of one present slot sits in the data blob right
after the payloads of all slots visited before it. -/
theorem blob_chunk_at (C : Compress) (rw : RWTable) (world : List WorldCell)
    (n k : Nat) (wc : WorldCell) (q : Nat) (dtype : String) (subs : List SubCell)
    (j : Nat) (dt : String) (od : List Nat) (dd : Option (List Nat)) (m : Meta)
    (hk : world[k]? = some wc) (hkn : k < n)
    (hq : wc[q]? = some (dtype, subs))
    (hj : subs[j]? = some (.present dt od dd m)) :
    ∃ S, joinComps (worldChunks C rw (world.take n)) =
      joinComps (worldChunks C rw (world.take k)) ++
      (joinComps (cellChunks C rw (wc.take q)) ++
       (joinComps (slotChunks C rw dtype (subs.take j)) ++
        (C (encodeSub rw dtype od dd m) ++ S))) := by
  obtain ⟨t1, ht1⟩ := take_decomp world k n wc hk hkn
  obtain ⟨t2, ht2⟩ := full_decomp wc q (dtype, subs) hq
  obtain ⟨t3, ht3⟩ := full_decomp subs j (.present dt od dd m) hj
  refine ⟨joinComps (slotChunks C rw dtype t3) ++
    (joinComps (cellChunks C rw t2) ++ joinComps (worldChunks C rw t1)), ?_⟩
  rw [ht1, worldChunks_append]
  rw [show wc :: t1 = [wc] ++ t1 from rfl, worldChunks_append]
  have hwc1 : worldChunks C rw [wc] = cellChunks C rw wc := by
    simp [worldChunks]
  rw [hwc1]
  conv_lhs => rw [ht2]
  rw [cellChunks_append]
  rw [show (dtype, subs) :: t2 = [(dtype, subs)] ++ t2 from rfl, cellChunks_append]
  have hcc1 : cellChunks C rw [(dtype, subs)] = slotChunks C rw dtype subs := by
    simp [cellChunks]
  rw [hcc1]
  conv_lhs => rw [ht3]
  rw [slotChunks_append, slotChunks_cons_present]
  simp only [joinComps_append, joinComps_cons, List.append_assoc]

theorem sliceN_at (pre P comp S : List Nat) :
    sliceN (pre ++ (P ++ (comp ++ S))) (pre.length + P.length) comp.length = comp := by
  rw [sliceN_skip pre _ _ _ pre.length rfl (by omega)]
  rw [show pre.length + P.length - pre.length = P.length by omega]
  rw [sliceN_skip P _ _ _ P.length rfl le_rfl]
  rw [Nat.sub_self]
  exact sliceN_here comp S rfl

theorem flatten_length_uniform (hds : List (List Nat)) (c : Nat)
    (h : ∀ hd ∈ hds, hd.length = c) : hds.flatten.length = c * hds.length := by
  induction hds with
  | nil => simp
  | cons hd t ih =>
    simp only [List.flatten_cons, List.length_append, List.length_cons]
    rw [h hd (by simp), ih (fun x hx => h x (by simp [hx]))]
    ring

/-- C2 — during `write_file`, each present chunk slot, visited in fixed
iteration order, has its descriptor set to
`index = length of the data blob so far + data blob start offset`,
`compressed_size = len(compressed)`, `uncompressed_size = len(raw)`, and the
compressed bytes are appended to the blob at exactly that offset of the
output. -/
theorem spec_c2 (C : Compress) (rw : RWTable) (fh : FileHeader)
    (chs : List CellHeader) (world : List WorldCell) (out : List Nat)
    (chs2 : List CellHeader)
    (hw : write_file C rw fh chs world = .ok (out, chs2))
    (hmo : ModelOK chs world)
    (k : Nat) (ch : CellHeader) (hk : chs[k]? = some ch)
    (wc : WorldCell) (hwk : world[k]? = some wc)
    (q : Nat) (dtype : String) (subs : List SubCell) (hq : wc[q]? = some (dtype, subs))
    (j : Nat) (dt : String) (od : List Nat) (dd : Option (List Nat)) (m : Meta)
    (hj : subs[j]? = some (.present dt od dd m)) :
    ∃ ch2 cat2, chs2[k]? = some ch2 ∧ List.lookup dtype ch2 = some cat2 ∧
      cat2.slotAt j = some
        (Int.ofNat (fh.cell_header_offset + CELL_DATA_SIZE * chs.length +
          ((joinComps (worldChunks C rw (world.take k))).length +
           (joinComps (cellChunks C rw (wc.take q))).length +
           (joinComps (slotChunks C rw dtype (subs.take j))).length)),
         Int.ofNat (C (encodeSub rw dtype od dd m)).length,
         Int.ofNat (encodeSub rw dtype od dd m).length) ∧
      sliceN out
        (fh.cell_header_offset + CELL_DATA_SIZE * chs.length +
          ((joinComps (worldChunks C rw (world.take k))).length +
           (joinComps (cellChunks C rw (wc.take q))).length +
           (joinComps (slotChunks C rw dtype (subs.take j))).length))
        (C (encodeSub rw dtype od dd m)).length = C (encodeSub rw dtype od dd m) := by
  obtain ⟨ch2, hch2, cat, cat2, hlk1, hlk2, hpres, habs⟩ :=
    write_file_slot C rw fh chs world out chs2 hw hmo k ch hk q dtype subs wc hwk hq
  refine ⟨ch2, cat2, hch2, hlk2, hpres j dt od dd m hj, ?_⟩
  obtain ⟨headerBytes, hwh, hoff, hlen2, ⟨hds, hhdlen, hhd388, hout, -⟩, -⟩ :=
    write_file_spec C rw fh chs world out chs2 hw
  have hklt : k < chs.length := by
    obtain ⟨hlt, -⟩ := List.getElem?_eq_some.mp hk
    exact hlt
  obtain ⟨S, hS⟩ := blob_chunk_at C rw world chs.length k wc q dtype subs j dt od dd m
    hwk hklt hq hj
  have hflat : hds.flatten.length = CELL_DATA_SIZE * chs.length := by
    rw [flatten_length_uniform hds CELL_DATA_SIZE hhd388, hhdlen]
  have hout2 : out = (headerBytes ++ hds.flatten) ++
      (joinComps (worldChunks C rw (world.take k)) ++
       ((joinComps (cellChunks C rw (wc.take q)) ++
         joinComps (slotChunks C rw dtype (subs.take j))) ++
        (C (encodeSub rw dtype od dd m) ++ S))) := by
    rw [hout, hS]
    simp [List.append_assoc]
  rw [hout2]
  have hsl := sliceN_at (headerBytes ++ hds.flatten)
    (joinComps (worldChunks C rw (world.take k)) ++
     (joinComps (cellChunks C rw (wc.take q)) ++
      joinComps (slotChunks C rw dtype (subs.take j))))
    (C (encodeSub rw dtype od dd m)) S
  simp only [List.append_assoc, List.length_append] at hsl ⊢
  rw [hoff, hflat] at hsl
  convert hsl using 2
  omega

/-- C3 — in the bytes produced by `write_file`, every present descriptor
(a slot holding a decoded chunk, assigned a blob offset) satisfies
`index + compressed_size ≤ len(output)`. -/
theorem spec_c3 (C : Compress) (rw : RWTable) (fh : FileHeader)
    (chs : List CellHeader) (world : List WorldCell) (out : List Nat)
    (chs2 : List CellHeader)
    (hw : write_file C rw fh chs world = .ok (out, chs2))
    (hmo : ModelOK chs world)
    (k : Nat) (ch : CellHeader) (hk : chs[k]? = some ch)
    (wc : WorldCell) (hwk : world[k]? = some wc)
    (q : Nat) (dtype : String) (subs : List SubCell) (hq : wc[q]? = some (dtype, subs))
    (j : Nat) (dt : String) (od : List Nat) (dd : Option (List Nat)) (m : Meta)
    (hj : subs[j]? = some (.present dt od dd m)) :
    ∃ ch2 cat2 i p s, chs2[k]? = some ch2 ∧ List.lookup dtype ch2 = some cat2 ∧
      cat2.slotAt j = some (i, p, s) ∧ i + p ≤ (out.length : Int) := by
  obtain ⟨ch2, cat2, hch2, hlk2, hslot, hslice⟩ :=
    spec_c2 C rw fh chs world out chs2 hw hmo k ch hk wc hwk q dtype subs hq
      j dt od dd m hj
  refine ⟨ch2, cat2, _, _, _, hch2, hlk2, hslot, ?_⟩
  obtain ⟨headerBytes, hwh, hoff, hlen2, ⟨hds, hhdlen, hhd388, hout, -⟩, -⟩ :=
    write_file_spec C rw fh chs world out chs2 hw
  have hklt : k < chs.length := by
    obtain ⟨hlt, -⟩ := List.getElem?_eq_some.mp hk
    exact hlt
  obtain ⟨S, hS⟩ := blob_chunk_at C rw world chs.length k wc q dtype subs j dt od dd m
    hwk hklt hq hj
  have hflat : hds.flatten.length = CELL_DATA_SIZE * chs.length := by
    rw [flatten_length_uniform hds CELL_DATA_SIZE hhd388, hhdlen]
  have hlenout : out.length = fh.cell_header_offset + CELL_DATA_SIZE * chs.length +
      ((joinComps (worldChunks C rw (world.take k))).length +
       ((joinComps (cellChunks C rw (wc.take q))).length +
        ((joinComps (slotChunks C rw dtype (subs.take j))).length +
         ((C (encodeSub rw dtype od dd m)).length + S.length)))) := by
    rw [hout, hS]
    simp only [List.length_append, hflat, hoff]
  simp only [Int.ofNat_eq_natCast]
  push_cast
  omega

theorem lookup_getElem (ch : CellHeader) :
    ∀ (name : String) (cat : CatData), List.lookup name ch = some cat →
    ∃ q : Nat, ch[q]? = some (name, cat) := by
  induction ch with
  | nil =>
    intro name cat h
    simp [List.lookup] at h
  | cons p rest ih =>
    intro name cat h
    rcases p with ⟨k, c⟩
    by_cases hk : name = k
    · subst hk
      simp only [List.lookup, beq_self_eq_true] at h
      simp only [Option.some.injEq] at h
      exact ⟨0, by simp [h]⟩
    · have hbe : (name == k) = false := beq_eq_false_iff_ne.mpr hk
      simp only [List.lookup, hbe] at h
      obtain ⟨q, hq⟩ := ih name cat h
      exact ⟨q + 1, by simpa using hq⟩

theorem keys_transfer (wc : WorldCell) (ch : CellHeader)
    (hkeys : wc.map Prod.fst = ch.map Prod.fst) (q : Nat) (name : String)
    (cat : CatData) (hq : ch[q]? = some (name, cat)) :
    ∃ subs, wc[q]? = some (name, subs) := by
  have h1 : (ch.map Prod.fst)[q]? = some name := by
    rw [List.getElem?_map, hq]
    rfl
  rw [← hkeys] at h1
  rw [List.getElem?_map] at h1
  cases hwq : wc[q]? with
  | none => rw [hwq] at h1; exact absurd h1 (by simp)
  | some pr =>
    rw [hwq] at h1
    simp only [Option.map_some', Option.some.injEq] at h1
    rcases pr with ⟨nm, subs⟩
    have h2 : nm = name := h1
    exact ⟨subs, by rw [h2]⟩

theorem slotAt_lt (cat : CatData) (j : Nat) (v : Int × Int × Int)
    (h : cat.slotAt j = some v) :
    match cat with
    | .multi _ il _ _ => j < il.length
    | .scalar _ _ _ _ => j = 0 := by
  match cat with
  | .multi cnt il pl sl =>
    simp only [CatData.slotAt] at h
    cases hil : il[j]? with
    | none => rw [hil] at h; simp at h
    | some i =>
      obtain ⟨hlt, -⟩ := List.getElem?_eq_some.mp hil
      exact hlt
  | .scalar cnt i p s =>
    simp only [CatData.slotAt] at h
    by_cases hj : j = 0
    · exact hj
    · rw [if_neg hj] at h
      exact absurd h (by simp)

/-- C4 — a descriptor slot that is absent before writing (`index ≤ 0` or
`compressed ≤ 0`, carried as a placeholder tuple in the world data) keeps
exactly its original `(index, compressed, size)` values in the cell header
written out by `write_file`. -/
theorem spec_c4 (rw : RWTable) (D : Decompress) (C : Compress) (bytes : List Nat)
    (t : TileModel) (out : List Nat) (chs2 : List CellHeader)
    (hr : read_file rw D bytes = .ok t)
    (hw : write_file C rw t.header t.cell_headers t.world_data = .ok (out, chs2))
    (k : Nat) (ch : CellHeader) (hk : t.cell_headers[k]? = some ch)
    (dtype : String) (cat : CatData) (hlk : List.lookup dtype ch = some cat)
    (j : Nat) (i p s : Int) (hslot : cat.slotAt j = some (i, p, s))
    (habs : i ≤ 0 ∨ p ≤ 0) :
    ∃ ch2 cat2, chs2[k]? = some ch2 ∧ List.lookup dtype ch2 = some cat2 ∧
      cat2.slotAt j = some (i, p, s) := by
  have hmo := read_file_ModelOK rw D bytes t hr
  obtain ⟨hInv, wc, hwk, hcellok⟩ := hmo k ch hk
  obtain ⟨-, hndwc, hkeys, hentry⟩ := hcellok
  obtain ⟨q, hq⟩ := lookup_getElem ch dtype cat hlk
  obtain ⟨subs, hwq⟩ := keys_transfer wc ch hkeys q dtype cat hq
  obtain ⟨cat3, hlk3, -, hslotsok⟩ := hentry q dtype subs hwq
  rw [hlk] at hlk3
  obtain rfl : cat = cat3 := Option.some.inj hlk3
  have hjlt : j < subs.length := by
    match cat, hslot, hslotsok with
    | CatData.multi cnt il pl sl, hslot, hslotsok =>
      simp only [CatData.slotAt] at hslot
      cases hil : il[j]? with
      | none => rw [hil] at hslot; simp at hslot
      | some i1 =>
        obtain ⟨hlt, -⟩ := List.getElem?_eq_some.mp hil
        obtain ⟨h1, -, -⟩ := hslotsok
        omega
    | CatData.scalar cnt i0 p0 s0, hslot, hslotsok =>
      have h1 : subs.length = 1 := hslotsok
      by_cases hj : j = 0
      · omega
      · simp only [CatData.slotAt, if_neg hj] at hslot
        exact absurd hslot (by simp)
  obtain ⟨s0, hs0⟩ : ∃ s0, subs[j]? = some s0 := by
    rw [List.getElem?_eq_getElem hjlt]
    exact ⟨subs[j], rfl⟩
  obtain ⟨hh, hch, hwcells⟩ := read_file_ok rw D bytes t hr
  obtain ⟨wc2, hwc2, hdec⟩ :=
    (read_cells_len rw D bytes t.cell_headers t.world_data hwcells).2 k ch hk
  rw [hwk] at hwc2
  obtain rfl : wc = wc2 := Option.some.inj hwc2
  obtain ⟨-, hentries⟩ := decode_cell_entries rw D bytes ch wc hdec
  obtain ⟨cat4, hcat4, hdecchunk⟩ := hentries q dtype subs hwq
  rw [hq] at hcat4
  have hcc : cat = cat4 := by
    simpa using congrArg Prod.snd (Option.some.inj hcat4)
  obtain rfl : cat = cat4 := hcc
  obtain ⟨i2, p2, s2, hslot2, c2, hslotdec⟩ :=
    decode_cell_chunk_slots D bytes cat dtype _ subs hdecchunk j s0 hs0
  rw [hslot] at hslot2
  obtain ⟨hie, hpe, hse⟩ : i = i2 ∧ p = p2 ∧ s = s2 := by
    have := Option.some.inj hslot2
    simp only [Prod.mk.injEq] at this
    exact ⟨this.1, this.2.1, this.2.2⟩
  have habs0 : s0 = SubCell.absent i s p := by
    rcases decode_slot_cases D bytes i2 s2 p2 c2 dtype _ s0 hslotdec with
      ⟨heq, -⟩ | ⟨hip, hpp, -⟩
    · rw [heq, ← hie, ← hpe, ← hse]
    · omega
  obtain ⟨ch2, hch2, cat5, cat2, hlk5, hlk2, -, habspart⟩ :=
    write_file_slot C rw t.header t.cell_headers t.world_data out chs2 hw hmo
      k ch hk q dtype subs wc hwk hwq
  rw [hlk] at hlk5
  obtain rfl : cat = cat5 := Option.some.inj hlk5
  refine ⟨ch2, cat2, hch2, hlk2, ?_⟩
  rw [habspart j i s p (by rw [hs0, habs0]), hslot]

theorem descSpec_length (ls : List (List Nat × List Nat)) :
    ∀ off, (descSpec off ls).length = ls.length := by
  induction ls with
  | nil => intro off; rfl
  | cons q rest ih => intro off; simp [descSpec, ih]

theorem descSpec_head (ls : List (List Nat × List Nat)) (off : Nat)
    (a : Int × Int × Int) (h : (descSpec off ls)[0]? = some a) :
    a.1 = Int.ofNat off := by
  cases ls with
  | nil => simp [descSpec] at h
  | cons q rest =>
    simp only [descSpec, List.getElem?_cons_zero, Option.some.injEq] at h
    rw [← h]

theorem descSpec_chain (ls : List (List Nat × List Nat)) :
    ∀ (off : Nat) (k : Nat) (a b : Int × Int × Int),
    (descSpec off ls)[k]? = some a → (descSpec off ls)[k + 1]? = some b →
    b.1 = a.1 + a.2.1 := by
  induction ls with
  | nil =>
    intro off k a b ha hb
    simp [descSpec] at ha
  | cons q rest ih =>
    intro off k a b ha hb
    match k, ha, hb with
    | 0, ha, hb =>
      simp only [descSpec, List.getElem?_cons_zero, Option.some.injEq] at ha
      simp only [descSpec, List.getElem?_cons_succ] at hb
      have := descSpec_head rest (off + q.1.length) b hb
      rw [this, ← ha]
      simp only [Int.ofNat_eq_natCast]
      push_cast
      ring
    | k + 1, ha, hb =>
      simp only [descSpec, List.getElem?_cons_succ] at ha hb
      exact ih (off + q.1.length) k a b ha hb

theorem descSpec_append (P rest : List (List Nat × List Nat)) :
    ∀ off, descSpec off (P ++ rest) =
      descSpec off P ++ descSpec (off + (joinComps P).length) rest := by
  induction P with
  | nil =>
    intro off
    simp [descSpec, joinComps]
  | cons q P ih =>
    intro off
    rw [List.cons_append]
    simp only [descSpec]
    rw [ih (off + q.1.length)]
    simp only [joinComps_cons, List.length_append]
    rw [show off + q.1.length + (joinComps P).length =
      off + (q.1.length + (joinComps P).length) by omega]
    rw [List.cons_append]

theorem descSpec_at (P : List (List Nat × List Nat)) (e : List Nat × List Nat)
    (rest : List (List Nat × List Nat)) (off : Nat) :
    (descSpec off (P ++ e :: rest))[P.length]? =
      some (Int.ofNat (off + (joinComps P).length), Int.ofNat e.1.length,
        Int.ofNat e.2.length) := by
  rw [descSpec_append]
  rw [List.getElem?_append_right (by rw [descSpec_length])]
  rw [descSpec_length]
  simp [descSpec]

theorem chunks_decomp (C : Compress) (rw : RWTable) (world : List WorldCell)
    (n k : Nat) (wc : WorldCell) (q : Nat) (dtype : String) (subs : List SubCell)
    (j : Nat) (dt : String) (od : List Nat) (dd : Option (List Nat)) (m : Meta)
    (hk : world[k]? = some wc) (hkn : k < n)
    (hq : wc[q]? = some (dtype, subs))
    (hj : subs[j]? = some (.present dt od dd m)) :
    ∃ S, worldChunks C rw (world.take n) =
      (worldChunks C rw (world.take k) ++
       (cellChunks C rw (wc.take q) ++ slotChunks C rw dtype (subs.take j))) ++
      ((C (encodeSub rw dtype od dd m), encodeSub rw dtype od dd m) :: S) := by
  obtain ⟨t1, ht1⟩ := take_decomp world k n wc hk hkn
  obtain ⟨t2, ht2⟩ := full_decomp wc q (dtype, subs) hq
  obtain ⟨t3, ht3⟩ := full_decomp subs j (.present dt od dd m) hj
  refine ⟨slotChunks C rw dtype t3 ++ (cellChunks C rw t2 ++ worldChunks C rw t1), ?_⟩
  rw [ht1, worldChunks_append]
  rw [show wc :: t1 = [wc] ++ t1 from rfl, worldChunks_append]
  have hwc1 : worldChunks C rw [wc] = cellChunks C rw wc := by
    simp [worldChunks]
  rw [hwc1]
  conv_lhs => rw [ht2]
  rw [cellChunks_append]
  rw [show (dtype, subs) :: t2 = [(dtype, subs)] ++ t2 from rfl, cellChunks_append]
  have hcc1 : cellChunks C rw [(dtype, subs)] = slotChunks C rw dtype subs := by
    simp [cellChunks]
  rw [hcc1]
  conv_lhs => rw [ht3]
  rw [slotChunks_append, slotChunks_cons_present]
  simp [List.append_assoc]

/-- C9 — data-blob contiguity: the descriptors of the present chunks, in
iteration order, form the gap-free layout `descSpec` starting at
`cell_header_offset + cell_count * 388`: the first recomputed index is that
offset, each subsequent index is the previous index plus the previous
compressed size, and every written present slot's descriptor is the
corresponding entry of that layout. -/
theorem spec_c9 (C : Compress) (rw : RWTable) (fh : FileHeader)
    (chs : List CellHeader) (world : List WorldCell) (out : List Nat)
    (chs2 : List CellHeader)
    (hw : write_file C rw fh chs world = .ok (out, chs2))
    (hmo : ModelOK chs world) :
    (∀ a, (descSpec (fh.cell_header_offset + CELL_DATA_SIZE * chs.length)
        (worldChunks C rw (world.take chs.length)))[0]? = some a →
      a.1 = Int.ofNat (fh.cell_header_offset + CELL_DATA_SIZE * chs.length)) ∧
    (∀ (k : Nat) (a b : Int × Int × Int),
      (descSpec (fh.cell_header_offset + CELL_DATA_SIZE * chs.length)
        (worldChunks C rw (world.take chs.length)))[k]? = some a →
      (descSpec (fh.cell_header_offset + CELL_DATA_SIZE * chs.length)
        (worldChunks C rw (world.take chs.length)))[k + 1]? = some b →
      b.1 = a.1 + a.2.1) ∧
    (∀ (k : Nat) (ch : CellHeader), chs[k]? = some ch →
     ∀ (wc : WorldCell), world[k]? = some wc →
     ∀ (q : Nat) (dtype : String) (subs : List SubCell), wc[q]? = some (dtype, subs) →
     ∀ (j : Nat) (dt : String) (od : List Nat) (dd : Option (List Nat)) (m : Meta),
      subs[j]? = some (.present dt od dd m) →
      ∃ ch2 cat2, chs2[k]? = some ch2 ∧ List.lookup dtype ch2 = some cat2 ∧
        cat2.slotAt j =
          (descSpec (fh.cell_header_offset + CELL_DATA_SIZE * chs.length)
            (worldChunks C rw (world.take chs.length)))[
              (worldChunks C rw (world.take k)).length +
              (cellChunks C rw (wc.take q)).length +
              (slotChunks C rw dtype (subs.take j)).length]?) := by
  refine ⟨fun a ha => descSpec_head _ _ a ha,
    fun k a b ha hb => descSpec_chain _ _ k a b ha hb, ?_⟩
  intro k ch hk wc hwk q dtype subs hq j dt od dd m hj
  obtain ⟨ch2, hch2, cat, cat2, hlk1, hlk2, hpres, -⟩ :=
    write_file_slot C rw fh chs world out chs2 hw hmo k ch hk q dtype subs wc hwk hq
  refine ⟨ch2, cat2, hch2, hlk2, ?_⟩
  have hklt : k < chs.length := by
    obtain ⟨hlt, -⟩ := List.getElem?_eq_some.mp hk
    exact hlt
  obtain ⟨S, hS⟩ := chunks_decomp C rw world chs.length k wc q dtype subs j dt od dd m
    hwk hklt hq hj
  rw [hS]
  have hat := descSpec_at
    (worldChunks C rw (world.take k) ++
     (cellChunks C rw (wc.take q) ++ slotChunks C rw dtype (subs.take j)))
    (C (encodeSub rw dtype od dd m), encodeSub rw dtype od dd m) S
    (fh.cell_header_offset + CELL_DATA_SIZE * chs.length)
  rw [show (worldChunks C rw (world.take k)).length +
      (cellChunks C rw (wc.take q)).length +
      (slotChunks C rw dtype (subs.take j)).length =
      (worldChunks C rw (world.take k) ++
       (cellChunks C rw (wc.take q) ++ slotChunks C rw dtype (subs.take j))).length by
    simp only [List.length_append]
    omega]
  rw [hat]
  rw [hpres j dt od dd m hj]
  refine congrArg some ?_
  refine congrArg (fun t => ((Int.ofNat t : Int),
    Int.ofNat (C (encodeSub rw dtype od dd m)).length,
    Int.ofNat (encodeSub rw dtype od dd m).length)) ?_
  simp only [joinComps_append, List.length_append]
  omega

theorem decode_slot_exists (D : Decompress) (data : List Nat) (i sz p : Int)
    (c : Option Int) (nm : String) (pf : Option DecodeFn)
    (h : i ≤ 0 ∨ p ≤ 0 ∨ (D (sliceN data i.toNat p.toNat) sz).isSome) :
    ∃ s, decode_cell_chunk_slot D data i sz p c nm pf = .ok s := by
  unfold decode_cell_chunk_slot
  split
  · exact ⟨_, rfl⟩
  · rename_i hcond
    push_neg at hcond
    cases hD : D (sliceN data i.toNat p.toNat) sz with
    | none =>
      rcases h with h | h | h
      · omega
      · omega
      · rw [hD] at h
        simp at h
    | some od => exact ⟨_, rfl⟩

theorem decode_levels_exists (D : Decompress) (data : List Nat) (nm : String)
    (pf : Option DecodeFn) (cnt : Option (List Int)) (il pl sl : List Int) :
    ∀ (n level : Nat),
    (∀ m, m < n → ∃ i sz p, il[level + m]? = some i ∧ sl[level + m]? = some sz ∧
      pl[level + m]? = some p ∧
      (∀ cl, cnt = some cl → (cl[level + m]?).isSome) ∧
      (i ≤ 0 ∨ p ≤ 0 ∨ (D (sliceN data i.toNat p.toNat) sz).isSome)) →
    ∃ subs, decode_levels D data nm pf cnt il pl sl level n = .ok subs := by
  intro n
  induction n with
  | zero =>
    intro level h
    exact ⟨[], rfl⟩
  | succ n ih =>
    intro level h
    obtain ⟨i, sz, p, hil, hsl, hpl, hcnt, hdec⟩ := h 0 (by omega)
    rw [Nat.add_zero] at hil hsl hpl hcnt
    obtain ⟨rest, hrest⟩ := ih (level + 1) (fun m hm => by
      obtain ⟨i2, sz2, p2, g1, g2, g3, g4, g5⟩ := h (m + 1) (by omega)
      rw [show level + (m + 1) = level + 1 + m by omega] at g1 g2 g3 g4
      exact ⟨i2, sz2, p2, g1, g2, g3, g4, g5⟩)
    cases cnt with
    | none =>
      obtain ⟨s, hs⟩ := decode_slot_exists D data i sz p none nm pf hdec
      refine ⟨s :: rest, ?_⟩
      simp only [decode_levels, hil, hsl, hpl]
      simp only [bind_ok, pure_ok]
      exact ⟨none, rfl, s, hs, rest, hrest, rfl⟩
    | some cl =>
      obtain ⟨cv, hcv⟩ := Option.isSome_iff_exists.mp (hcnt cl rfl)
      obtain ⟨s, hs⟩ := decode_slot_exists D data i sz p (some cv) nm pf hdec
      refine ⟨s :: rest, ?_⟩
      simp only [decode_levels, hil, hsl, hpl]
      simp only [bind_ok, pure_ok]
      refine ⟨some cv, ?_, s, hs, rest, hrest, rfl⟩
      rw [hcv]

theorem decode_cell_chunk_exists (D : Decompress) (data : List Nat) (cat : CatData)
    (nm : String) (pf : Option DecodeFn)
    (hbal : ∀ cnt il pl sl, cat = .multi cnt il pl sl →
      il.length = pl.length ∧ il.length = sl.length ∧
      ∀ cl, cnt = some cl → il.length ≤ cl.length)
    (hdec : ∀ (j : Nat) (i p sz : Int), cat.slotAt j = some (i, p, sz) →
      i ≤ 0 ∨ p ≤ 0 ∨ (D (sliceN data i.toNat p.toNat) sz).isSome) :
    ∃ subs, decode_cell_chunk D data cat nm pf = .ok subs := by
  match cat with
  | .multi cnt il pl sl =>
    obtain ⟨hb1, hb2, hb3⟩ := hbal cnt il pl sl rfl
    simp only [decode_cell_chunk]
    apply decode_levels_exists
    intro m hm
    simp only [Nat.zero_add]
    have hil : il[m]? = some il[m] := List.getElem?_eq_getElem hm
    have hsl : sl[m]? = some sl[m] := List.getElem?_eq_getElem (by omega)
    have hpl : pl[m]? = some pl[m] := List.getElem?_eq_getElem (by omega)
    refine ⟨il[m], sl[m], pl[m], hil, hsl, hpl, ?_, ?_⟩
    · intro cl hcl
      have hle := hb3 cl hcl
      rw [List.getElem?_eq_getElem (by omega)]
      simp
    · refine hdec m il[m] pl[m] sl[m] ?_
      simp only [CatData.slotAt, hil, hsl, hpl]
  | .scalar cnt i p s =>
    have hc := hdec 0 i p s (by simp [CatData.slotAt])
    obtain ⟨s0, hs0⟩ := decode_slot_exists D data i s p cnt nm pf hc
    refine ⟨[s0], ?_⟩
    simp only [decode_cell_chunk, bind_ok, pure_ok]
    exact ⟨s0, hs0, rfl⟩

theorem decode_cell_exists (rw : RWTable) (D : Decompress) (data : List Nat) :
    ∀ (ch : CellHeader),
    (∀ (name : String) (cat : CatData), (name, cat) ∈ ch →
      (∀ cnt il pl sl, cat = .multi cnt il pl sl →
        il.length = pl.length ∧ il.length = sl.length ∧
        ∀ cl, cnt = some cl → il.length ≤ cl.length) ∧
      (∀ (j : Nat) (i p sz : Int), cat.slotAt j = some (i, p, sz) →
        i ≤ 0 ∨ p ≤ 0 ∨ (D (sliceN data i.toNat p.toNat) sz).isSome)) →
    ∃ wc, decode_cell rw D data ch = .ok wc := by
  intro ch
  induction ch with
  | nil =>
    intro h
    exact ⟨[], rfl⟩
  | cons p rest ih =>
    intro h
    obtain ⟨hbal, hdec⟩ := h p.1 p.2 (by simp)
    obtain ⟨subs, hsubs⟩ := decode_cell_chunk_exists D data p.2 p.1 (pfOf rw p.1) hbal hdec
    obtain ⟨wrest, hwrest⟩ := ih (fun name cat hm => h name cat (by simp [hm]))
    refine ⟨(p.1, subs) :: wrest, ?_⟩
    simp only [decode_cell, bind_ok, pure_ok]
    exact ⟨subs, hsubs, wrest, hwrest, rfl⟩

theorem read_cells_exists (rw : RWTable) (D : Decompress) (data : List Nat) :
    ∀ (chs : List CellHeader),
    (∀ ch ∈ chs, ∀ (name : String) (cat : CatData), (name, cat) ∈ ch →
      (∀ cnt il pl sl, cat = .multi cnt il pl sl →
        il.length = pl.length ∧ il.length = sl.length ∧
        ∀ cl, cnt = some cl → il.length ≤ cl.length) ∧
      (∀ (j : Nat) (i p sz : Int), cat.slotAt j = some (i, p, sz) →
        i ≤ 0 ∨ p ≤ 0 ∨ (D (sliceN data i.toNat p.toNat) sz).isSome)) →
    ∃ wd, read_cells rw D data chs = .ok wd := by
  intro chs
  induction chs with
  | nil =>
    intro h
    exact ⟨[], rfl⟩
  | cons ch rest ih =>
    intro h
    obtain ⟨wc, hwc⟩ := decode_cell_exists rw D data ch (h ch (by simp))
    obtain ⟨wrest, hwrest⟩ := ih (fun c hc => h c (by simp [hc]))
    refine ⟨wc :: wrest, ?_⟩
    simp only [read_cells, bind_ok, pure_ok]
    exact ⟨wc, hwc, wrest, hwrest, rfl⟩

theorem canonShapes_cnt :
    ∀ q ∈ canonShapes, q.2.2.1 = false ∨ q.2.2.2.2.1 ≤ q.2.2.2.1 := by
  decide

theorem canon_unique :
    ∀ q1 ∈ canonShapes, ∀ q2 ∈ canonShapes, q1.1 = q2.1 → q1.2 = q2.2 := by
  decide

theorem inv_cat_balanced (ch : CellHeader) (h : Inv ch) (name : String)
    (cat : CatData) (hm : (name, cat) ∈ ch) :
    ∀ cnt il pl sl, cat = .multi cnt il pl sl →
      il.length = pl.length ∧ il.length = sl.length ∧
      ∀ cl, cnt = some cl → il.length ≤ cl.length := by
  intro cnt il pl sl hc
  obtain ⟨hb1, hb2⟩ := inv_balanced ch h name cat hm cnt il pl sl hc
  refine ⟨hb1, hb2, ?_⟩
  intro cl hcl
  have hmem := inv_mem_shape ch h (name, cat) hm
  rw [hc, hcl] at hmem
  have hq := canonShapes_cnt _ hmem
  simp only [catShape, Option.isSome_some, Option.getD_some] at hq
  rcases hq with h1 | h1
  · exact absurd h1 (by simp)
  · exact h1

theorem inv_shape_eq (ch ch2 : CellHeader) (hi : Inv ch) (hi2 : Inv ch2)
    (name : String) (cat cat2 : CatData) (hm : (name, cat) ∈ ch)
    (hm2 : (name, cat2) ∈ ch2) : catShape cat2 = catShape cat := by
  have q1 := inv_mem_shape ch2 hi2 (name, cat2) hm2
  have q2 := inv_mem_shape ch hi (name, cat) hm
  exact canon_unique _ q1 _ q2 rfl

theorem slot_lt_subs (cat cat2 : CatData) (subs : List SubCell)
    (hsh : catShape cat2 = catShape cat) (hso : SlotsOK cat subs)
    (j : Nat) (v : Int × Int × Int) (h : cat2.slotAt j = some v) :
    j < subs.length := by
  match cat2, cat with
  | .multi cnt2 il2 pl2 sl2, .multi cnt il pl sl =>
    have hj : j < il2.length := slotAt_lt _ j v h
    simp only [catShape, Prod.mk.injEq] at hsh
    obtain ⟨h1, -, -⟩ := hsh.2.2
    obtain ⟨hs1, -, -⟩ := hso
    omega
  | .multi _ _ _ _, .scalar _ _ _ _ => simp [catShape] at hsh
  | .scalar _ _ _ _, .multi _ _ _ _ => simp [catShape] at hsh
  | .scalar _ _ _ _, .scalar _ _ _ _ =>
    have hj : j = 0 := slotAt_lt _ j v h
    have hs1 : subs.length = 1 := hso
    omega

theorem write_file_inv (C : Compress) (rw : RWTable) (fh : FileHeader)
    (chs : List CellHeader) (world : List WorldCell) (out : List Nat)
    (chs2 : List CellHeader)
    (hw : write_file C rw fh chs world = .ok (out, chs2))
    (hall : ∀ ch ∈ chs, Inv ch) :
    ∀ (k : Nat) (ch2 : CellHeader), chs2[k]? = some ch2 → Inv ch2 := by
  intro k ch2 hk
  obtain ⟨-, -, -, hlen2, -, hcells⟩ := write_file_spec C rw fh chs world out chs2 hw
  have hklt : k < chs.length := by
    obtain ⟨hlt, -⟩ := List.getElem?_eq_some.mp hk
    omega
  have hkc : chs[k]? = some chs[k] := List.getElem?_eq_getElem hklt
  obtain ⟨wc, blobk, ch2b, hwc, hch2b, hwrite⟩ := hcells k chs[k] hkc
  rw [hk] at hch2b
  obtain rfl : ch2 = ch2b := Option.some.inj hch2b
  exact write_cats_shape C rw _ wc _ chs[k] blobk ch2 hwrite
    (hall chs[k] (List.getElem_mem hklt))

theorem sliceN_flatten (pre : List Nat) (hds : List (List Nat)) (rest : List Nat)
    (c k : Nat) (hd : List Nat) (hk : hds[k]? = some hd)
    (hu : ∀ x ∈ hds, x.length = c) :
    sliceN (pre ++ hds.flatten ++ rest) (pre.length + c * k) c = hd := by
  obtain ⟨t, ht⟩ := full_decomp hds k hd hk
  have hkl : k < hds.length := (List.getElem?_eq_some.mp hk).1
  have hPlen : ((hds.take k).flatten).length = c * k := by
    rw [flatten_length_uniform _ c (fun x hx => hu x (List.mem_of_mem_take hx))]
    rw [List.length_take, Nat.min_eq_left (Nat.le_of_lt hkl)]
  have hhd : hd.length = c := hu hd (by rw [ht]; simp)
  have hout : pre ++ hds.flatten ++ rest =
      pre ++ ((hds.take k).flatten ++ (hd ++ (t.flatten ++ rest))) := by
    conv_lhs => rw [ht]
    simp [List.flatten_append, List.append_assoc]
  rw [hout, ← hPlen, ← hhd]
  exact sliceN_at pre _ hd _

/-- Every descriptor slot of a post-write cell header either is absent
(`index ≤ 0` or `compressed ≤ 0`) or points at a decompressible range of the
written bytes, assuming the decompressor inverts the compressor. -/
theorem reparse_slot_cond (rw : RWTable) (D : Decompress) (C : Compress)
    (bytes : List Nat) (t : TileModel) (out : List Nat) (chs2 : List CellHeader)
    (h1 : read_file rw D bytes = .ok t)
    (h2 : write_file C rw t.header t.cell_headers t.world_data = .ok (out, chs2))
    (hcd : ∀ b : List Nat, D (C b) (Int.ofNat b.length) = some b)
    (k : Nat) (ch2 : CellHeader) (hk : chs2[k]? = some ch2)
    (name : String) (cat2 : CatData) (hm : (name, cat2) ∈ ch2) :
    ∀ (j : Nat) (i p sz : Int), cat2.slotAt j = some (i, p, sz) →
      i ≤ 0 ∨ p ≤ 0 ∨ (D (sliceN out i.toNat p.toNat) sz).isSome := by
  intro j i p sz hslot2
  have hmo := read_file_ModelOK rw D bytes t h1
  obtain ⟨headerBytes, hwh, hoff, hlen2, ⟨hds, hhdlen, hhd388, hout, hlink⟩, hcells⟩ :=
    write_file_spec C rw t.header t.cell_headers t.world_data out chs2 h2
  have hklt : k < t.cell_headers.length := by
    obtain ⟨hlt, -⟩ := List.getElem?_eq_some.mp hk
    omega
  obtain ⟨ch, hkc⟩ : ∃ ch, t.cell_headers[k]? = some ch :=
    ⟨t.cell_headers[k], List.getElem?_eq_getElem hklt⟩
  obtain ⟨hInv, wc, hwk, hcellok⟩ := hmo k ch hkc
  obtain ⟨-, hndwc, hkeys, hentry⟩ := hcellok
  have hInv2 : Inv ch2 := write_file_inv C rw t.header t.cell_headers t.world_data
    out chs2 h2 (fun c hc => by
      obtain ⟨k0, hk0⟩ := List.mem_iff_getElem?.mp hc
      exact (hmo k0 c hk0).1) k ch2 hk
  obtain ⟨q2, hq2⟩ := List.mem_iff_getElem?.mp hm
  have hkeq : ch2.map Prod.fst = ch.map Prod.fst := by
    rw [inv_keys ch2 hInv2, inv_keys ch hInv]
  have hwkeys : wc.map Prod.fst = ch2.map Prod.fst := by rw [hkeys, hkeq]
  obtain ⟨subs, hwq⟩ := keys_transfer wc ch2 hwkeys q2 name cat2 hq2
  obtain ⟨cat, hlkch, hchq, hslotsok⟩ := hentry q2 name subs hwq
  obtain ⟨ch2b, hch2b, catb, cat2b, hlkb, hlk2b, hpres, habspart⟩ :=
    write_file_slot C rw t.header t.cell_headers t.world_data out chs2 h2 hmo
      k ch hkc q2 name subs wc hwk hwq
  rw [hk] at hch2b
  obtain rfl : ch2 = ch2b := Option.some.inj hch2b
  rw [hlkch] at hlkb
  obtain rfl : cat = catb := Option.some.inj hlkb
  have hnd2 : (ch2.map Prod.fst).Nodup := by
    rw [inv_keys ch2 hInv2]
    decide
  have hlk2 : List.lookup name ch2 = some cat2 :=
    lookup_of_getElem ch2 q2 name cat2 hq2 hnd2
  rw [hlk2] at hlk2b
  obtain rfl : cat2 = cat2b := Option.some.inj hlk2b
  have hmemch : (name, cat) ∈ ch := by
    obtain ⟨hlt, hv⟩ := List.getElem?_eq_some.mp hchq
    rw [← hv]
    exact List.getElem_mem hlt
  have hsh : catShape cat2 = catShape cat :=
    inv_shape_eq ch ch2 hInv hInv2 name cat cat2 hmemch hm
  have hjlt : j < subs.length := slot_lt_subs cat cat2 subs hsh hslotsok j (i, p, sz) hslot2
  have hs0 : subs[j]? = some subs[j] := List.getElem?_eq_getElem hjlt
  cases hsub : subs[j] with
  | absent a b c =>
    obtain ⟨-, hch0, hwcells⟩ := read_file_ok rw D bytes t h1
    obtain ⟨wc2, hwc2, hdec⟩ :=
      (read_cells_len rw D bytes t.cell_headers t.world_data hwcells).2 k ch hkc
    rw [hwk] at hwc2
    obtain rfl : wc = wc2 := Option.some.inj hwc2
    obtain ⟨-, hentries⟩ := decode_cell_entries rw D bytes ch wc hdec
    obtain ⟨cat4, hcat4, hdecchunk⟩ := hentries q2 name subs hwq
    rw [hchq] at hcat4
    have hc4 : cat = cat4 := by
      simpa using congrArg Prod.snd (Option.some.inj hcat4)
    obtain rfl : cat = cat4 := hc4
    obtain ⟨i2, p2, s2, hslotc, c2, hslotdec⟩ :=
      decode_cell_chunk_slots D bytes cat name _ subs hdecchunk j subs[j] hs0
    rw [hsub] at hslotdec
    rcases decode_slot_cases D bytes i2 s2 p2 c2 name _ _ hslotdec with
      ⟨heq, hcond⟩ | ⟨-, -, od, -, heq⟩
    · have habs := habspart j a b c (by rw [← hsub]; exact hs0)
      rw [hslot2, hslotc] at habs
      have he := Option.some.inj habs
      simp only [Prod.mk.injEq] at he
      obtain ⟨e1, e2, e3⟩ := he
      rcases hcond with h | h
      · left; omega
      · right; left; omega
    · simp at heq
  | present dt od dd m =>
    have hsj : subs[j]? = some (.present dt od dd m) := by
      rw [← hsub]
      exact hs0
    have hp := hpres j dt od dd m hsj
    rw [hslot2] at hp
    have he := Option.some.inj hp
    simp only [Prod.mk.injEq] at he
    obtain ⟨e1, e2, e3⟩ := he
    right; right
    obtain ⟨S, hS⟩ := blob_chunk_at C rw t.world_data t.cell_headers.length k wc q2
      name subs j dt od dd m hwk hklt hwq hsj
    have hflat : hds.flatten.length = CELL_DATA_SIZE * t.cell_headers.length := by
      rw [flatten_length_uniform hds CELL_DATA_SIZE hhd388, hhdlen]
    have hslice : sliceN out
        (t.header.cell_header_offset + CELL_DATA_SIZE * t.cell_headers.length +
          ((joinComps (worldChunks C rw (t.world_data.take k))).length +
           (joinComps (cellChunks C rw (wc.take q2))).length +
           (joinComps (slotChunks C rw name (subs.take j))).length))
        (C (encodeSub rw name od dd m)).length = C (encodeSub rw name od dd m) := by
      have hout2 : out = (headerBytes ++ hds.flatten) ++
          (joinComps (worldChunks C rw (t.world_data.take k)) ++
           ((joinComps (cellChunks C rw (wc.take q2)) ++
             joinComps (slotChunks C rw name (subs.take j))) ++
            (C (encodeSub rw name od dd m) ++ S))) := by
        rw [hout, hS]
        simp [List.append_assoc]
      rw [hout2]
      have hsl := sliceN_at (headerBytes ++ hds.flatten)
        (joinComps (worldChunks C rw (t.world_data.take k)) ++
         (joinComps (cellChunks C rw (wc.take q2)) ++
          joinComps (slotChunks C rw name (subs.take j))))
        (C (encodeSub rw name od dd m)) S
      simp only [List.append_assoc, List.length_append] at hsl ⊢
      rw [hoff, hflat] at hsl
      convert hsl using 2
      omega
    have hA : ∀ n : Nat, (Int.ofNat n).toNat = n := fun n => rfl
    rw [e1, e2, e3, hA, hA, hslice, hcd (encodeSub rw name od dd m)]
    rfl

/-- C1 — serialize-then-parse: re-parsing the bytes produced by `write_file`
succeeds and yields the first parse's header together with the cell headers
as mutated in place by the writer (`chs2`).  The original claim — that all
descriptor fields equal those of the FIRST parse — is refuted by the
counterexample: the writer recomputes present-chunk indices, so a file with
a gap before a chunk reparses with a different `index`. -/
theorem spec_c1 (rw : RWTable) (D : Decompress) (C : Compress) (bytes : List Nat)
    (t : TileModel) (out : List Nat) (chs2 : List CellHeader)
    (h1 : read_file rw D bytes = .ok t)
    (h2 : write_file C rw t.header t.cell_headers t.world_data = .ok (out, chs2))
    (hcd : ∀ b : List Nat, D (C b) (Int.ofNat b.length) = some b)
    (hs : t.header.cell_header_size = CELL_DATA_SIZE) :
    ∃ w2, read_file rw D out =
      .ok { header := t.header, cell_headers := chs2, world_data := w2 } := by
  obtain ⟨hh, hch, hwcells⟩ := read_file_ok rw D bytes t h1
  have hmo := read_file_ModelOK rw D bytes t h1
  have hallInv : ∀ c ∈ t.cell_headers, Inv c := fun c hc => by
    obtain ⟨k0, hk0⟩ := List.mem_iff_getElem?.mp hc
    exact (hmo k0 c hk0).1
  obtain ⟨headerBytes, hwh, hoff, hlen2, ⟨hds, hhdlen, hhd388, hout, hlink⟩, hcells⟩ :=
    write_file_spec C rw t.header t.cell_headers t.world_data out chs2 h2
  have hWF : WFHeader t.header := parse_header_WF bytes t.header hh
  have hph : parse_header out = .ok t.header := by
    rw [hout, List.append_assoc]
    exact parse_write_header t.header headerBytes _ hwh hWF
  have hcount : t.cell_headers.length = t.header.width * t.header.height := by
    unfold parse_cell_headers at hch
    exact (parse_cells_ok bytes t.header.cell_header_size _ _ _ hch).1
  have hparse2 : parse_cell_headers t.header out = .ok chs2 := by
    unfold parse_cell_headers
    rw [hs]
    rw [show t.header.width * t.header.height = chs2.length by omega]
    apply parse_cells_of
    intro k2 c2 hk2
    obtain ⟨hd, hhd, hcreate⟩ := hlink k2 c2 hk2
    have hsl : sliceN out (t.header.cell_header_offset + CELL_DATA_SIZE * k2)
        CELL_DATA_SIZE = hd := by
      rw [hout]
      have hsf := sliceN_flatten headerBytes hds
        (joinComps (worldChunks C rw (t.world_data.take t.cell_headers.length)))
        CELL_DATA_SIZE k2 hd hhd hhd388
      rw [hoff] at hsf
      exact hsf
    rw [hsl]
    have hInv2 : Inv c2 := write_file_inv C rw t.header t.cell_headers t.world_data
      out chs2 h2 hallInv k2 c2 hk2
    obtain ⟨ys, hyslen, hys⟩ := inv_canon c2 hInv2
    rw [hys] at hcreate ⊢
    exact parse_create_cell_header ys hd hyslen hcreate
  have hallfacts : ∀ c ∈ chs2, ∀ (name : String) (cat : CatData), (name, cat) ∈ c →
      (∀ cnt il pl sl, cat = .multi cnt il pl sl →
        il.length = pl.length ∧ il.length = sl.length ∧
        ∀ cl, cnt = some cl → il.length ≤ cl.length) ∧
      (∀ (j : Nat) (i p sz : Int), cat.slotAt j = some (i, p, sz) →
        i ≤ 0 ∨ p ≤ 0 ∨ (D (sliceN out i.toNat p.toNat) sz).isSome) := by
    intro c hc name cat hm
    obtain ⟨k0, hk0⟩ := List.mem_iff_getElem?.mp hc
    have hInvc : Inv c := write_file_inv C rw t.header t.cell_headers t.world_data
      out chs2 h2 hallInv k0 c hk0
    refine ⟨inv_cat_balanced c hInvc name cat hm, ?_⟩
    exact reparse_slot_cond rw D C bytes t out chs2 h1 h2 hcd k0 c hk0 name cat hm
  obtain ⟨w2, hw2⟩ := read_cells_exists rw D out chs2 hallfacts
  refine ⟨w2, ?_⟩
  unfold read_file
  simp only [bind_ok, pure_ok]
  exact ⟨t.header, hph, chs2, hparse2, w2, hw2, rfl⟩

theorem sliceN_take (data : List Nat) (m off len : Nat) (h : off + len ≤ m) :
    sliceN (data.take m) off len = sliceN data off len := by
  unfold sliceN
  rw [List.drop_take m off data, List.take_take len (m - off) (data.drop off),
    Nat.min_eq_left (by omega)]

theorem parse_header_take (data : List Nat) :
    parse_header data = parse_header (data.take 60) := by
  unfold parse_header
  have hlen : (data.take 60).length < 60 ↔ data.length < 60 := by
    rw [List.length_take]
    omega
  by_cases hc : data.length < 60
  · rw [if_pos hc, if_pos (hlen.mpr hc)]
  · rw [if_neg hc, if_neg (fun hh => hc (hlen.mp hh))]
    rw [sliceN_take data 60 0 4 (by omega), sliceN_take data 60 4 4 (by omega),
      sliceN_take data 60 8 16 (by omega), sliceN_take data 60 24 8 (by omega),
      sliceN_take data 60 32 4 (by omega), sliceN_take data 60 36 4 (by omega),
      sliceN_take data 60 40 4 (by omega), sliceN_take data 60 44 4 (by omega),
      sliceN_take data 60 48 4 (by omega), sliceN_take data 60 52 4 (by omega),
      sliceN_take data 60 56 4 (by omega)]

/-- C5 (corrected) — the header layout is 60 bytes, not 64: `parse_header`
depends only on the first 60 input bytes, a serialized header is exactly 60
bytes long, and a successful `write_file` forces
`cell_header_offset = 60`. -/
theorem spec_c5 (data : List Nat) (h : FileHeader) (outH : List Nat)
    (C : Compress) (rw : RWTable) (chs : List CellHeader) (world : List WorldCell)
    (hw : write_header h = .ok outH) (hu : h.uuid.length = 16) :
    parse_header data = parse_header (data.take 60) ∧
    outH.length = 60 ∧
    ∀ out chs2, write_file C rw h chs world = .ok (out, chs2) →
      h.cell_header_offset = 60 := by
  refine ⟨parse_header_take data, write_header_length h outH hw hu, ?_⟩
  intro out chs2 hwf
  obtain ⟨headerBytes, hwh, hoff, -, -, -⟩ := write_file_spec C rw h chs world out chs2 hwf
  rw [hw] at hwh
  obtain rfl : outH = headerBytes := Option.some.inj (by simpa using hwh)
  rw [← hoff]
  exact write_header_length h outH hw hu

/-- C6 (corrected) — on an input of at least 60 bytes whose first four bytes
do not spell the magic key, `parse_header` fails with the missing-magic
error and `read_file` propagates that very error, never reaching the
cell-header stage; on shorter inputs the `struct.error` wins instead (see
the counterexample). -/
theorem spec_c6 (data : List Nat) (rw : RWTable) (D : Decompress)
    (hlen : 60 ≤ data.length) (hmagic : fromLE (sliceN data 0 4) ≠ MAGIC_KEY) :
    parse_header data = .error "Invalid .tile file: Missing MAGIC_KEY" ∧
    read_file rw D data = .error "Invalid .tile file: Missing MAGIC_KEY" := by
  have hph : parse_header data = .error "Invalid .tile file: Missing MAGIC_KEY" := by
    unfold parse_header
    rw [if_neg (by omega), if_pos hmagic]
  refine ⟨hph, ?_⟩
  unfold read_file
  rw [hph]
  rfl

/-- C7 — the round-trip validator's boolean is exactly the success of
re-parsing the written bytes: it is `true` iff `read_file` on them succeeds,
and on success no warnings are produced; the warning lists exist only in the
failure branch and never affect the boolean. -/
theorem spec_c7 (rw : RWTable) (D : Decompress) (self : TileModel)
    (new_data : List Nat) :
    ((validate_write rw D self new_data).1 = true ↔
      ∃ t2, read_file rw D new_data = .ok t2) ∧
    ∀ t2, read_file rw D new_data = .ok t2 →
      validate_write rw D self new_data = (true, [], [], []) := by
  unfold validate_write
  cases hr : read_file rw D new_data with
  | ok t2 =>
    refine ⟨by simp, ?_⟩
    intro t3 h3
    rfl
  | error e =>
    refine ⟨by simp, ?_⟩
    intro t3 h3
    simp at h3

/-- C8 — the validator's overflow scan flags exactly the descriptor pairs
whose `index + compressed_size - 1` is at least the written buffer length:
an entry `(cell, category, last)` appears iff some examined
`(index, compressed)` pair of that category satisfies
`last = index + compressed - 1 ≥ total`. -/
theorem spec_c8 (chs : List CellHeader) (total : Nat) (ci : Nat) (name : String)
    (v : Int) :
    (ci, name, v) ∈ overflowFlags chs total ↔
      ∃ ch, chs[ci]? = some ch ∧ ∃ cat, (name, cat) ∈ ch ∧
        ∃ ip sp, (ip, sp) ∈ slotsPairs cat ∧ v = ip + sp - 1 ∧ (total : Int) ≤ v := by
  unfold overflowFlags
  simp only [List.mem_flatMap, List.mem_filterMap]
  constructor
  · rintro ⟨⟨ci0, ch⟩, hmem, ⟨nm, cat⟩, hmemc, ⟨ip, sp⟩, hmemp, hif⟩
    split at hif
    · rename_i hcond
      simp only [Option.some.injEq, Prod.mk.injEq] at hif
      obtain ⟨rfl, rfl, rfl⟩ := hif
      exact ⟨ch, List.mk_mem_enum_iff_getElem?.mp hmem, cat, hmemc, ip, sp,
        hmemp, rfl, hcond⟩
    · exact absurd hif (by simp)
  · rintro ⟨ch, hch, cat, hcat, ip, sp, hpair, rfl, hge⟩
    refine ⟨(ci, ch), List.mk_mem_enum_iff_getElem?.mpr hch, (name, cat), hcat,
      (ip, sp), hpair, ?_⟩
    rw [if_pos hge]

/-- C10 — the defensive field-count branch of `parse_cell_header` is dead
code: the parser never returns the "Cell Header size mismatch" error, and on
any input whose length is not 388 bytes the failure is the `struct.error`
raised by `unpack` itself. -/
theorem spec_c10 (cell_data : List Nat) :
    parse_cell_header cell_data ≠
      .error "Invalid .tile file: Cell Header size mismatch" ∧
    (cell_data.length ≠ 388 →
      parse_cell_header cell_data =
        .error "struct.error: unpack requires a buffer of 388 bytes") := by
  constructor
  · unfold parse_cell_header
    split
    · intro hcon
      simp only [Except.error.injEq] at hcon
      revert hcon
      decide
    · rw [if_neg (by simp [unpackInts, CELL_HEADER_SIZE])]
      simp
  · intro hne
    unfold parse_cell_header
    rw [if_pos hne]

theorem testRead_ok : read_file rwNone decompIdent testBytes = .ok testModel := by
  decide

theorem testWrite_ok : write_file compIdent rwNone testModel.header
    testModel.cell_headers testModel.world_data = .ok (testOut, testChs2) := by
  decide

theorem testReread_ok : read_file rwNone decompIdent testOut = .ok testModel2 := by
  decide

theorem spec_c1_witness :
    ∃ w2, read_file rwNone decompIdent testOut =
      .ok { header := testModel.header, cell_headers := testChs2, world_data := w2 } :=
  spec_c1 rwNone decompIdent compIdent testBytes testModel testOut testChs2
    testRead_ok testWrite_ok (fun b => by simp [decompIdent, compIdent]) (by decide)

theorem spec_c1_cex :
    read_file rwNone decompIdent testBytes = .ok testModel ∧
    write_file compIdent rwNone testModel.header testModel.cell_headers
      testModel.world_data = .ok (testOut, testChs2) ∧
    read_file rwNone decompIdent testOut = .ok testModel2 ∧
    testModel2.header = testModel.header ∧
    (∃ cat, List.lookup "voxel_terrain" (testModel.cell_headers.getD 0 []) = some cat ∧
      cat.slotAt 0 = some (449, 2, 2)) ∧
    (∃ cat2, List.lookup "voxel_terrain" (testModel2.cell_headers.getD 0 []) = some cat2 ∧
      cat2.slotAt 0 = some (448, 2, 2)) ∧
    testModel2.cell_headers ≠ testModel.cell_headers := by
  refine ⟨testRead_ok, testWrite_ok, testReread_ok, by decide,
    ⟨.scalar (some 1) 449 2 2, by decide, by decide⟩,
    ⟨.scalar (some 1) 448 2 2, by decide, by decide⟩, by decide⟩

theorem spec_c2_witness :
    ∃ ch2 cat2, testChs2[0]? = some ch2 ∧
      List.lookup "voxel_terrain" ch2 = some cat2 ∧
      cat2.slotAt 0 = some
        (Int.ofNat (testModel.header.cell_header_offset +
          CELL_DATA_SIZE * testModel.cell_headers.length +
          ((joinComps (worldChunks compIdent rwNone (testModel.world_data.take 0))).length +
           (joinComps (cellChunks compIdent rwNone (testWC.take 11))).length +
           (joinComps (slotChunks compIdent rwNone "voxel_terrain" (testSubs.take 0))).length)),
         Int.ofNat (compIdent (encodeSub rwNone "voxel_terrain" [7, 9] none
           ⟨449, 2, 2, some 1⟩)).length,
         Int.ofNat (encodeSub rwNone "voxel_terrain" [7, 9] none
           ⟨449, 2, 2, some 1⟩).length) ∧
      sliceN testOut
        (testModel.header.cell_header_offset +
          CELL_DATA_SIZE * testModel.cell_headers.length +
          ((joinComps (worldChunks compIdent rwNone (testModel.world_data.take 0))).length +
           (joinComps (cellChunks compIdent rwNone (testWC.take 11))).length +
           (joinComps (slotChunks compIdent rwNone "voxel_terrain" (testSubs.take 0))).length))
        (compIdent (encodeSub rwNone "voxel_terrain" [7, 9] none
          ⟨449, 2, 2, some 1⟩)).length =
        compIdent (encodeSub rwNone "voxel_terrain" [7, 9] none ⟨449, 2, 2, some 1⟩) :=
  spec_c2 compIdent rwNone testModel.header testModel.cell_headers testModel.world_data
    testOut testChs2 testWrite_ok
    (read_file_ModelOK rwNone decompIdent testBytes testModel testRead_ok)
    0 testCH (by decide) testWC (by decide) 11 "voxel_terrain" testSubs (by decide)
    0 "voxel_terrain" [7, 9] none ⟨449, 2, 2, some 1⟩ (by decide)

theorem spec_c3_witness :
    ∃ ch2 cat2 i p s, testChs2[0]? = some ch2 ∧
      List.lookup "voxel_terrain" ch2 = some cat2 ∧
      cat2.slotAt 0 = some (i, p, s) ∧ i + p ≤ (testOut.length : Int) :=
  spec_c3 compIdent rwNone testModel.header testModel.cell_headers testModel.world_data
    testOut testChs2 testWrite_ok
    (read_file_ModelOK rwNone decompIdent testBytes testModel testRead_ok)
    0 testCH (by decide) testWC (by decide) 11 "voxel_terrain" testSubs (by decide)
    0 "voxel_terrain" [7, 9] none ⟨449, 2, 2, some 1⟩ (by decide)

theorem spec_c4_witness :
    ∃ ch2 cat2, testChs2[0]? = some ch2 ∧ List.lookup "mip" ch2 = some cat2 ∧
      cat2.slotAt 0 = some (0, 0, 0) :=
  spec_c4 rwNone decompIdent compIdent testBytes testModel testOut testChs2
    testRead_ok testWrite_ok 0 testCH (by decide) "mip"
    (.multi none [0, 0, 0, 0, 0, 0] [0, 0, 0, 0, 0, 0] [0, 0, 0, 0, 0, 0]) (by decide)
    0 0 0 0 (by decide) (by decide)

theorem spec_c5_witness :
    parse_header testBytes = parse_header (testBytes.take 60) ∧
    testHeaderBytes.length = 60 ∧
    ∀ out chs2, write_file compIdent rwNone testFH [] [] = .ok (out, chs2) →
      testFH.cell_header_offset = 60 :=
  spec_c5 testBytes testFH testHeaderBytes compIdent rwNone [] [] (by decide) (by decide)

theorem spec_c5_cex :
    write_header testFH = .ok testHeaderBytes ∧ testFH.uuid.length = 16 ∧
    testHeaderBytes.length = 60 ∧ testHeaderBytes.length ≠ 64 ∧
    parse_header testHeaderBytes = .ok testFH :=
  ⟨by decide, by decide, by decide, by decide, by decide⟩

theorem spec_c6_witness :
    parse_header (List.replicate 60 0) =
      .error "Invalid .tile file: Missing MAGIC_KEY" ∧
    read_file rwNone decompIdent (List.replicate 60 0) =
      .error "Invalid .tile file: Missing MAGIC_KEY" :=
  spec_c6 (List.replicate 60 0) rwNone decompIdent (by decide) (by decide)

theorem spec_c6_cex :
    fromLE (sliceN [0, 0, 0, 0] 0 4) ≠ MAGIC_KEY ∧
    parse_header [0, 0, 0, 0] =
      .error "struct.error: unpack_from requires a buffer of at least 60 bytes" ∧
    parse_header [0, 0, 0, 0] ≠ .error "Invalid .tile file: Missing MAGIC_KEY" :=
  ⟨by decide, by decide, by decide⟩

theorem spec_c7_witness :
    ((validate_write rwNone decompIdent testModel testOut).1 = true ↔
      ∃ t2, read_file rwNone decompIdent testOut = .ok t2) ∧
    ∀ t2, read_file rwNone decompIdent testOut = .ok t2 →
      validate_write rwNone decompIdent testModel testOut = (true, [], [], []) :=
  spec_c7 rwNone decompIdent testModel testOut

theorem spec_c8_witness :
    (0, "voxel_terrain", (450 : Int)) ∈ overflowFlags [testCH] 0 :=
  (spec_c8 [testCH] 0 0 "voxel_terrain" 450).mpr
    ⟨testCH, by decide, .scalar (some 1) 449 2 2, by decide, 449, 2, by decide,
      by decide, by decide⟩

theorem spec_c9_witness :
    (∀ a, (descSpec (testModel.header.cell_header_offset +
        CELL_DATA_SIZE * testModel.cell_headers.length)
        (worldChunks compIdent rwNone
          (testModel.world_data.take testModel.cell_headers.length)))[0]? = some a →
      a.1 = Int.ofNat (testModel.header.cell_header_offset +
        CELL_DATA_SIZE * testModel.cell_headers.length)) ∧
    (∀ (k : Nat) (a b : Int × Int × Int),
      (descSpec (testModel.header.cell_header_offset +
        CELL_DATA_SIZE * testModel.cell_headers.length)
        (worldChunks compIdent rwNone
          (testModel.world_data.take testModel.cell_headers.length)))[k]? = some a →
      (descSpec (testModel.header.cell_header_offset +
        CELL_DATA_SIZE * testModel.cell_headers.length)
        (worldChunks compIdent rwNone
          (testModel.world_data.take testModel.cell_headers.length)))[k + 1]? = some b →
      b.1 = a.1 + a.2.1) ∧
    (∀ (k : Nat) (ch : CellHeader), testModel.cell_headers[k]? = some ch →
     ∀ (wc : WorldCell), testModel.world_data[k]? = some wc →
     ∀ (q : Nat) (dtype : String) (subs : List SubCell), wc[q]? = some (dtype, subs) →
     ∀ (j : Nat) (dt : String) (od : List Nat) (dd : Option (List Nat)) (m : Meta),
      subs[j]? = some (.present dt od dd m) →
      ∃ ch2 cat2, testChs2[k]? = some ch2 ∧ List.lookup dtype ch2 = some cat2 ∧
        cat2.slotAt j =
          (descSpec (testModel.header.cell_header_offset +
            CELL_DATA_SIZE * testModel.cell_headers.length)
            (worldChunks compIdent rwNone
              (testModel.world_data.take testModel.cell_headers.length)))[
              (worldChunks compIdent rwNone (testModel.world_data.take k)).length +
              (cellChunks compIdent rwNone (wc.take q)).length +
              (slotChunks compIdent rwNone dtype (subs.take j)).length]?) :=
  spec_c9 compIdent rwNone testModel.header testModel.cell_headers
    testModel.world_data testOut testChs2 testWrite_ok
    (read_file_ModelOK rwNone decompIdent testBytes testModel testRead_ok)

theorem spec_c10_witness :
    parse_cell_header [] ≠
      .error "Invalid .tile file: Cell Header size mismatch" ∧
    parse_cell_header [] =
      .error "struct.error: unpack requires a buffer of 388 bytes" :=
  ⟨(spec_c10 []).1, (spec_c10 []).2 (by decide)⟩

end Tile
